import Mathlib

/-!
# Smith-Waterman local alignment: matrix builder and traceback

A shallow embedding of `smithwaterman` (src/soft.cpp) and of the traceback
routines `findMaximum`, `findPrev`, `printSimilarity` (src/main.cpp).

Conventions of the embedding

* C `int` and `short` values are mathematical integers; every conversion to
  `short` performed by the source is an explicit `toShort` (reduction modulo
  `2^16` into `[-32768, 32767]`), and the 32-bit bit operations work on the
  two's complement bit pattern (`bits32`, `toInt32`).
* The matrix buffer and the sequences are lists; an access outside a list is
  a `Fault.outOfBounds` (the source has undefined behaviour there).
* Products of `int` operands such as `N * N` and `row * mLength + col` are
  exact; the theorems below concern dimensions far below the `int` range.
* Loops carry a fuel argument; running out of fuel is `Fault.outOfFuel`.
-/

set_option linter.unusedVariables false

namespace SmithWaterman

/-! ## Machine arithmetic -/

/-- Ways in which an execution of the source can fail to produce a result. -/
inductive Fault where
  | outOfBounds
  | outOfFuel
  | divideByZero
  | overflow
  deriving DecidableEq, Repr

deriving instance DecidableEq for Except

/-- Conversion of an integer value to a 16-bit signed `short`. -/
def toShort (x : Int) : Int := (x + 32768) % 65536 - 32768

/-- Conversion of an integer value to a 32-bit signed `int`. -/
def toInt32 (x : Int) : Int := (x + 2147483648) % 4294967296 - 2147483648

/-- The unsigned 32-bit pattern of an `int` (two's complement). -/
def bits32 (x : Int) : Nat := (x % 4294967296).toNat

/-- Bitwise and of two 32-bit values (`a & b`). -/
def and32 (a b : Int) : Int := toInt32 (Int.ofNat (Nat.land (bits32 a) (bits32 b)))

/-- Bitwise or of two 32-bit values (`a | b`). -/
def or32 (a b : Int) : Int := toInt32 (Int.ofNat (Nat.lor (bits32 a) (bits32 b)))

/-- Left shift of a 32-bit value (`a << k`). -/
def shl32 (a : Int) (k : Nat) : Int := toInt32 (a * 2 ^ k)

/-- Arithmetic right shift of a 32-bit value (`a >> k`). -/
def sar32 (a : Int) (k : Nat) : Int := a / 2 ^ k

/-- C integer division (truncation toward zero). -/
def cDiv (a b : Int) : Int := Int.tdiv a b

/-- C integer remainder (sign of the dividend). -/
def cMod (a b : Int) : Int := Int.tmod a b

/-- Read of `xs[k]`; outside the buffer it is a fault. -/
def load {α : Type} (xs : List α) (k : Int) : Except Fault α :=
  if k < 0 then .error .outOfBounds
  else match xs[k.toNat]? with
    | some v => .ok v
    | none => .error .outOfBounds

/-- Write `xs[k] = v`; outside the buffer it is a fault. -/
def store {α : Type} (xs : List α) (k : Int) (v : α) : Except Fault (List α) :=
  if k < 0 then .error .outOfBounds
  else if k.toNat < xs.length then .ok (xs.set k.toNat v)
  else .error .outOfBounds

/-- The call `std::memset(matrix, 0, cells * 4)`: the first `cells` entries of
the buffer become zero, the rest is untouched.  The byte count `cells * 4` is
computed in `int`; a count that does not fit is a fault. -/
def memsetZero (matrix : List Int) (cells : Int) : Except Fault (List Int) :=
  if cells < 0 then .error .outOfBounds
  else if 2147483647 < cells * 4 then .error .overflow
  else if cells.toNat ≤ matrix.length then
    .ok (List.replicate cells.toNat 0 ++ matrix.drop cells.toNat)
  else .error .outOfBounds

/-! ## Constants of src/soft.cpp and src/main.cpp -/

def GAP : Int := -1
def MATCH : Int := 2
def MISS_MATCH : Int := -1
def CENTER : Int := 0
def NORTH : Int := 1
def NORTH_WEST : Int := 2
def WEST : Int := 3

/-! ## The matrix builder `smithwaterman` (src/soft.cpp) -/

/-- The variables of `smithwaterman` that live across loop iterations. -/
structure SWState where
  matrix : List Int
  north : Int
  west : Int
  northwest : Int
  maxValue : Int
  localMaxIndex : Int
  index : Int
  deriving DecidableEq, Repr

/-- One iteration of the `for` loop of `smithwaterman`, the increment
`index++` of the 16-bit counter included. -/
def swBody (s1 s2 : List Char) (N : Int) (st : SWState) : Except Fault SWState :=
  let j := toShort (cMod st.index N)
  if j = 0 then
    .ok { st with west := 0, northwest := 0, index := toShort (st.index + 1) }
  else
    let i := toShort (cDiv st.index N)
    match load st.matrix (st.index - N) with
    | .error e => .error e
    | .ok temp0 =>
      let temp := and32 temp0 0x0000ffff
      let north := toShort temp
      match load s1 j, load s2 i with
      | .ok c1, .ok c2 =>
        let mtch := if c1 = c2 then MATCH else MISS_MATCH
        let valNW := toShort (st.northwest + mtch)
        let val_a := if valNW > 0 then valNW else 0
        let dir_a := if valNW > 0 then NORTH_WEST else CENTER
        let valN := toShort (north + GAP)
        let val_b := if valN > val_a then valN else val_a
        let dir_b := if valN > val_a then NORTH else dir_a
        let valW := toShort (st.west + GAP)
        let val := if valW > val_b then valW else val_b
        let dir := if valW > val_b then WEST else dir_b
        let cell := or32 (shl32 dir 16) val
        match store st.matrix st.index cell with
        | .error e => .error e
        | .ok matrix =>
          .ok { matrix := matrix
                north := north
                west := val
                northwest := north
                maxValue := if val > st.maxValue then val else st.maxValue
                localMaxIndex := if val > st.maxValue then st.index else st.localMaxIndex
                index := toShort (st.index + 1) }
      | .error e, _ => .error e
      | _, .error e => .error e

/-- The `for` loop of `smithwaterman`: while `index < N * N`, run the body. -/
def swLoop (s1 s2 : List Char) (N : Int) : Nat → SWState → Except Fault SWState
  | 0, _ => .error .outOfFuel
  | fuel + 1, st =>
    if st.index < N * N then
      match swBody s1 s2 N st with
      | .ok st1 => swLoop s1 s2 N fuel st1
      | .error e => .error e
    else .ok st

/-- The function `smithwaterman`: the result is the final matrix buffer and the
value written to `*maxIndex`.  The previous value of `*maxIndex` is an
argument because the source receives it (and overwrites it). -/
def smithwaterman (fuel : Nat) (matrix : List Int) (maxIndex : Int)
    (s1 s2 : List Char) (N : Int) : Except Fault (List Int × Int) :=
  match memsetZero matrix (N * N) with
  | .error e => .error e
  | .ok zeroed =>
    match swLoop s1 s2 N fuel
        { matrix := zeroed, north := 0, west := 0, northwest := 0,
          maxValue := 0, localMaxIndex := 0, index := toShort N } with
    | .error e => .error e
    | .ok st => .ok (st.matrix, st.localMaxIndex)

/-- The score field of a packed cell: the low 16 bits, as the builder reads
them back (line `temp &= 0x0000ffff; north = (short)temp`). -/
def scoreOf (cell : Int) : Int := toShort (and32 cell 0x0000ffff)

/-- The direction field of a packed cell: the high 16 bits, as `findPrev`
extracts them (`val &= 0xFFFF0000; val >>= 16`). -/
def dirOf (cell : Int) : Int := sar32 (and32 cell 0xFFFF0000) 16

/-! ## The traceback of src/main.cpp -/

/-- The type `Position` of src/main.cpp: `first` is the row, `second` the
column. -/
abbrev Position := Int × Int

/-- The fields of `KernelHostData` that the traceback reads.  `mMaxIndex` is
element 0 of the source's array of that name, the only element in use. -/
structure KernelHostData where
  mMatrix : List Int
  mSequence1 : List Char
  mSequence2 : List Char
  mLength : Int
  mMaxIndex : Int
  deriving DecidableEq, Repr

/-- The function `findMaximum`: decode the recorded index into row and column. -/
def findMaximum (hostData : KernelHostData) : Except Fault Position :=
  if hostData.mLength = 0 then .error .divideByZero
  else .ok (cDiv hostData.mMaxIndex hostData.mLength,
            cMod hostData.mMaxIndex hostData.mLength)

/-- The function `findPrev`: the predecessor named by the direction code of
the cell at `current`, or `(-1, -1)` for any other code. -/
def findPrev (hostData : KernelHostData) (current : Position) : Except Fault Position :=
  match load hostData.mMatrix (current.1 * hostData.mLength + current.2) with
  | .error e => .error e
  | .ok val0 =>
    let val := sar32 (and32 val0 0xFFFF0000) 16
    if val = NORTH then .ok (current.1 - 1, current.2)
    else if val = WEST then .ok (current.1, current.2 - 1)
    else if val = NORTH_WEST then .ok (current.1 - 1, current.2 - 1)
    else .ok (-1, -1)

/-- The `while (current != prev)` loop of `printSimilarity`; the result is the
pair `(alignment1, alignment2)` at loop exit. -/
def traceLoop (hostData : KernelHostData) :
    Nat → Position → Position → List Char → List Char →
      Except Fault (List Char × List Char)
  | 0, _, _, _, _ => .error .outOfFuel
  | fuel + 1, current, prev, alignment1, alignment2 =>
    if current ≠ prev then
      match load hostData.mMatrix (current.1 * hostData.mLength + current.2) with
      | .error e => .error e
      | .ok cell =>
        if cell = 0 then .ok (alignment1, alignment2)
        else
          let e2 : Except Fault Char :=
            if prev.1 = current.1 then .ok '-' else load hostData.mSequence2 current.1
          let e1 : Except Fault Char :=
            if prev.2 = current.2 then .ok '-' else load hostData.mSequence1 current.2
          match e2, e1 with
          | .ok c2, .ok c1 =>
            match findPrev hostData prev with
            | .error e => .error e
            | .ok prev1 => traceLoop hostData fuel prev prev1 (c1 :: alignment1) (c2 :: alignment2)
          | .error e, _ => .error e
          | _, .error e => .error e
    else .ok (alignment1, alignment2)

/-- The first part of `printSimilarity`, up to the exit of its loop: the two
vectors `alignment1` and `alignment2`. -/
def traceback (fuel : Nat) (hostData : KernelHostData) :
    Except Fault (List Char × List Char) :=
  match findMaximum hostData with
  | .error e => .error e
  | .ok current =>
    match findPrev hostData current with
    | .error e => .error e
    | .ok prev => traceLoop hostData fuel current prev [] []

/-- The function `printSimilarity`: its return value, and the two alignment
strings it prints (none when it returns before printing). -/
def printSimilarity (fuel : Nat) (hostData : KernelHostData) :
    Except Fault (Int × Option (List Char × List Char)) :=
  match traceback fuel hostData with
  | .error e => .error e
  | .ok (alignment1, alignment2) =>
    if alignment1.length ≠ alignment2.length then .ok (-1, none)
    else if alignment1.length = 0 then .ok (-1, none)
    else if alignment2.length = 0 then .ok (-1, none)
    else if alignment1.length = 1 then .ok (-1, none)
    else .ok (0, some (alignment1, alignment2))

/-- The software path of `main`: `smithwaterman` on the host buffers (as
`runSoftware` calls it, one iteration), then `printSimilarity`. -/
def alignSoftware (fuel : Nat) (matrix : List Int) (s1 s2 : List Char) (N : Int) :
    Except Fault (Int × Option (List Char × List Char)) :=
  match smithwaterman fuel matrix 0 s1 s2 N with
  | .error e => .error e
  | .ok (m, idx) =>
    printSimilarity fuel
      { mMatrix := m, mSequence1 := s1, mSequence2 := s2, mLength := N, mMaxIndex := idx }

/-! ## Readers of the packed matrix -/

/-- The packed cell of row `i`, column `j` of a row-major `L x L` matrix. -/
def cellAt (m : List Int) (L i j : Nat) : Int := m.getD (i * L + j) 0

/-- The score stored at row `i`, column `j`. -/
def scoreAt (m : List Int) (L i j : Nat) : Int := scoreOf (cellAt m L i j)

/-- The direction code stored at row `i`, column `j`. -/
def dirAt (m : List Int) (L i j : Nat) : Int := dirOf (cellAt m L i j)

/-- The host data handed to the traceback after a run of the builder. -/
def hostOf (m : List Int) (s1 s2 : List Char) (L : Nat) (idx : Int) : KernelHostData :=
  { mMatrix := m, mSequence1 := s1, mSequence2 := s2, mLength := (L : Int), mMaxIndex := idx }

/-- The state in which `smithwaterman` enters its loop, after the `memset`. -/
def swInit (zeroed : List Int) (N : Int) : SWState :=
  { matrix := zeroed, north := 0, west := 0, northwest := 0,
    maxValue := 0, localMaxIndex := 0, index := toShort N }

/-- The state after exactly `t` iterations of the loop body. -/
def swSteps (s1 s2 : List Char) (N : Int) : Nat → SWState → Except Fault SWState
  | 0, st => .ok st
  | t + 1, st =>
    match swSteps s1 s2 N t st with
    | .ok st1 => swBody s1 s2 N st1
    | .error e => .error e

/-! ## The recurrence in exact arithmetic

These functions restate the cell computation of the loop body over unbounded
integers.  They serve as the reference the embedded loop is proved equal to. -/

/-- The value of `match` for row `i` and column `j`. -/
def matchScore (s1 s2 : List Char) (i j : Nat) : Int :=
  if s1[j]? = s2[i]? then MATCH else MISS_MATCH

/-- The value left in `val` by the three comparisons of the body, given the
three candidates. -/
def bestVal (cNW cN cW : Int) : Int :=
  let a := if cNW > 0 then cNW else 0
  let b := if cN > a then cN else a
  if cW > b then cW else b

/-- The value left in `dir` by the three comparisons of the body. -/
def bestDir (cNW cN cW : Int) : Int :=
  let a := if cNW > 0 then cNW else 0
  let da := if cNW > 0 then NORTH_WEST else CENTER
  let b := if cN > a then cN else a
  let db := if cN > a then NORTH else da
  if cW > b then WEST else db

/-- One row of reference scores from the previous row. -/
def refRow (s1 s2 : List Char) (i : Nat) (prev : Nat → Int) : Nat → Int
  | 0 => 0
  | j + 1 =>
    bestVal (prev j + matchScore s1 s2 i (j + 1)) (prev (j + 1) + GAP)
      (refRow s1 s2 i prev j + GAP)

/-- Reference score of row `i`, column `j`. -/
def refScore (s1 s2 : List Char) : Nat → Nat → Int
  | 0 => fun _ => 0
  | i + 1 => refRow s1 s2 (i + 1) (refScore s1 s2 i)

/-- Reference direction of row `i`, column `j`. -/
def refDir (s1 s2 : List Char) : Nat → Nat → Int
  | 0, _ => CENTER
  | _ + 1, 0 => CENTER
  | i + 1, j + 1 =>
    bestDir (refScore s1 s2 i j + matchScore s1 s2 (i + 1) (j + 1))
      (refScore s1 s2 i (j + 1) + GAP) (refScore s1 s2 (i + 1) j + GAP)

/-- Reference packed cell at row-major index `idx` of an `n x n` matrix. -/
def refCell (s1 s2 : List Char) (n idx : Nat) : Int :=
  refDir s1 s2 (idx / n) (idx % n) * 65536 + refScore s1 s2 (idx / n) (idx % n)

/-! ## Gapped alignments -/

/-- One column of a gapped alignment of a piece of sequence 1 with a piece of
sequence 2. -/
inductive Column where
  | pair (a b : Char)
  | gapIn2 (a : Char)
  | gapIn1 (b : Char)
  deriving DecidableEq, Repr

/-- Score of a column: `+2` for equal symbols, `-1` for different symbols,
`-1` for a gap. -/
def Column.score : Column → Int
  | .pair a b => if a = b then 2 else -1
  | .gapIn2 _ => -1
  | .gapIn1 _ => -1

/-- Score of an alignment: the sum of its column scores (0 when empty). -/
def alignScore : List Column → Int
  | [] => 0
  | c :: cs => c.score + alignScore cs

/-- The symbols of sequence 1 an alignment consumes, in order. -/
def alignLeft : List Column → List Char
  | [] => []
  | .pair a _ :: cs => a :: alignLeft cs
  | .gapIn2 a :: cs => a :: alignLeft cs
  | .gapIn1 _ :: cs => alignLeft cs

/-- The symbols of sequence 2 an alignment consumes, in order. -/
def alignRight : List Column → List Char
  | [] => []
  | .pair _ b :: cs => b :: alignRight cs
  | .gapIn2 _ :: cs => alignRight cs
  | .gapIn1 b :: cs => b :: alignRight cs

/-! ## Loop invariant of the builder -/

/-- The state of the loop of `smithwaterman` when every index below `k` has
been processed on an `n x n` matrix whose buffer initially was `m0`. -/
structure SWInv (s1 s2 : List Char) (n : Nat) (m0 : List Int) (k : Nat)
    (st : SWState) : Prop where
  index : st.index = (k : Int)
  len : st.matrix.length = m0.length
  done : ∀ idx, idx < k → st.matrix[idx]? = some (refCell s1 s2 n idx)
  todo : ∀ idx, k ≤ idx → idx < n * n → st.matrix[idx]? = some 0
  rest : ∀ idx, n * n ≤ idx → st.matrix[idx]? = m0[idx]?
  roll : k % n ≠ 0 →
    st.west = refScore s1 s2 (k / n) (k % n - 1) ∧
    st.northwest = refScore s1 s2 (k / n - 1) (k % n - 1)
  best : ∃ q : Nat, st.localMaxIndex = (q : Int) ∧ (q < k ∨ q = 0) ∧
    st.maxValue = refScore s1 s2 (q / n) (q % n) ∧
    (∀ idx, idx < k → refScore s1 s2 (idx / n) (idx % n) ≤ st.maxValue) ∧
    (∀ idx, idx < q → refScore s1 s2 (idx / n) (idx % n) < st.maxValue)

/-! ## Tie-break rules for the direction code -/

/-- The direction rule as the specification words it: the first candidate, in
the order NORTH_WEST, NORTH, WEST, CENTER (value 0), whose value equals
`max(0, cNW, cN, cW)`. -/
def specDirection (cNW cN cW : Int) : Int :=
  if cNW = max 0 (max cNW (max cN cW)) then NORTH_WEST
  else if cN = max 0 (max cNW (max cN cW)) then NORTH
  else if cW = max 0 (max cNW (max cN cW)) then WEST
  else CENTER

/-- The direction rule with CENTER first: CENTER when the maximum is 0,
otherwise the first of NORTH_WEST, NORTH, WEST whose value equals the
maximum. -/
def centerFirstDirection (cNW cN cW : Int) : Int :=
  if max 0 (max cNW (max cN cW)) = 0 then CENTER
  else if cNW = max 0 (max cNW (max cN cW)) then NORTH_WEST
  else if cN = max 0 (max cNW (max cN cW)) then NORTH
  else WEST

/-- The predecessor that `findPrev` returns on the main diagonal of the matrix
of two identical sequences: `(i - 1, i - 1)`, and `(-1, -1)` at the corner. -/
def diagPrev : Nat → Position
  | 0 => (-1, -1)
  | i + 1 => ((i : Int), (i : Int))

/-! ## Instrumented traceback

The same loop as `traceLoop`, recording what it does: for every completed
iteration the column it inserts (for each vector either the gap marker or the
index read and the symbol found there), every position at which the matrix is
read, the position at loop exit and the number of completed iterations. -/

/-- One column inserted by an iteration of the traceback loop: the entry for
`alignment1` and the entry for `alignment2`; `none` is the gap marker,
`some (k, c)` the symbol `c` read at index `k` of the sequence. -/
abbrev TraceColumn := Option (Int × Char) × Option (Int × Char)

/-- The character an entry puts into its alignment vector. -/
def emitted : Option (Int × Char) → Char
  | none => '-'
  | some (_, c) => c

/-- The two alignment vectors spelled by a list of columns. -/
def alignmentsOf (cols : List TraceColumn) : List Char × List Char :=
  (cols.map (fun c => emitted c.1), cols.map (fun c => emitted c.2))

/-- Score of a traceback column: `+2` for two equal symbols, `-1` for two
different symbols, `-1` when a gap marker was inserted. -/
def columnScore : TraceColumn → Int
  | (some (_, a), some (_, b)) => if a = b then 2 else -1
  | _ => -1

/-- Sum of the column scores. -/
def columnsScore : List TraceColumn → Int
  | [] => 0
  | c :: cs => columnScore c + columnsScore cs

/-- The decrease of `row + col` that goes with a column: 2 for a column with
two symbols (a NORTH_WEST step), 1 for a column with a gap marker. -/
def columnWeight : TraceColumn → Nat
  | (some _, some _) => 2
  | _ => 1

/-- Sum of the column weights. -/
def columnsWeight : List TraceColumn → Nat
  | [] => 0
  | c :: cs => columnWeight c + columnsWeight cs

/-- The record kept by the instrumented traceback. -/
structure TraceLog where
  columns : List TraceColumn
  matrixReads : List Position
  current : Position
  iterations : Nat
  deriving DecidableEq, Repr

/-- The loop of `printSimilarity` with its record: the zero guard reads the
matrix at `current`, `findPrev` reads it at `prev`. -/
def traceLoopLog (hostData : KernelHostData) :
    Nat → Position → Position → TraceLog → Except Fault TraceLog
  | 0, _, _, _ => .error .outOfFuel
  | fuel + 1, current, prev, log =>
    if current ≠ prev then
      match load hostData.mMatrix (current.1 * hostData.mLength + current.2) with
      | .error e => .error e
      | .ok cell =>
        if cell = 0 then
          .ok { log with matrixReads := log.matrixReads ++ [current], current := current }
        else
          let e2 : Except Fault (Option (Int × Char)) :=
            if prev.1 = current.1 then .ok none
            else match load hostData.mSequence2 current.1 with
              | .ok c => .ok (some (current.1, c))
              | .error e => .error e
          let e1 : Except Fault (Option (Int × Char)) :=
            if prev.2 = current.2 then .ok none
            else match load hostData.mSequence1 current.2 with
              | .ok c => .ok (some (current.2, c))
              | .error e => .error e
          match e2, e1 with
          | .ok c2, .ok c1 =>
            match findPrev hostData prev with
            | .error e => .error e
            | .ok prev1 =>
              traceLoopLog hostData fuel prev prev1
                { columns := (c1, c2) :: log.columns
                  matrixReads := log.matrixReads ++ [current, prev]
                  current := prev
                  iterations := log.iterations + 1 }
          | .error e, _ => .error e
          | _, .error e => .error e
    else .ok { log with current := current }

/-- The first part of `printSimilarity` with its record; the call of
`findPrev` before the loop reads the matrix at the start position. -/
def tracebackLog (fuel : Nat) (hostData : KernelHostData) : Except Fault TraceLog :=
  match findMaximum hostData with
  | .error e => .error e
  | .ok current =>
    match findPrev hostData current with
    | .error e => .error e
    | .ok prev =>
      traceLoopLog hostData fuel current prev
        { columns := [], matrixReads := [current], current := current, iterations := 0 }

/-- Row of the predecessor for direction code `d` (NORTH and NORTH_WEST move
one row up, WEST stays). -/
def predRow (d : Int) (i : Nat) : Nat := if d = WEST then i else i - 1

/-- Column of the predecessor for direction code `d` (WEST and NORTH_WEST move
one column left, NORTH stays). -/
def predCol (d : Int) (j : Nat) : Nat := if d = NORTH then j else j - 1

/-- The position `findPrev` returns for direction code `d` at row `i`,
column `j`. -/
def prevPos (d : Int) (i j : Nat) : Position :=
  if d = NORTH then ((i : Int) - 1, (j : Int))
  else if d = WEST then ((i : Int), (j : Int) - 1)
  else if d = NORTH_WEST then ((i : Int) - 1, (j : Int) - 1)
  else (-1, -1)

/-- A position inside the `L x L` matrix. -/
def InMatrix (L : Nat) (p : Position) : Prop :=
  0 ≤ p.1 ∧ p.1 < (L : Int) ∧ 0 ≤ p.2 ∧ p.2 < (L : Int)

/-- A traceback column whose symbols were read from `s1` and `s2` at indices
in `1 .. L - 1`, and which does not hold two gap markers. -/
def GoodColumn (s1 s2 : List Char) (L : Nat) (c : TraceColumn) : Prop :=
  c ≠ (none, none) ∧
  (∀ k ch, c.1 = some (k, ch) → 1 ≤ k ∧ k < (L : Int) ∧ s1[k.toNat]? = some ch) ∧
  (∀ k ch, c.2 = some (k, ch) → 1 ≤ k ∧ k < (L : Int) ∧ s2[k.toNat]? = some ch)

/-- The record `out` extends the record `log` by a traceback that starts at
row `i`, column `j` of the matrix built from `s1`, `s2`. -/
structure TraceFrom (s1 s2 : List Char) (L i j : Nat) (log out : TraceLog) : Prop where
  path : ∃ (cols : List TraceColumn) (a b : Nat),
    out.columns = cols ++ log.columns ∧
    out.iterations = log.iterations + cols.length ∧
    columnsScore cols = refScore s1 s2 i j ∧
    (∀ c, c ∈ cols → GoodColumn s1 s2 L c) ∧
    (refScore s1 s2 i j = 0 → cols = []) ∧
    (0 < refScore s1 s2 i j → 1 ≤ cols.length) ∧
    (0 < refScore s1 s2 i j →
      refScore s1 s2 (predRow (refDir s1 s2 i j) i) (predCol (refDir s1 s2 i j) j) = 0 →
      cols.length = 1) ∧
    out.current = ((a : Int), (b : Int)) ∧ a < L ∧ b < L ∧
    refScore s1 s2 a b = 0 ∧
    cols.length + (a + b) ≤ i + j ∧
    columnsWeight cols + (a + b) = i + j
  reads : ∃ (reads : List Position),
    out.matrixReads = log.matrixReads ++ reads ∧ ∀ p, p ∈ reads → InMatrix L p


/-! ## Machine arithmetic: basic facts -/

theorem toShort_of_range (x : Int) (h1 : -32768 ≤ x) (h2 : x ≤ 32767) : toShort x = x := by
  unfold toShort; omega

theorem toInt32_of_range (x : Int) (h1 : -2147483648 ≤ x) (h2 : x ≤ 2147483647) :
    toInt32 x = x := by
  unfold toInt32; omega

theorem bits32_of_nat (c : Nat) (h : c < 4294967296) : bits32 (c : Int) = c := by
  unfold bits32; omega

theorem nat_land_low (c : Nat) : Nat.land c 65535 = c % 65536 := by
  have := Nat.and_pow_two_sub_one_eq_mod c 16
  simpa using this

theorem nat_land_high (c : Nat) (h : c < 4294967296) :
    Nat.land c 4294901760 = c - c % 65536 := by
  have e : c = 2 ^ 16 * (c / 65536) + c % 65536 := by omega
  have hr : c % 65536 < 2 ^ 16 := by omega
  apply Nat.eq_of_testBit_eq
  intro i
  have e2 : c - c % 65536 = 2 ^ 16 * (c / 65536) + 0 := by omega
  have hm : (4294901760 : Nat) = 2 ^ 16 * 65535 + 0 := by norm_num
  show (c &&& 4294901760).testBit i = _
  rw [Nat.testBit_and, e2, hm]
  conv_lhs => rw [e]
  rw [Nat.testBit_mul_pow_two_add _ hr, Nat.testBit_mul_pow_two_add _ (by norm_num),
    Nat.testBit_mul_pow_two_add _ (by norm_num)]
  by_cases hi : i < 16
  · simp [hi]
  · simp only [hi, if_false]
    have : (65535 : Nat) = 2 ^ 16 - 1 := by norm_num
    rw [this, Nat.testBit_two_pow_sub_one]
    by_cases h2 : i - 16 < 16
    · simp [h2]
    · simp only [h2, decide_False, Bool.and_false]
      symm
      apply Nat.testBit_lt_two_pow
      calc c / 65536 < 2 ^ 16 := by omega
        _ ≤ 2 ^ (i - 16) := Nat.pow_le_pow_right (by norm_num) (by omega)

theorem nat_lor_pack (d v : Nat) (hv : v < 65536) :
    Nat.lor (d * 65536) v = d * 65536 + v := by
  have := @Nat.mul_add_lt_is_or 16 v (by simpa using hv) d
  show d * 65536 ||| v = _
  rw [show d * 65536 = 2 ^ 16 * d by ring]
  exact this.symm

theorem and32_low (c : Int) (h0 : 0 ≤ c) (h1 : c < 2147483648) :
    and32 c 0x0000ffff = c % 65536 := by
  obtain ⟨k, rfl⟩ := Int.eq_ofNat_of_zero_le h0
  unfold and32
  rw [bits32_of_nat k (by omega), show ((0x0000ffff : Int)) = ((65535 : Nat) : Int) by rfl,
    bits32_of_nat 65535 (by norm_num), nat_land_low]
  rw [toInt32_of_range] <;> simp <;> omega

theorem and32_high (c : Int) (h0 : 0 ≤ c) (h1 : c < 2147483648) :
    and32 c 0xFFFF0000 = c - c % 65536 := by
  obtain ⟨k, rfl⟩ := Int.eq_ofNat_of_zero_le h0
  unfold and32
  rw [bits32_of_nat k (by omega), show ((0xFFFF0000 : Int)) = ((4294901760 : Nat) : Int) by rfl,
    bits32_of_nat 4294901760 (by norm_num), nat_land_high k (by omega)]
  rw [toInt32_of_range] <;> simp <;> omega

theorem pack_eq (d v : Int) (hd0 : 0 ≤ d) (hd1 : d ≤ 3) (hv0 : 0 ≤ v) (hv1 : v < 65536) :
    or32 (shl32 d 16) v = d * 65536 + v := by
  obtain ⟨a, rfl⟩ := Int.eq_ofNat_of_zero_le hd0
  obtain ⟨b, rfl⟩ := Int.eq_ofNat_of_zero_le hv0
  have hs : shl32 (a : Int) 16 = ((a * 65536 : Nat) : Int) := by
    unfold shl32
    rw [toInt32_of_range] <;> push_cast <;> omega
  unfold or32
  rw [hs, bits32_of_nat _ (by omega), bits32_of_nat _ (by omega), nat_lor_pack a b (by omega)]
  rw [toInt32_of_range] <;> simp <;> omega

theorem scoreOf_pack (d v : Int) (hd0 : 0 ≤ d) (hd1 : d ≤ 3) (hv0 : 0 ≤ v) (hv1 : v < 32768) :
    scoreOf (d * 65536 + v) = v := by
  unfold scoreOf
  rw [and32_low _ (by omega) (by omega), toShort_of_range] <;> omega

theorem dirOf_pack (d v : Int) (hd0 : 0 ≤ d) (hd1 : d ≤ 3) (hv0 : 0 ≤ v) (hv1 : v < 32768) :
    dirOf (d * 65536 + v) = d := by
  unfold dirOf sar32
  rw [and32_high _ (by omega) (by omega)]
  norm_num
  omega

/-! ## The reference recurrence -/

theorem bestVal_eq_max (a b c : Int) : bestVal a b c = max 0 (max a (max b c)) := by
  unfold bestVal
  simp only []
  split_ifs <;> omega

theorem bestDir_range (a b c : Int) : 0 ≤ bestDir a b c ∧ bestDir a b c ≤ 3 := by
  unfold bestDir NORTH_WEST NORTH WEST CENTER
  simp only []
  split_ifs <;> omega

theorem matchScore_cases (s1 s2 : List Char) (i j : Nat) :
    matchScore s1 s2 i j = 2 ∨ matchScore s1 s2 i j = -1 := by
  unfold matchScore MATCH MISS_MATCH
  split_ifs <;> simp

theorem refScore_zero_row (s1 s2 : List Char) (j : Nat) : refScore s1 s2 0 j = 0 := rfl

theorem refScore_zero_col (s1 s2 : List Char) (i : Nat) : refScore s1 s2 i 0 = 0 := by
  cases i <;> rfl

theorem refScore_succ (s1 s2 : List Char) (i j : Nat) :
    refScore s1 s2 (i + 1) (j + 1) =
      bestVal (refScore s1 s2 i j + matchScore s1 s2 (i + 1) (j + 1))
        (refScore s1 s2 i (j + 1) + GAP) (refScore s1 s2 (i + 1) j + GAP) := rfl

theorem refDir_zero_row (s1 s2 : List Char) (j : Nat) : refDir s1 s2 0 j = 0 := rfl

theorem refDir_zero_col (s1 s2 : List Char) (i : Nat) : refDir s1 s2 i 0 = 0 := by
  cases i <;> rfl

theorem refDir_succ (s1 s2 : List Char) (i j : Nat) :
    refDir s1 s2 (i + 1) (j + 1) =
      bestDir (refScore s1 s2 i j + matchScore s1 s2 (i + 1) (j + 1))
        (refScore s1 s2 i (j + 1) + GAP) (refScore s1 s2 (i + 1) j + GAP) := rfl

theorem refDir_range (s1 s2 : List Char) (i j : Nat) :
    0 ≤ refDir s1 s2 i j ∧ refDir s1 s2 i j ≤ 3 := by
  cases i with
  | zero => simp [refDir_zero_row]
  | succ i =>
    cases j with
    | zero => simp [refDir_zero_col]
    | succ j => rw [refDir_succ]; exact bestDir_range _ _ _

theorem refScore_nonneg (s1 s2 : List Char) (i j : Nat) : 0 ≤ refScore s1 s2 i j := by
  cases i with
  | zero => simp [refScore_zero_row]
  | succ i =>
    cases j with
    | zero => simp [refScore_zero_col]
    | succ j => rw [refScore_succ, bestVal_eq_max]; omega

theorem refScore_le_row (s1 s2 : List Char) (i j : Nat) :
    refScore s1 s2 i j ≤ 2 * (i : Int) := by
  induction i generalizing j with
  | zero => simp [refScore_zero_row]
  | succ i ih =>
    induction j with
    | zero => rw [refScore_zero_col]; omega
    | succ j ihj =>
      rw [refScore_succ, bestVal_eq_max]
      have h1 := ih j
      have h2 := ih (j + 1)
      have h3 := matchScore_cases s1 s2 (i + 1) (j + 1)
      unfold GAP
      push_cast
      omega

theorem refScore_le_col (s1 s2 : List Char) (i j : Nat) :
    refScore s1 s2 i j ≤ 2 * (j : Int) := by
  induction i generalizing j with
  | zero => simp [refScore_zero_row]
  | succ i ih =>
    induction j with
    | zero => rw [refScore_zero_col]; omega
    | succ j ihj =>
      rw [refScore_succ, bestVal_eq_max]
      have h1 := ih j
      have h2 := ih (j + 1)
      have h3 := matchScore_cases s1 s2 (i + 1) (j + 1)
      unfold GAP
      push_cast
      omega

theorem refCell_boundary (s1 s2 : List Char) (n idx : Nat)
    (h : idx < n ∨ idx % n = 0) : refCell s1 s2 n idx = 0 := by
  unfold refCell
  rcases h with h | h
  · rw [Nat.div_eq_of_lt h, refDir_zero_row, refScore_zero_row]; simp
  · rw [h, refDir_zero_col, refScore_zero_col]; simp

theorem dim_le (n : Nat) (h : n * n ≤ 32767) : n ≤ 181 := by
  by_contra hc
  have h1 : 182 ≤ n := by omega
  have h2 : 182 * 182 ≤ n * n := Nat.mul_le_mul h1 h1
  omega

theorem refScore_lt (s1 s2 : List Char) (n i j : Nat) (hnn : n * n ≤ 32767) (hi : i < n) :
    refScore s1 s2 i j < 32768 := by
  have h1 := refScore_le_row s1 s2 i j
  have h2 := dim_le n hnn
  omega

theorem scoreOf_refCell (s1 s2 : List Char) (n idx : Nat) (hnn : n * n ≤ 32767)
    (h : idx < n * n) :
    scoreOf (refCell s1 s2 n idx) = refScore s1 s2 (idx / n) (idx % n) := by
  unfold refCell
  have h0 := refScore_nonneg s1 s2 (idx / n) (idx % n)
  have h3 : idx / n < n := Nat.div_lt_of_lt_mul h
  have h1 := refScore_lt s1 s2 n (idx / n) (idx % n) hnn h3
  have h2 := refDir_range s1 s2 (idx / n) (idx % n)
  exact scoreOf_pack _ _ h2.1 h2.2 h0 h1

theorem dirOf_refCell (s1 s2 : List Char) (n idx : Nat) (hnn : n * n ≤ 32767)
    (h : idx < n * n) :
    dirOf (refCell s1 s2 n idx) = refDir s1 s2 (idx / n) (idx % n) := by
  unfold refCell
  have h0 := refScore_nonneg s1 s2 (idx / n) (idx % n)
  have h3 : idx / n < n := Nat.div_lt_of_lt_mul h
  have h1 := refScore_lt s1 s2 n (idx / n) (idx % n) hnn h3
  have h2 := refDir_range s1 s2 (idx / n) (idx % n)
  exact dirOf_pack _ _ h2.1 h2.2 h0 h1

/-! ## One iteration of the loop, evaluated -/

theorem load_nat {α : Type} (xs : List α) (k : Nat) (v : α) (h : xs[k]? = some v) :
    load xs (k : Int) = .ok v := by
  unfold load
  simp [h]

theorem store_nat {α : Type} (xs : List α) (k : Nat) (v : α) (h : k < xs.length) :
    store xs (k : Int) v = .ok (xs.set k v) := by
  unfold store
  simp [h]

theorem cand_no_wrap (a m : Int) (ha : 0 ≤ a ∧ a ≤ 32000) (hm : m = 2 ∨ m = -1) :
    toShort (a + m) = a + m := by
  apply toShort_of_range <;> omega

theorem gap_no_wrap (a : Int) (ha : 0 ≤ a ∧ a ≤ 32000) : toShort (a + GAP) = a + GAP := by
  unfold GAP
  apply toShort_of_range <;> omega

theorem bestVal_bounds (a b c m : Int) (ha : 0 ≤ a ∧ a ≤ 32000) (hb : 0 ≤ b ∧ b ≤ 32000)
    (hc : 0 ≤ c ∧ c ≤ 32000) (hm : m = 2 ∨ m = -1) :
    0 ≤ bestVal (a + m) (b + GAP) (c + GAP) ∧ bestVal (a + m) (b + GAP) (c + GAP) < 65536 := by
  rw [bestVal_eq_max]
  unfold GAP
  omega

theorem cast_sub_of_le (k n : Nat) (h : n ≤ k) : ((k : Int) - (n : Int)) = ((k - n : Nat) : Int) := by
  omega

theorem toShort_succ (k : Nat) (h : k < 32767) : toShort ((k : Int) + 1) = ((k + 1 : Nat) : Int) := by
  rw [toShort_of_range] <;> push_cast <;> omega

theorem toShort_nat (k : Nat) (h : k ≤ 32767) : toShort (k : Int) = (k : Int) := by
  rw [toShort_of_range] <;> omega

theorem swBody_skip (s1 s2 : List Char) (n k : Nat) (st : SWState)
    (hidx : st.index = (k : Int)) (hk : k % n = 0) (hk2 : k < 32767) :
    swBody s1 s2 (n : Int) st =
      .ok { st with west := 0, northwest := 0, index := ((k + 1 : Nat) : Int) } := by
  have hj : toShort (cMod st.index (n : Int)) = 0 := by
    rw [hidx]; unfold cMod; rw [← Int.ofNat_tmod, hk]; rfl
  have hi : toShort (st.index + 1) = ((k + 1 : Nat) : Int) := by
    rw [hidx]; exact toShort_succ k hk2
  unfold swBody
  simp only [hj, if_true, hi]

theorem swBody_cell (s1 s2 : List Char) (n k : Nat) (st : SWState) (c0 : Int) (c1 c2 : Char)
    (hk2 : k < 32767) (hkn : n ≤ k)
    (hidx : st.index = (k : Int)) (hj : k % n ≠ 0)
    (hl : st.matrix[k - n]? = some c0) (h1 : s1[k % n]? = some c1)
    (h2 : s2[k / n]? = some c2) (hlen : k < st.matrix.length)
    (hno : 0 ≤ scoreOf c0 ∧ scoreOf c0 ≤ 32000)
    (hnw : 0 ≤ st.northwest ∧ st.northwest ≤ 32000)
    (hw : 0 ≤ st.west ∧ st.west ≤ 32000) :
    swBody s1 s2 (n : Int) st =
      .ok { matrix := st.matrix.set k
              (bestDir (st.northwest + matchScore s1 s2 (k / n) (k % n))
                  (scoreOf c0 + GAP) (st.west + GAP) * 65536
                + bestVal (st.northwest + matchScore s1 s2 (k / n) (k % n))
                  (scoreOf c0 + GAP) (st.west + GAP))
            north := scoreOf c0
            west := bestVal (st.northwest + matchScore s1 s2 (k / n) (k % n))
                  (scoreOf c0 + GAP) (st.west + GAP)
            northwest := scoreOf c0
            maxValue :=
              if bestVal (st.northwest + matchScore s1 s2 (k / n) (k % n))
                  (scoreOf c0 + GAP) (st.west + GAP) > st.maxValue
              then bestVal (st.northwest + matchScore s1 s2 (k / n) (k % n))
                  (scoreOf c0 + GAP) (st.west + GAP)
              else st.maxValue
            localMaxIndex :=
              if bestVal (st.northwest + matchScore s1 s2 (k / n) (k % n))
                  (scoreOf c0 + GAP) (st.west + GAP) > st.maxValue
              then (k : Int) else st.localMaxIndex
            index := ((k + 1 : Nat) : Int) } := by
  have hkn2 : k % n ≤ 32767 := le_trans (Nat.mod_le _ _) (Nat.le_of_lt hk2)
  have hkn3 : k / n ≤ 32767 := le_trans (Nat.div_le_self _ _) (Nat.le_of_lt hk2)
  have hjj : toShort (cMod st.index (n : Int)) = ((k % n : Nat) : Int) := by
    rw [hidx]; unfold cMod; rw [← Int.ofNat_tmod]; exact toShort_nat _ hkn2
  have hii : toShort (cDiv st.index (n : Int)) = ((k / n : Nat) : Int) := by
    rw [hidx]; unfold cDiv; rw [← Int.ofNat_tdiv]; exact toShort_nat _ hkn3
  have hi : toShort (st.index + 1) = ((k + 1 : Nat) : Int) := by
    rw [hidx]; exact toShort_succ k hk2
  have hjne : ¬ (((k % n : Nat) : Int) = 0) := by
    intro h; exact hj (by exact_mod_cast h)
  have hload : load st.matrix (st.index - (n : Int)) = .ok c0 := by
    rw [hidx, cast_sub_of_le k n hkn]
    exact load_nat _ _ _ hl
  have hl1 := load_nat s1 (k % n) c1 h1
  have hl2 := load_nat s2 (k / n) c2 h2
  have hms : (if c1 = c2 then MATCH else MISS_MATCH) = matchScore s1 s2 (k / n) (k % n) := by
    unfold matchScore
    rw [h1, h2]
    simp
  have hmc := matchScore_cases s1 s2 (k / n) (k % n)
  have hsc : toShort (and32 c0 0x0000ffff) = scoreOf c0 := rfl
  have hA := cand_no_wrap _ _ hnw hmc
  have hB := gap_no_wrap _ hno
  have hC := gap_no_wrap _ hw
  have hv := bestVal_bounds _ _ _ _ hnw hno hw hmc
  have hd := bestDir_range (st.northwest + matchScore s1 s2 (k / n) (k % n))
      (scoreOf c0 + GAP) (st.west + GAP)
  have hp := pack_eq _ _ hd.1 hd.2 hv.1 hv.2
  have hst := store_nat st.matrix k
      (bestDir (st.northwest + matchScore s1 s2 (k / n) (k % n))
                  (scoreOf c0 + GAP) (st.west + GAP) * 65536
                + bestVal (st.northwest + matchScore s1 s2 (k / n) (k % n))
                  (scoreOf c0 + GAP) (st.west + GAP)) hlen
  unfold swBody
  simp only [hjj, hjne, if_false, hii, hload, hl1, hl2, hms, hsc, hA, hB, hC, hi]
  unfold bestVal bestDir at hp hst ⊢
  simp only [] at hp hst ⊢
  rw [hp, hidx, hst]

/-! ## Index arithmetic for the row-major layout -/

theorem succ_divmod (k n : Nat) (h : (k + 1) % n ≠ 0) :
    (k + 1) % n = k % n + 1 ∧ (k + 1) / n = k / n := by
  rcases Nat.eq_zero_or_pos n with h0 | hn
  · subst h0; simp
  have h1 := Nat.div_add_mod k n
  have h2 := Nat.mod_lt k hn
  by_cases h3 : k % n + 1 < n
  · have h4 : k + 1 = (k % n + 1) + n * (k / n) := by omega
    constructor
    · rw [h4, Nat.add_mul_mod_self_left, Nat.mod_eq_of_lt h3]
    · conv_lhs => rw [h4]
      rw [Nat.add_mul_div_left _ _ hn, Nat.div_eq_of_lt h3]; simp
  · exfalso
    apply h
    have h4 : k + 1 = n * (k / n + 1) := by
      rw [Nat.mul_add]; omega
    rw [h4, Nat.mul_mod_right]

theorem succ_mod_of_zero (k n : Nat) (hk : k % n = 0) (h : (k + 1) % n ≠ 0) :
    (k + 1) % n = 1 ∧ (k + 1) / n = k / n := by
  have := succ_divmod k n h
  rw [hk] at this
  simpa using this

theorem sub_divmod (k n : Nat) (hn : 0 < n) (h : n ≤ k) :
    (k - n) % n = k % n ∧ (k - n) / n = k / n - 1 := by
  constructor
  · exact (Nat.mod_eq_sub_mod h).symm
  · rw [Nat.div_eq_sub_div hn h]; simp

theorem div_range (k n : Nat) (h1 : n ≤ k) (h2 : k < n * n) : 1 ≤ k / n ∧ k / n < n := by
  have hn : 0 < n := by
    rcases Nat.eq_zero_or_pos n with h0 | h0
    · subst h0; simp at h2
    · exact h0
  exact ⟨(Nat.one_le_div_iff hn).mpr h1, Nat.div_lt_of_lt_mul h2⟩

theorem idx_lt (i j n : Nat) (hi : i < n) (hj : j < n) : i * n + j < n * n := by
  have h1 : (i + 1) * n ≤ n * n := Nat.mul_le_mul_right n hi
  rw [Nat.add_mul] at h1
  omega

theorem idx_divmod (i j n : Nat) (hj : j < n) : (i * n + j) / n = i ∧ (i * n + j) % n = j := by
  have hn : 0 < n := by omega
  constructor
  · rw [Nat.add_comm, Nat.add_mul_div_right _ _ hn, Nat.div_eq_of_lt hj]; simp
  · rw [Nat.add_comm, Nat.add_mul_mod_self_right, Nat.mod_eq_of_lt hj]

/-! ## The loop invariant is preserved -/

theorem refScore_bounds (s1 s2 : List Char) (n i j : Nat) (hnn : n * n ≤ 32767) (hi : i < n) :
    0 ≤ refScore s1 s2 i j ∧ refScore s1 s2 i j ≤ 32000 := by
  have h0 := refScore_nonneg s1 s2 i j
  have h1 := refScore_le_row s1 s2 i j
  have h2 := dim_le n hnn
  omega

theorem getElem?_some_of_lt {α : Type} (l : List α) (i : Nat) (h : i < l.length) :
    ∃ c, l[i]? = some c :=
  ⟨l[i], List.getElem?_eq_getElem h⟩

theorem SWInv.step (s1 s2 : List Char) (n : Nat) (m0 : List Int) (k : Nat) (st : SWState)
    (hnn : n * n ≤ 32767) (h1 : s1.length = n) (h2 : s2.length = n) (hm : n * n ≤ m0.length)
    (hk1 : n ≤ k) (hk2 : k < n * n) (inv : SWInv s1 s2 n m0 k st) :
    ∃ st1, swBody s1 s2 (n : Int) st = .ok st1 ∧ SWInv s1 s2 n m0 (k + 1) st1 := by
  have hk3 : k < 32767 := Nat.lt_of_lt_of_le hk2 hnn
  obtain ⟨hi1, hi2⟩ := div_range k n hk1 hk2
  have hn : 0 < n := Nat.lt_of_le_of_lt (Nat.zero_le _) hi2
  obtain ⟨q, hq1, hq2, hq3, hq4, hq5⟩ := inv.best
  have hmax0 : 0 ≤ st.maxValue := by rw [hq3]; exact refScore_nonneg _ _ _ _
  by_cases hj : k % n = 0
  · refine ⟨_, swBody_skip s1 s2 n k st inv.index hj hk3, ?_⟩
    constructor
    · rfl
    · exact inv.len
    · intro idx hidx
      show st.matrix[idx]? = _
      rcases Nat.lt_succ_iff_lt_or_eq.mp hidx with h | h
      · exact inv.done idx h
      · subst h
        rw [inv.todo idx (le_refl _) hk2, refCell_boundary _ _ _ _ (Or.inr hj)]
    · intro idx h3 h4
      exact inv.todo idx (Nat.le_of_succ_le h3) h4
    · exact inv.rest
    · intro h
      obtain ⟨e1, e2⟩ := succ_mod_of_zero k n hj h
      show (0 : Int) = _ ∧ (0 : Int) = _
      rw [e1]
      simp [refScore_zero_col]
    · refine ⟨q, hq1, ?_, hq3, ?_, hq5⟩
      · rcases hq2 with h | h
        · exact Or.inl (Nat.lt_succ_of_lt h)
        · exact Or.inr h
      · intro idx hidx
        show _ ≤ st.maxValue
        rcases Nat.lt_succ_iff_lt_or_eq.mp hidx with h | h
        · exact hq4 idx h
        · subst h
          rw [hj, refScore_zero_col]
          exact hmax0
  · have hj2 : k % n < n := Nat.mod_lt k hn
    obtain ⟨e1, e2⟩ := sub_divmod k n hn hk1
    obtain ⟨hw, hnw⟩ := inv.roll hj
    have hkn : k - n < k := Nat.sub_lt (Nat.lt_of_lt_of_le hn hk1) hn
    have hl : st.matrix[k - n]? = some (refCell s1 s2 n (k - n)) := inv.done (k - n) hkn
    have hsc : scoreOf (refCell s1 s2 n (k - n)) = refScore s1 s2 (k / n - 1) (k % n) := by
      rw [scoreOf_refCell s1 s2 n (k - n) hnn (Nat.lt_trans hkn hk2), e1, e2]
    obtain ⟨c1, hc1⟩ := getElem?_some_of_lt s1 (k % n) (by rw [h1]; exact hj2)
    obtain ⟨c2, hc2⟩ := getElem?_some_of_lt s2 (k / n) (by rw [h2]; exact hi2)
    have hlen : k < st.matrix.length := by
      rw [inv.len]; exact Nat.lt_of_lt_of_le hk2 hm
    have hi3 : k / n - 1 < n := Nat.lt_of_le_of_lt (Nat.sub_le _ _) hi2
    have hB := swBody_cell s1 s2 n k st _ _ _ hk3 hk1 inv.index hj hl hc1 hc2 hlen
      (by rw [hsc]; exact refScore_bounds s1 s2 n _ _ hnn hi3)
      (by rw [hnw]; exact refScore_bounds s1 s2 n _ _ hnn hi3)
      (by rw [hw]; exact refScore_bounds s1 s2 n _ _ hnn hi2)
    rw [hsc, hw, hnw] at hB
    obtain ⟨a, ha⟩ : ∃ a, k / n = a + 1 := ⟨k / n - 1, (Nat.sub_add_cancel hi1).symm⟩
    obtain ⟨b, hb⟩ : ∃ b, k % n = b + 1 :=
      ⟨k % n - 1, (Nat.sub_add_cancel (Nat.pos_of_ne_zero hj)).symm⟩
    have hcell : refDir s1 s2 (a + 1) (b + 1) * 65536 + refScore s1 s2 (a + 1) (b + 1)
        = refCell s1 s2 n k := by
      unfold refCell; rw [ha, hb]
    rw [ha, hb] at hB
    simp only [Nat.add_sub_cancel] at hB
    rw [← refScore_succ, ← refDir_succ, hcell] at hB
    refine ⟨_, hB, ?_⟩
    constructor
    · rfl
    · show (st.matrix.set k _).length = _
      rw [List.length_set]; exact inv.len
    · intro idx hidx
      show (st.matrix.set k _)[idx]? = _
      rw [List.getElem?_set]
      rcases Nat.lt_succ_iff_lt_or_eq.mp hidx with h | h
      · rw [if_neg (Nat.ne_of_gt h)]; exact inv.done idx h
      · subst h; rw [if_pos rfl, if_pos hlen]
    · intro idx h3 h4
      show (st.matrix.set k _)[idx]? = _
      rw [List.getElem?_set, if_neg (Nat.ne_of_lt h3)]
      exact inv.todo idx (Nat.le_of_succ_le h3) h4
    · intro idx h3
      show (st.matrix.set k _)[idx]? = _
      rw [List.getElem?_set, if_neg (Nat.ne_of_lt (Nat.lt_of_lt_of_le hk2 h3))]
      exact inv.rest idx h3
    · intro h
      obtain ⟨e3, e4⟩ := succ_divmod k n h
      show refScore s1 s2 (a + 1) (b + 1) = _ ∧ refScore s1 s2 a (b + 1) = _
      rw [e3, e4, ha, hb]
      simp
    · show ∃ q : Nat, (if refScore s1 s2 (a + 1) (b + 1) > st.maxValue then (k : Int)
          else st.localMaxIndex) = (q : Int) ∧ (q < k + 1 ∨ q = 0) ∧
          (if refScore s1 s2 (a + 1) (b + 1) > st.maxValue then refScore s1 s2 (a + 1) (b + 1)
            else st.maxValue) = refScore s1 s2 (q / n) (q % n) ∧
          (∀ idx, idx < k + 1 → refScore s1 s2 (idx / n) (idx % n) ≤
            (if refScore s1 s2 (a + 1) (b + 1) > st.maxValue then refScore s1 s2 (a + 1) (b + 1)
              else st.maxValue)) ∧
          (∀ idx, idx < q → refScore s1 s2 (idx / n) (idx % n) <
            (if refScore s1 s2 (a + 1) (b + 1) > st.maxValue then refScore s1 s2 (a + 1) (b + 1)
              else st.maxValue))
      by_cases hgt : refScore s1 s2 (a + 1) (b + 1) > st.maxValue
      · simp only [hgt, if_true]
        refine ⟨k, rfl, Or.inl (Nat.lt_succ_self k), by rw [ha, hb], ?_, ?_⟩
        · intro idx hidx
          rcases Nat.lt_succ_iff_lt_or_eq.mp hidx with h | h
          · exact le_of_lt (lt_of_le_of_lt (hq4 idx h) hgt)
          · subst h; rw [ha, hb]
        · intro idx hidx
          exact lt_of_le_of_lt (hq4 idx hidx) hgt
      · simp only [hgt, if_false]
        refine ⟨q, hq1, ?_, hq3, ?_, hq5⟩
        · rcases hq2 with h | h
          · exact Or.inl (Nat.lt_succ_of_lt h)
          · exact Or.inr h
        · intro idx hidx
          rcases Nat.lt_succ_iff_lt_or_eq.mp hidx with h | h
          · exact hq4 idx h
          · subst h; rw [ha, hb]; exact not_lt.mp hgt

/-! ## The whole loop -/

theorem memsetZero_ok (m0 : List Int) (c : Nat) (h : c ≤ m0.length) (hc : c ≤ 32767) :
    memsetZero m0 (c : Int) = .ok (List.replicate c 0 ++ m0.drop c) := by
  have h4 : ¬ (2147483647 < (c : Int) * 4) := by omega
  unfold memsetZero
  simp [h, h4]

theorem zeroed_low (m0 : List Int) (c idx : Nat) (h : idx < c) :
    (List.replicate c (0 : Int) ++ m0.drop c)[idx]? = some 0 := by
  rw [List.getElem?_append_left (by simpa using h), List.getElem?_replicate, if_pos h]

theorem zeroed_high (m0 : List Int) (c idx : Nat) (h : c ≤ idx) :
    (List.replicate c (0 : Int) ++ m0.drop c)[idx]? = m0[idx]? := by
  rw [List.getElem?_append_right (by simpa using h), List.getElem?_drop]
  simp only [List.length_replicate]
  rw [Nat.add_sub_cancel' h]

theorem zeroed_length (m0 : List Int) (c : Nat) (h : c ≤ m0.length) :
    (List.replicate c (0 : Int) ++ m0.drop c).length = m0.length := by
  simp only [List.length_append, List.length_replicate, List.length_drop]
  exact Nat.add_sub_cancel' h

theorem le_sq (n : Nat) (hn : 1 ≤ n) : n ≤ n * n := Nat.le_mul_of_pos_left n hn

theorem SWInv.init (s1 s2 : List Char) (n : Nat) (m0 : List Int)
    (hn : 1 ≤ n) (hnn : n * n ≤ 32767) (hm : n * n ≤ m0.length) :
    SWInv s1 s2 n m0 n (swInit (List.replicate (n * n) 0 ++ m0.drop (n * n)) (n : Int)) := by
  have hle := le_sq n hn
  constructor
  · show toShort (n : Int) = (n : Int)
    exact toShort_nat n (le_trans hle hnn)
  · exact zeroed_length m0 _ hm
  · intro idx hidx
    show (List.replicate (n * n) (0 : Int) ++ m0.drop (n * n))[idx]? = _
    rw [zeroed_low m0 _ idx (Nat.lt_of_lt_of_le hidx hle), refCell_boundary _ _ _ _ (Or.inl hidx)]
  · intro idx _ h4
    exact zeroed_low m0 _ idx h4
  · intro idx h3
    exact zeroed_high m0 _ idx h3
  · intro h
    exact absurd (Nat.mod_self n) h
  · refine ⟨0, rfl, Or.inr rfl, ?_, ?_, ?_⟩
    · show (0 : Int) = _
      simp [refScore_zero_col]
    · intro idx hidx
      show _ ≤ (0 : Int)
      rw [Nat.div_eq_of_lt hidx, refScore_zero_row]
    · intro idx hidx
      exact absurd hidx (Nat.not_lt_zero _)

theorem SWInv.steps (s1 s2 : List Char) (n : Nat) (m0 : List Int)
    (hn : 1 ≤ n) (hnn : n * n ≤ 32767) (h1 : s1.length = n) (h2 : s2.length = n)
    (hm : n * n ≤ m0.length) (t : Nat) (ht : n + t ≤ n * n) :
    ∃ st, swSteps s1 s2 (n : Int) t
        (swInit (List.replicate (n * n) 0 ++ m0.drop (n * n)) (n : Int)) = .ok st ∧
      SWInv s1 s2 n m0 (n + t) st := by
  induction t with
  | zero => exact ⟨_, rfl, SWInv.init s1 s2 n m0 hn hnn hm⟩
  | succ t ih =>
    obtain ⟨st, e, inv⟩ := ih (Nat.le_of_succ_le ht)
    obtain ⟨st1, e1, inv1⟩ := SWInv.step s1 s2 n m0 (n + t) st hnn h1 h2 hm
      (Nat.le_add_right n t) ht inv
    refine ⟨st1, ?_, inv1⟩
    show (match swSteps s1 s2 (n : Int) t _ with
      | .ok st1 => swBody s1 s2 (n : Int) st1
      | .error e => .error e) = _
    rw [e]
    exact e1

theorem SWInv.loop (s1 s2 : List Char) (n : Nat) (m0 : List Int)
    (hnn : n * n ≤ 32767) (h1 : s1.length = n) (h2 : s2.length = n)
    (hm : n * n ≤ m0.length) (fuel : Nat) :
    ∀ (k : Nat) (st : SWState), n ≤ k → k ≤ n * n → n * n - k < fuel →
      SWInv s1 s2 n m0 k st →
      ∃ st1, swLoop s1 s2 (n : Int) fuel st = .ok st1 ∧ SWInv s1 s2 n m0 (n * n) st1 := by
  induction fuel with
  | zero => intro k st _ _ hf; exact absurd hf (Nat.not_lt_zero _)
  | succ fuel ih =>
    intro k st hk1 hk2 hf inv
    rcases Nat.lt_or_ge k (n * n) with hlt | hge
    · obtain ⟨st1, e1, inv1⟩ := SWInv.step s1 s2 n m0 k st hnn h1 h2 hm hk1 hlt inv
      have hguard : st.index < (n : Int) * (n : Int) := by
        rw [inv.index]; exact_mod_cast hlt
      obtain ⟨st2, e2, inv2⟩ := ih (k + 1) st1 (Nat.le_succ_of_le hk1) hlt (by omega) inv1
      refine ⟨st2, ?_, inv2⟩
      rw [swLoop, if_pos hguard, e1]
      exact e2
    · have hk : k = n * n := Nat.le_antisymm hk2 hge
      subst hk
      have hguard : ¬ st.index < (n : Int) * (n : Int) := by
        rw [inv.index]; push_cast; exact lt_irrefl _
      refine ⟨st, ?_, inv⟩
      rw [swLoop, if_neg hguard]

/-- Specification of the builder on a valid input: it returns, the cells of
the matrix are the reference cells, the rest of the buffer is untouched, and
the recorded index is the first row-major position of the largest score. -/
theorem smithwaterman_spec (s1 s2 : List Char) (n : Nat) (m0 : List Int) (mi : Int)
    (fuel : Nat) (hn : 1 ≤ n) (hnn : n * n ≤ 32767) (h1 : s1.length = n)
    (h2 : s2.length = n) (hm : n * n ≤ m0.length) (hf : n * n ≤ fuel) :
    ∃ (m : List Int) (q : Nat),
      smithwaterman fuel m0 mi s1 s2 (n : Int) = .ok (m, (q : Int)) ∧
      m.length = m0.length ∧
      (∀ idx, idx < n * n → m[idx]? = some (refCell s1 s2 n idx)) ∧
      (∀ idx, n * n ≤ idx → m[idx]? = m0[idx]?) ∧
      q < n * n ∧
      (∀ idx, idx < n * n →
        refScore s1 s2 (idx / n) (idx % n) ≤ refScore s1 s2 (q / n) (q % n)) ∧
      (∀ idx, idx < q →
        refScore s1 s2 (idx / n) (idx % n) < refScore s1 s2 (q / n) (q % n)) := by
  have hle := le_sq n hn
  obtain ⟨st, e, inv⟩ := SWInv.loop s1 s2 n m0 hnn h1 h2 hm fuel n _ (le_refl n) hle
    (by omega) (SWInv.init s1 s2 n m0 hn hnn hm)
  obtain ⟨q, hq1, hq2, hq3, hq4, hq5⟩ := inv.best
  refine ⟨st.matrix, q, ?_, inv.len, inv.done, inv.rest, ?_, ?_, ?_⟩
  · unfold smithwaterman
    have hmz : memsetZero m0 ((n : Int) * (n : Int)) =
        .ok (List.replicate (n * n) 0 ++ m0.drop (n * n)) := by
      have := memsetZero_ok m0 (n * n) hm hnn
      rw [← this]; push_cast; rfl
    rw [hmz]
    simp only []
    have e3 : swLoop s1 s2 (n : Int) fuel
        { matrix := List.replicate (n * n) 0 ++ m0.drop (n * n), north := 0, west := 0,
          northwest := 0, maxValue := 0, localMaxIndex := 0, index := toShort (n : Int) }
        = .ok st := e
    rw [e3]
    simp only [hq1]
  · rcases hq2 with h | h
    · exact h
    · rw [h]; exact Nat.lt_of_lt_of_le hn hle
  · intro idx hidx
    rw [← hq3]; exact hq4 idx hidx
  · intro idx hidx
    rw [← hq3]; exact hq5 idx hidx

/-! ## Reading the built matrix -/

theorem cellAt_built (s1 s2 : List Char) (n : Nat) (m : List Int)
    (hm : ∀ idx, idx < n * n → m[idx]? = some (refCell s1 s2 n idx))
    (i j : Nat) (hi : i < n) (hj : j < n) :
    cellAt m n i j = refCell s1 s2 n (i * n + j) := by
  unfold cellAt
  rw [List.getD_eq_getElem?_getD, hm _ (idx_lt i j n hi hj)]
  rfl

theorem scoreAt_built (s1 s2 : List Char) (n : Nat) (m : List Int) (hnn : n * n ≤ 32767)
    (hm : ∀ idx, idx < n * n → m[idx]? = some (refCell s1 s2 n idx))
    (i j : Nat) (hi : i < n) (hj : j < n) :
    scoreAt m n i j = refScore s1 s2 i j := by
  unfold scoreAt
  rw [cellAt_built s1 s2 n m hm i j hi hj, scoreOf_refCell s1 s2 n _ hnn (idx_lt i j n hi hj),
    (idx_divmod i j n hj).1, (idx_divmod i j n hj).2]

theorem dirAt_built (s1 s2 : List Char) (n : Nat) (m : List Int) (hnn : n * n ≤ 32767)
    (hm : ∀ idx, idx < n * n → m[idx]? = some (refCell s1 s2 n idx))
    (i j : Nat) (hi : i < n) (hj : j < n) :
    dirAt m n i j = refDir s1 s2 i j := by
  unfold dirAt
  rw [cellAt_built s1 s2 n m hm i j hi hj, dirOf_refCell s1 s2 n _ hnn (idx_lt i j n hi hj),
    (idx_divmod i j n hj).1, (idx_divmod i j n hj).2]

theorem refScore_rec (s1 s2 : List Char) (i j : Nat) (hi : 1 ≤ i) (hj : 1 ≤ j) :
    refScore s1 s2 i j =
      max 0 (max (refScore s1 s2 (i - 1) (j - 1) + (if s1[j]? = s2[i]? then 2 else -1))
        (max (refScore s1 s2 (i - 1) j - 1) (refScore s1 s2 i (j - 1) - 1))) := by
  obtain ⟨a, rfl⟩ : ∃ a, i = a + 1 := ⟨i - 1, (Nat.sub_add_cancel hi).symm⟩
  obtain ⟨b, rfl⟩ : ∃ b, j = b + 1 := ⟨j - 1, (Nat.sub_add_cancel hj).symm⟩
  rw [refScore_succ, bestVal_eq_max]
  simp only [Nat.add_sub_cancel]
  rfl

/-! ## Claims about the matrix builder -/

/-- C1: on a valid input (`1 ≤ L`, `L * L ≤ 32767`, sequences of length `L`)
the builder returns, every cell `(i, j)` with `1 ≤ i, j < L` of the final
matrix holds `max(0, NW + m, N - 1, W - 1)` over the scores stored at its three
neighbours, with `m = 2` when `s1[j] = s2[i]` and `-1` otherwise; and when the
loop reaches that cell its rolling variables `northwest` and `west`, and the
cell it reads for `north`, hold exactly those neighbour scores. -/
theorem smithwaterman_recurrence (L : Nat) (s1 s2 : List Char) (m0 : List Int) (mi : Int)
    (fuel : Nat) (hL : 1 ≤ L) (hLL : L * L ≤ 32767) (h1 : s1.length = L)
    (h2 : s2.length = L) (hm : L * L ≤ m0.length) (hf : L * L ≤ fuel) :
    ∃ (m : List Int) (idx : Int),
      smithwaterman fuel m0 mi s1 s2 (L : Int) = .ok (m, idx) ∧
      (∀ i j, 1 ≤ i → i < L → 1 ≤ j → j < L →
        scoreAt m L i j =
          max 0 (max (scoreAt m L (i - 1) (j - 1) + (if s1[j]? = s2[i]? then 2 else -1))
            (max (scoreAt m L (i - 1) j - 1) (scoreAt m L i (j - 1) - 1)))) ∧
      (∀ i j, 1 ≤ i → i < L → 1 ≤ j → j < L →
        ∃ zeroed st, memsetZero m0 ((L : Int) * (L : Int)) = .ok zeroed ∧
          swSteps s1 s2 (L : Int) (i * L + j - L) (swInit zeroed (L : Int)) = .ok st ∧
          st.index = ((i * L + j : Nat) : Int) ∧
          st.northwest = scoreAt m L (i - 1) (j - 1) ∧
          st.west = scoreAt m L i (j - 1) ∧
          scoreOf (st.matrix.getD (i * L + j - L) 0) = scoreAt m L (i - 1) j) := by
  obtain ⟨m, q, e, _, hcells, _, _, _, _⟩ :=
    smithwaterman_spec s1 s2 L m0 mi fuel hL hLL h1 h2 hm hf
  refine ⟨m, (q : Int), e, ?_, ?_⟩
  · intro i j hi1 hi2 hj1 hj2
    have hi3 : i - 1 < L := Nat.lt_of_le_of_lt (Nat.sub_le _ _) hi2
    have hj3 : j - 1 < L := Nat.lt_of_le_of_lt (Nat.sub_le _ _) hj2
    rw [scoreAt_built s1 s2 L m hLL hcells i j hi2 hj2,
      scoreAt_built s1 s2 L m hLL hcells (i - 1) (j - 1) hi3 hj3,
      scoreAt_built s1 s2 L m hLL hcells (i - 1) j hi3 hj2,
      scoreAt_built s1 s2 L m hLL hcells i (j - 1) hi2 hj3]
    exact refScore_rec s1 s2 i j hi1 hj1
  · intro i j hi1 hi2 hj1 hj2
    have hi3 : i - 1 < L := Nat.lt_of_le_of_lt (Nat.sub_le _ _) hi2
    have hj3 : j - 1 < L := Nat.lt_of_le_of_lt (Nat.sub_le _ _) hj2
    have hk := idx_lt i j L hi2 hj2
    have hLk : L ≤ i * L + j :=
      le_trans (Nat.le_mul_of_pos_left L hi1) (Nat.le_add_right _ _)
    have hsum : L + (i * L + j - L) = i * L + j := Nat.add_sub_cancel' hLk
    obtain ⟨st, est, inv⟩ := SWInv.steps s1 s2 L m0 hL hLL h1 h2 hm (i * L + j - L)
      (by rw [hsum]; exact Nat.le_of_lt hk)
    rw [hsum] at inv
    obtain ⟨d1, d2⟩ := idx_divmod i j L hj2
    have hjne : (i * L + j) % L ≠ 0 := by rw [d2]; exact Nat.ne_of_gt hj1
    obtain ⟨hw, hnw⟩ := inv.roll hjne
    rw [d1, d2] at hw hnw
    have hmz : memsetZero m0 ((L : Int) * (L : Int)) =
        .ok (List.replicate (L * L) 0 ++ m0.drop (L * L)) := by
      have := memsetZero_ok m0 (L * L) hm hLL
      rw [← this]; push_cast; rfl
    refine ⟨_, st, hmz, est, inv.index, ?_, ?_, ?_⟩
    · rw [hnw, scoreAt_built s1 s2 L m hLL hcells (i - 1) (j - 1) hi3 hj3]
    · rw [hw, scoreAt_built s1 s2 L m hLL hcells i (j - 1) hi2 hj3]
    · have hlt : i * L + j - L < i * L + j :=
        Nat.sub_lt (Nat.lt_of_lt_of_le hL hLk) hL
      have e1 : i * L + j - L = (i - 1) * L + j := by
        rw [Nat.sub_mul, Nat.one_mul]
        exact (Nat.sub_add_comm (Nat.le_mul_of_pos_left L hi1)).symm ▸ rfl
      rw [List.getD_eq_getElem?_getD, inv.done _ hlt, e1,
        scoreAt_built s1 s2 L m hLL hcells (i - 1) j hi3 hj2]
      show scoreOf (refCell s1 s2 L ((i - 1) * L + j)) = _
      rw [scoreOf_refCell s1 s2 L _ hLL (idx_lt (i - 1) j L hi3 hj2),
        (idx_divmod (i - 1) j L hj2).1, (idx_divmod (i - 1) j L hj2).2]

/-- Witness of C1 on `s1 = "-AT"`, `s2 = "-AT"`, `L = 3`. -/
theorem smithwaterman_recurrence_witness :
    ∃ (m : List Int) (idx : Int),
      smithwaterman 9 (List.replicate 9 7) 5 ['-', 'A', 'T'] ['-', 'A', 'T'] ((3 : Nat) : Int)
        = .ok (m, idx) ∧
      (∀ i j, 1 ≤ i → i < 3 → 1 ≤ j → j < 3 →
        scoreAt m 3 i j =
          max 0 (max (scoreAt m 3 (i - 1) (j - 1) +
              (if ['-', 'A', 'T'][j]? = ['-', 'A', 'T'][i]? then 2 else -1))
            (max (scoreAt m 3 (i - 1) j - 1) (scoreAt m 3 i (j - 1) - 1)))) ∧
      (∀ i j, 1 ≤ i → i < 3 → 1 ≤ j → j < 3 →
        ∃ zeroed st, memsetZero (List.replicate 9 7) (((3 : Nat) : Int) * ((3 : Nat) : Int))
            = .ok zeroed ∧
          swSteps ['-', 'A', 'T'] ['-', 'A', 'T'] ((3 : Nat) : Int) (i * 3 + j - 3)
            (swInit zeroed ((3 : Nat) : Int)) = .ok st ∧
          st.index = ((i * 3 + j : Nat) : Int) ∧
          st.northwest = scoreAt m 3 (i - 1) (j - 1) ∧
          st.west = scoreAt m 3 i (j - 1) ∧
          scoreOf (st.matrix.getD (i * 3 + j - 3) 0) = scoreAt m 3 (i - 1) j) :=
  smithwaterman_recurrence 3 ['-', 'A', 'T'] ['-', 'A', 'T'] (List.replicate 9 7) 5 9
    (by decide) (by decide) (by decide) (by decide) (by decide) (by decide)

theorem refDir_rec (s1 s2 : List Char) (i j : Nat) (hi : 1 ≤ i) (hj : 1 ≤ j) :
    refDir s1 s2 i j =
      bestDir (refScore s1 s2 (i - 1) (j - 1) + (if s1[j]? = s2[i]? then 2 else -1))
        (refScore s1 s2 (i - 1) j - 1) (refScore s1 s2 i (j - 1) - 1) := by
  obtain ⟨a, rfl⟩ : ∃ a, i = a + 1 := ⟨i - 1, (Nat.sub_add_cancel hi).symm⟩
  obtain ⟨b, rfl⟩ : ∃ b, j = b + 1 := ⟨j - 1, (Nat.sub_add_cancel hj).symm⟩
  rw [refDir_succ]
  simp only [Nat.add_sub_cancel]
  rfl

theorem bestDir_eq_centerFirst (a b c : Int) : bestDir a b c = centerFirstDirection a b c := by
  unfold bestDir centerFirstDirection
  simp only []
  split_ifs <;> first | rfl | omega

/-- C2 (as stated, refuted): on `s1 = "-ACT"`, `s2 = "-AGG"` the cell `(2, 3)`
has candidates `0, -1, 0`; the first candidate in the order NORTH_WEST, NORTH,
WEST, CENTER that equals the maximum `0` is NORTH_WEST, but the builder stores
CENTER. -/
theorem smithwaterman_direction_counterexample :
    smithwaterman 16 (List.replicate 16 0) 0 ['-', 'A', 'C', 'T'] ['-', 'A', 'G', 'G'] 4
      = .ok ([0, 0, 0, 0, 0, 131074, 196609, 0, 0, 65537, 131073, 0, 0, 0, 0, 0], 5) ∧
    dirAt [0, 0, 0, 0, 0, 131074, 196609, 0, 0, 65537, 131073, 0, 0, 0, 0, 0] 4 2 3 = CENTER ∧
    specDirection
      (scoreAt [0, 0, 0, 0, 0, 131074, 196609, 0, 0, 65537, 131073, 0, 0, 0, 0, 0] 4 1 2 +
        (if ['-', 'A', 'C', 'T'][3]? = ['-', 'A', 'G', 'G'][2]? then 2 else -1))
      (scoreAt [0, 0, 0, 0, 0, 131074, 196609, 0, 0, 65537, 131073, 0, 0, 0, 0, 0] 4 1 3 - 1)
      (scoreAt [0, 0, 0, 0, 0, 131074, 196609, 0, 0, 65537, 131073, 0, 0, 0, 0, 0] 4 2 2 - 1)
      = NORTH_WEST ∧
    dirAt [0, 0, 0, 0, 0, 131074, 196609, 0, 0, 65537, 131073, 0, 0, 0, 0, 0] 4 2 3 ≠
      specDirection
        (scoreAt [0, 0, 0, 0, 0, 131074, 196609, 0, 0, 65537, 131073, 0, 0, 0, 0, 0] 4 1 2 +
          (if ['-', 'A', 'C', 'T'][3]? = ['-', 'A', 'G', 'G'][2]? then 2 else -1))
        (scoreAt [0, 0, 0, 0, 0, 131074, 196609, 0, 0, 65537, 131073, 0, 0, 0, 0, 0] 4 1 3 - 1)
        (scoreAt [0, 0, 0, 0, 0, 131074, 196609, 0, 0, 65537, 131073, 0, 0, 0, 0, 0] 4 2 2 - 1) := by
  decide

/-- C2 (amended): on a valid input the builder returns and, for every cell
`(i, j)` with `1 ≤ i, j < L`, the stored direction is CENTER when
`max(0, candidate_NW, candidate_N, candidate_W)` is 0, and otherwise the first
of NORTH_WEST, NORTH, WEST whose candidate equals that maximum. -/
theorem smithwaterman_direction (L : Nat) (s1 s2 : List Char) (m0 : List Int) (mi : Int)
    (fuel : Nat) (hL : 1 ≤ L) (hLL : L * L ≤ 32767) (h1 : s1.length = L)
    (h2 : s2.length = L) (hm : L * L ≤ m0.length) (hf : L * L ≤ fuel) :
    ∃ (m : List Int) (idx : Int),
      smithwaterman fuel m0 mi s1 s2 (L : Int) = .ok (m, idx) ∧
      ∀ i j, 1 ≤ i → i < L → 1 ≤ j → j < L →
        dirAt m L i j =
          centerFirstDirection
            (scoreAt m L (i - 1) (j - 1) + (if s1[j]? = s2[i]? then 2 else -1))
            (scoreAt m L (i - 1) j - 1) (scoreAt m L i (j - 1) - 1) := by
  obtain ⟨m, q, e, _, hcells, _, _, _, _⟩ :=
    smithwaterman_spec s1 s2 L m0 mi fuel hL hLL h1 h2 hm hf
  refine ⟨m, (q : Int), e, ?_⟩
  intro i j hi1 hi2 hj1 hj2
  have hi3 : i - 1 < L := Nat.lt_of_le_of_lt (Nat.sub_le _ _) hi2
  have hj3 : j - 1 < L := Nat.lt_of_le_of_lt (Nat.sub_le _ _) hj2
  rw [dirAt_built s1 s2 L m hLL hcells i j hi2 hj2,
    scoreAt_built s1 s2 L m hLL hcells (i - 1) (j - 1) hi3 hj3,
    scoreAt_built s1 s2 L m hLL hcells (i - 1) j hi3 hj2,
    scoreAt_built s1 s2 L m hLL hcells i (j - 1) hi2 hj3,
    ← bestDir_eq_centerFirst]
  exact refDir_rec s1 s2 i j hi1 hj1

/-- Witness of the amended C2 on `s1 = "-ACT"`, `s2 = "-AGG"`, `L = 4`. -/
theorem smithwaterman_direction_witness :
    ∃ (m : List Int) (idx : Int),
      smithwaterman 16 (List.replicate 16 0) 0 ['-', 'A', 'C', 'T'] ['-', 'A', 'G', 'G']
        ((4 : Nat) : Int) = .ok (m, idx) ∧
      ∀ i j, 1 ≤ i → i < 4 → 1 ≤ j → j < 4 →
        dirAt m 4 i j =
          centerFirstDirection
            (scoreAt m 4 (i - 1) (j - 1) +
              (if ['-', 'A', 'C', 'T'][j]? = ['-', 'A', 'G', 'G'][i]? then 2 else -1))
            (scoreAt m 4 (i - 1) j - 1) (scoreAt m 4 i (j - 1) - 1) :=
  smithwaterman_direction 4 ['-', 'A', 'C', 'T'] ['-', 'A', 'G', 'G'] (List.replicate 16 0) 0 16
    (by decide) (by decide) (by decide) (by decide) (by decide) (by decide)

/-- C3: on a valid input the builder returns an index that `findMaximum` decodes
as `row = index / L`, `col = index % L`, a cell inside the matrix whose score is
at least the score of every cell, and strictly above the score of every cell
at a smaller row-major index. -/
theorem smithwaterman_max_first (L : Nat) (s1 s2 : List Char) (m0 : List Int) (mi : Int)
    (fuel : Nat) (hL : 1 ≤ L) (hLL : L * L ≤ 32767) (h1 : s1.length = L)
    (h2 : s2.length = L) (hm : L * L ≤ m0.length) (hf : L * L ≤ fuel) :
    ∃ (m : List Int) (q : Nat),
      smithwaterman fuel m0 mi s1 s2 (L : Int) = .ok (m, (q : Int)) ∧
      findMaximum (hostOf m s1 s2 L (q : Int)) = .ok (((q / L : Nat) : Int), ((q % L : Nat) : Int)) ∧
      q / L < L ∧ q % L < L ∧ q = (q / L) * L + q % L ∧
      (∀ i j, i < L → j < L → scoreAt m L i j ≤ scoreAt m L (q / L) (q % L)) ∧
      (∀ i j, i < L → j < L → i * L + j < q → scoreAt m L i j < scoreAt m L (q / L) (q % L)) := by
  obtain ⟨m, q, e, _, hcells, _, hq, hmax, hfirst⟩ :=
    smithwaterman_spec s1 s2 L m0 mi fuel hL hLL h1 h2 hm hf
  have hr : q / L < L := Nat.div_lt_of_lt_mul hq
  have hc : q % L < L := Nat.mod_lt q hL
  refine ⟨m, q, e, ?_, hr, hc, ?_, ?_, ?_⟩
  · unfold findMaximum hostOf cDiv cMod
    have hne : ¬ ((L : Int) = 0) := by
      intro h; have : L = 0 := by exact_mod_cast h
      rw [this] at hL; exact absurd hL (by decide)
    simp only [hne, if_false, ← Int.ofNat_tdiv, ← Int.ofNat_tmod]
  · rw [Nat.mul_comm]; exact (Nat.div_add_mod q L).symm
  · intro i j hi hj
    rw [scoreAt_built s1 s2 L m hLL hcells i j hi hj,
      scoreAt_built s1 s2 L m hLL hcells _ _ hr hc]
    have := hmax (i * L + j) (idx_lt i j L hi hj)
    rw [(idx_divmod i j L hj).1, (idx_divmod i j L hj).2] at this
    exact this
  · intro i j hi hj hlt
    rw [scoreAt_built s1 s2 L m hLL hcells i j hi hj,
      scoreAt_built s1 s2 L m hLL hcells _ _ hr hc]
    have := hfirst (i * L + j) hlt
    rw [(idx_divmod i j L hj).1, (idx_divmod i j L hj).2] at this
    exact this

/-- Witness of C3 on `s1 = "-AT"`, `s2 = "-AT"`, `L = 3`. -/
theorem smithwaterman_max_first_witness :
    ∃ (m : List Int) (q : Nat),
      smithwaterman 9 (List.replicate 9 7) 5 ['-', 'A', 'T'] ['-', 'A', 'T'] ((3 : Nat) : Int)
        = .ok (m, (q : Int)) ∧
      findMaximum (hostOf m ['-', 'A', 'T'] ['-', 'A', 'T'] 3 (q : Int))
        = .ok (((q / 3 : Nat) : Int), ((q % 3 : Nat) : Int)) ∧
      q / 3 < 3 ∧ q % 3 < 3 ∧ q = (q / 3) * 3 + q % 3 ∧
      (∀ i j, i < 3 → j < 3 → scoreAt m 3 i j ≤ scoreAt m 3 (q / 3) (q % 3)) ∧
      (∀ i j, i < 3 → j < 3 → i * 3 + j < q → scoreAt m 3 i j < scoreAt m 3 (q / 3) (q % 3)) :=
  smithwaterman_max_first 3 ['-', 'A', 'T'] ['-', 'A', 'T'] (List.replicate 9 7) 5 9
    (by decide) (by decide) (by decide) (by decide) (by decide) (by decide)

/-- C9: on a valid input the builder returns and every cell of row 0 and of
column 0 is exactly 0, that is score 0 and direction CENTER. -/
theorem smithwaterman_boundary (L : Nat) (s1 s2 : List Char) (m0 : List Int) (mi : Int)
    (fuel : Nat) (hL : 1 ≤ L) (hLL : L * L ≤ 32767) (h1 : s1.length = L)
    (h2 : s2.length = L) (hm : L * L ≤ m0.length) (hf : L * L ≤ fuel) :
    ∃ (m : List Int) (idx : Int),
      smithwaterman fuel m0 mi s1 s2 (L : Int) = .ok (m, idx) ∧
      (∀ j, j < L →
        cellAt m L 0 j = 0 ∧ scoreAt m L 0 j = 0 ∧ dirAt m L 0 j = CENTER) ∧
      (∀ i, i < L →
        cellAt m L i 0 = 0 ∧ scoreAt m L i 0 = 0 ∧ dirAt m L i 0 = CENTER) := by
  obtain ⟨m, q, e, _, hcells, _, _, _, _⟩ :=
    smithwaterman_spec s1 s2 L m0 mi fuel hL hLL h1 h2 hm hf
  have hz : scoreOf 0 = 0 ∧ dirOf 0 = CENTER := by decide
  refine ⟨m, (q : Int), e, ?_, ?_⟩
  · intro j hj
    have hc : cellAt m L 0 j = 0 := by
      rw [cellAt_built s1 s2 L m hcells 0 j hL hj]
      exact refCell_boundary s1 s2 L _ (Or.inl (by rw [Nat.zero_mul, Nat.zero_add]; exact hj))
    unfold scoreAt dirAt
    rw [hc]
    exact ⟨rfl, hz⟩
  · intro i hi
    have hc : cellAt m L i 0 = 0 := by
      rw [cellAt_built s1 s2 L m hcells i 0 hi hL]
      exact refCell_boundary s1 s2 L _ (Or.inr (by rw [Nat.add_zero]; exact Nat.mul_mod_left i L))
    unfold scoreAt dirAt
    rw [hc]
    exact ⟨rfl, hz⟩

/-- Witness of C9 on `s1 = "-AT"`, `s2 = "-AT"`, `L = 3`, with a buffer that
initially holds non-zero values. -/
theorem smithwaterman_boundary_witness :
    ∃ (m : List Int) (idx : Int),
      smithwaterman 9 (List.replicate 9 7) 5 ['-', 'A', 'T'] ['-', 'A', 'T'] ((3 : Nat) : Int)
        = .ok (m, idx) ∧
      (∀ j, j < 3 →
        cellAt m 3 0 j = 0 ∧ scoreAt m 3 0 j = 0 ∧ dirAt m 3 0 j = CENTER) ∧
      (∀ i, i < 3 →
        cellAt m 3 i 0 = 0 ∧ scoreAt m 3 i 0 = 0 ∧ dirAt m 3 i 0 = CENTER) :=
  smithwaterman_boundary 3 ['-', 'A', 'T'] ['-', 'A', 'T'] (List.replicate 9 7) 5 9
    (by decide) (by decide) (by decide) (by decide) (by decide) (by decide)

/-- C10: on a valid input the builder returns and every cell of the matrix has
a score that is at least 0. -/
theorem smithwaterman_nonneg (L : Nat) (s1 s2 : List Char) (m0 : List Int) (mi : Int)
    (fuel : Nat) (hL : 1 ≤ L) (hLL : L * L ≤ 32767) (h1 : s1.length = L)
    (h2 : s2.length = L) (hm : L * L ≤ m0.length) (hf : L * L ≤ fuel) :
    ∃ (m : List Int) (idx : Int),
      smithwaterman fuel m0 mi s1 s2 (L : Int) = .ok (m, idx) ∧
      ∀ i j, i < L → j < L → 0 ≤ scoreAt m L i j := by
  obtain ⟨m, q, e, _, hcells, _, _, _, _⟩ :=
    smithwaterman_spec s1 s2 L m0 mi fuel hL hLL h1 h2 hm hf
  refine ⟨m, (q : Int), e, ?_⟩
  intro i j hi hj
  rw [scoreAt_built s1 s2 L m hLL hcells i j hi hj]
  exact refScore_nonneg s1 s2 i j

/-- Witness of C10 on `s1 = "-AC"`, `s2 = "-GT"`, `L = 3`. -/
theorem smithwaterman_nonneg_witness :
    ∃ (m : List Int) (idx : Int),
      smithwaterman 9 (List.replicate 9 7) 5 ['-', 'A', 'C'] ['-', 'G', 'T'] ((3 : Nat) : Int)
        = .ok (m, idx) ∧
      ∀ i j, i < 3 → j < 3 → 0 ≤ scoreAt m 3 i j :=
  smithwaterman_nonneg 3 ['-', 'A', 'C'] ['-', 'G', 'T'] (List.replicate 9 7) 5 9
    (by decide) (by decide) (by decide) (by decide) (by decide) (by decide)

/-! ## Claims about the traceback on an arbitrary matrix -/

theorem traceLoop_length (hd : KernelHostData) (fuel : Nat) :
    ∀ (cur prev : Position) (a1 a2 r1 r2 : List Char),
      traceLoop hd fuel cur prev a1 a2 = .ok (r1, r2) →
      a1.length = a2.length → r1.length = r2.length := by
  induction fuel with
  | zero =>
    intro cur prev a1 a2 r1 r2 h
    simp [traceLoop] at h
  | succ fuel ih =>
    intro cur prev a1 a2 r1 r2 h hl
    rw [traceLoop] at h
    simp only [] at h
    repeat' split at h
    all_goals first
      | (cases h; exact hl)
      | exact absurd h (by simp)
      | exact ih _ _ _ _ _ _ h (by simp [hl])

theorem traceback_length (fuel : Nat) (hd : KernelHostData) (a1 a2 : List Char)
    (h : traceback fuel hd = .ok (a1, a2)) : a1.length = a2.length := by
  unfold traceback at h
  split at h
  · exact absurd h (by simp)
  · split at h
    · exact absurd h (by simp)
    · exact traceLoop_length hd fuel _ _ [] [] a1 a2 h rfl

/-- C5: for every matrix, pair of sequences and recorded start index, whenever
the traceback loop of `printSimilarity` terminates with the vectors
`alignment1` and `alignment2`, the two have the same length (the
length-mismatch return is never taken). -/
theorem traceback_same_length (fuel : Nat) (hostData : KernelHostData)
    (alignment1 alignment2 : List Char)
    (h : traceback fuel hostData = .ok (alignment1, alignment2)) :
    alignment1.length = alignment2.length :=
  traceback_length fuel hostData alignment1 alignment2 h

/-- Witness of C5 on the matrix built for `s1 = "-AAT"`, `s2 = "-AGT"`. -/
theorem traceback_same_length_witness :
    traceback 8
        (hostOf [0, 0, 0, 0, 0, 131074, 131074, 196609, 0, 65537, 131073, 131073,
            0, 0, 0, 131075] ['-', 'A', 'A', 'T'] ['-', 'A', 'G', 'T'] 4 15)
      = .ok (['A', 'A', 'T'], ['A', 'G', 'T']) ∧
    ['A', 'A', 'T'].length = ['A', 'G', 'T'].length :=
  ⟨by decide,
    traceback_same_length 8
      (hostOf [0, 0, 0, 0, 0, 131074, 131074, 196609, 0, 65537, 131073, 131073,
            0, 0, 0, 131075] ['-', 'A', 'A', 'T'] ['-', 'A', 'G', 'T'] 4 15)
      ['A', 'A', 'T'] ['A', 'G', 'T'] (by decide)⟩

/-- C6: when the traceback loop ends with alignment vectors of length 0 or of
length 1, `printSimilarity` returns the error code `-1` and prints no
alignment; for every length of at least 2 it returns `0` with the alignment. -/
theorem printSimilarity_by_length (fuel : Nat) (hostData : KernelHostData)
    (alignment1 alignment2 : List Char)
    (h : traceback fuel hostData = .ok (alignment1, alignment2)) :
    (alignment1.length = 0 → printSimilarity fuel hostData = .ok (-1, none)) ∧
    (alignment1.length = 1 → printSimilarity fuel hostData = .ok (-1, none)) ∧
    (2 ≤ alignment1.length →
      printSimilarity fuel hostData = .ok (0, some (alignment1, alignment2))) := by
  have hl := traceback_length fuel hostData alignment1 alignment2 h
  unfold printSimilarity
  rw [h]
  simp only [← hl]
  refine ⟨?_, ?_, ?_⟩
  · intro h0; simp [h0]
  · intro h1; simp [h1]
  · intro h2
    have e0 : ¬ alignment1.length = 0 := by omega
    have e1 : ¬ alignment1.length = 1 := by omega
    simp [e0, e1]

/-- Witness of C6 on the matrix built for `s1 = "-AAT"`, `s2 = "-AGT"`. -/
theorem printSimilarity_by_length_witness :
    (['A', 'A', 'T'].length = 0 →
      printSimilarity 8
        (hostOf [0, 0, 0, 0, 0, 131074, 131074, 196609, 0, 65537, 131073, 131073,
            0, 0, 0, 131075] ['-', 'A', 'A', 'T'] ['-', 'A', 'G', 'T'] 4 15)
        = .ok (-1, none)) ∧
    (['A', 'A', 'T'].length = 1 →
      printSimilarity 8
        (hostOf [0, 0, 0, 0, 0, 131074, 131074, 196609, 0, 65537, 131073, 131073,
            0, 0, 0, 131075] ['-', 'A', 'A', 'T'] ['-', 'A', 'G', 'T'] 4 15)
        = .ok (-1, none)) ∧
    (2 ≤ ['A', 'A', 'T'].length →
      printSimilarity 8
        (hostOf [0, 0, 0, 0, 0, 131074, 131074, 196609, 0, 65537, 131073, 131073,
            0, 0, 0, 131075] ['-', 'A', 'A', 'T'] ['-', 'A', 'G', 'T'] 4 15)
        = .ok (0, some (['A', 'A', 'T'], ['A', 'G', 'T']))) :=
  printSimilarity_by_length 8
    (hostOf [0, 0, 0, 0, 0, 131074, 131074, 196609, 0, 65537, 131073, 131073,
            0, 0, 0, 131075] ['-', 'A', 'A', 'T'] ['-', 'A', 'G', 'T'] 4 15)
    ['A', 'A', 'T'] ['A', 'G', 'T'] (by decide)

/-! ## Evaluating the traceback -/

theorem findPrev_eq (hd : KernelHostData) (r c cell : Int)
    (h : load hd.mMatrix (r * hd.mLength + c) = .ok cell) :
    findPrev hd (r, c) =
      .ok (if dirOf cell = NORTH then (r - 1, c)
        else if dirOf cell = WEST then (r, c - 1)
        else if dirOf cell = NORTH_WEST then (r - 1, c - 1)
        else (-1, -1)) := by
  unfold findPrev
  simp only [h]
  unfold dirOf
  split_ifs <;> rfl

theorem traceLoop_stop (hd : KernelHostData) (fuel : Nat) (cur prev : Position)
    (a1 a2 : List Char) (hne : cur ≠ prev)
    (h : load hd.mMatrix (cur.1 * hd.mLength + cur.2) = .ok 0) :
    traceLoop hd (fuel + 1) cur prev a1 a2 = .ok (a1, a2) := by
  rw [traceLoop, if_pos hne]
  simp only [h, if_true]

theorem traceLoop_step (hd : KernelHostData) (fuel : Nat) (cur prev prev1 : Position)
    (a1 a2 : List Char) (cell : Int) (c1 c2 : Char) (hne : cur ≠ prev)
    (h : load hd.mMatrix (cur.1 * hd.mLength + cur.2) = .ok cell) (hcell : cell ≠ 0)
    (h2 : (if prev.1 = cur.1 then Except.ok '-' else load hd.mSequence2 cur.1) = .ok c2)
    (h1 : (if prev.2 = cur.2 then Except.ok '-' else load hd.mSequence1 cur.2) = .ok c1)
    (hp : findPrev hd prev = .ok prev1) :
    traceLoop hd (fuel + 1) cur prev a1 a2 =
      traceLoop hd fuel prev prev1 (c1 :: a1) (c2 :: a2) := by
  rw [traceLoop, if_pos hne]
  simp only [h, hcell, if_false, h2, h1, hp]

theorem findMaximum_nat (m : List Int) (s1 s2 : List Char) (L q : Nat) (hL : 1 ≤ L) :
    findMaximum (hostOf m s1 s2 L (q : Int)) =
      .ok (((q / L : Nat) : Int), ((q % L : Nat) : Int)) := by
  unfold findMaximum hostOf cDiv cMod
  have hne : ¬ ((L : Int) = 0) := by
    intro h; have : L = 0 := by exact_mod_cast h
    rw [this] at hL; exact absurd hL (by decide)
  simp only [hne, if_false, ← Int.ofNat_tdiv, ← Int.ofNat_tmod]

theorem load_cell (idx : Int) (m : List Int) (s1 s2 : List Char) (L i j : Nat) (cell : Int)
    (h : m[i * L + j]? = some cell) :
    load (hostOf m s1 s2 L idx).mMatrix ((i : Int) * (hostOf m s1 s2 L idx).mLength + (j : Int))
      = .ok cell := by
  have e : ((i : Int) * ((L : Nat) : Int) + (j : Int)) = ((i * L + j : Nat) : Int) := by
    push_cast; rfl
  show load m ((i : Int) * ((L : Nat) : Int) + (j : Int)) = _
  rw [e]
  exact load_nat m _ cell h

/-! ## Sequences without a common symbol -/

theorem refScore_no_match (s1 s2 : List Char) (n : Nat)
    (hno : ∀ i j, 1 ≤ i → i < n → 1 ≤ j → j < n → s1[j]? ≠ s2[i]?) :
    ∀ i j, i < n → j < n → refScore s1 s2 i j = 0 ∧ refDir s1 s2 i j = 0 := by
  intro i
  induction i with
  | zero => intro j _ _; exact ⟨refScore_zero_row s1 s2 j, refDir_zero_row s1 s2 j⟩
  | succ i ih =>
    intro j
    induction j with
    | zero => intro _ _; exact ⟨refScore_zero_col s1 s2 _, refDir_zero_col s1 s2 _⟩
    | succ j ihj =>
      intro hi hj
      have hi' : i < n := Nat.lt_of_succ_lt hi
      have hj' : j < n := Nat.lt_of_succ_lt hj
      have hms : matchScore s1 s2 (i + 1) (j + 1) = -1 := by
        unfold matchScore
        rw [if_neg (hno (i + 1) (j + 1) (Nat.succ_le_succ (Nat.zero_le _)) hi
          (Nat.succ_le_succ (Nat.zero_le _)) hj)]
        rfl
      rw [refScore_succ, refDir_succ, (ih j hi' hj').1, (ih (j + 1) hi' hj).1,
        (ihj hi hj').1, hms]
      decide

/-- C7: on a valid input whose sequences share no symbol (`s1[j] ≠ s2[i]` for
all `1 ≤ i, j < L`) the builder returns a matrix whose every cell is 0 (score 0,
direction CENTER), the recorded index is 0 and the score recorded there is 0,
the traceback loop ends with two empty vectors and `printSimilarity` returns
`-1` without printing an alignment. -/
theorem no_match_empty (L : Nat) (s1 s2 : List Char) (m0 : List Int) (mi : Int)
    (fuel : Nat) (hL : 1 ≤ L) (hLL : L * L ≤ 32767) (h1 : s1.length = L)
    (h2 : s2.length = L) (hm : L * L ≤ m0.length) (hf : L * L ≤ fuel)
    (hno : ∀ i j, 1 ≤ i → i < L → 1 ≤ j → j < L → s1[j]? ≠ s2[i]?) :
    ∃ (m : List Int),
      smithwaterman fuel m0 mi s1 s2 (L : Int) = .ok (m, 0) ∧
      (∀ i j, i < L → j < L →
        cellAt m L i j = 0 ∧ scoreAt m L i j = 0 ∧ dirAt m L i j = CENTER) ∧
      scoreOf (m.getD 0 0) = 0 ∧
      traceback fuel (hostOf m s1 s2 L 0) = .ok ([], []) ∧
      printSimilarity fuel (hostOf m s1 s2 L 0) = .ok (-1, none) := by
  obtain ⟨m, q, e, _, hcells, _, hq, _, hfirst⟩ :=
    smithwaterman_spec s1 s2 L m0 mi fuel hL hLL h1 h2 hm hf
  have hzero := refScore_no_match s1 s2 L hno
  have hq0 : q = 0 := by
    rcases Nat.eq_zero_or_pos q with h | h
    · exact h
    · have h3 := hfirst 0 h
      rw [(hzero (q / L) (q % L) (Nat.div_lt_of_lt_mul hq) (Nat.mod_lt q hL)).1,
        Nat.zero_div, refScore_zero_row] at h3
      exact absurd h3 (lt_irrefl _)
  subst hq0
  have hz : scoreOf 0 = 0 ∧ dirOf 0 = CENTER := by decide
  have hcell : ∀ i j, i < L → j < L → cellAt m L i j = 0 := by
    intro i j hi hj
    rw [cellAt_built s1 s2 L m hcells i j hi hj]
    unfold refCell
    rw [(idx_divmod i j L hj).1, (idx_divmod i j L hj).2, (hzero i j hi hj).1,
      (hzero i j hi hj).2]
    rfl
  have hm0 : m[0]? = some 0 := by
    have := hcells 0 (Nat.lt_of_lt_of_le hL (le_sq L hL))
    rw [this, refCell_boundary s1 s2 L 0 (Or.inl hL)]
  have hfuel : ∃ f, fuel = f + 1 :=
    ⟨fuel - 1, (Nat.sub_add_cancel (le_trans (le_trans hL (le_sq L hL)) hf)).symm⟩
  obtain ⟨f, rfl⟩ := hfuel
  have hload : load (hostOf m s1 s2 L ((0 : Nat) : Int)).mMatrix
      (((0 : Nat) : Int) * (hostOf m s1 s2 L ((0 : Nat) : Int)).mLength + ((0 : Nat) : Int))
      = .ok 0 := load_cell _ m s1 s2 L 0 0 0 (by simpa using hm0)
  have htb : traceback (f + 1) (hostOf m s1 s2 L ((0 : Nat) : Int)) = .ok ([], []) := by
    unfold traceback
    rw [findMaximum_nat m s1 s2 L 0 hL]
    simp only [Nat.zero_div, Nat.zero_mod]
    rw [findPrev_eq _ _ _ 0 hload]
    simp only [hz.2]
    exact traceLoop_stop _ f _ _ [] [] (by decide) hload
  refine ⟨m, e, ?_, ?_, htb, ?_⟩
  · intro i j hi hj
    have hc := hcell i j hi hj
    unfold scoreAt dirAt
    rw [hc]
    exact ⟨rfl, hz⟩
  · rw [List.getD_eq_getElem?_getD, hm0]
    exact hz.1
  · unfold printSimilarity
    have htb2 : traceback (f + 1) (hostOf m s1 s2 L 0) = .ok ([], []) := htb
    rw [htb2]
    rfl

/-- Witness of C7 on `s1 = "-AC"`, `s2 = "-GT"`, `L = 3`. -/
theorem no_match_empty_witness :
    ∃ (m : List Int),
      smithwaterman 9 (List.replicate 9 7) 5 ['-', 'A', 'C'] ['-', 'G', 'T'] ((3 : Nat) : Int)
        = .ok (m, 0) ∧
      (∀ i j, i < 3 → j < 3 →
        cellAt m 3 i j = 0 ∧ scoreAt m 3 i j = 0 ∧ dirAt m 3 i j = CENTER) ∧
      scoreOf (m.getD 0 0) = 0 ∧
      traceback 9 (hostOf m ['-', 'A', 'C'] ['-', 'G', 'T'] 3 0) = .ok ([], []) ∧
      printSimilarity 9 (hostOf m ['-', 'A', 'C'] ['-', 'G', 'T'] 3 0) = .ok (-1, none) :=
  no_match_empty 3 ['-', 'A', 'C'] ['-', 'G', 'T'] (List.replicate 9 7) 5 9
    (by decide) (by decide) (by decide) (by decide) (by decide) (by decide)
    (by
      intro i j hi1 hi2 hj1 hj2
      interval_cases i <;> interval_cases j <;> decide)

/-! ## Identical sequences -/

theorem matchScore_same (s : List Char) (i : Nat) : matchScore s s i i = 2 := by
  unfold matchScore
  rw [if_pos rfl]
  rfl

theorem refScore_diag (s : List Char) (i : Nat) : refScore s s i i = 2 * (i : Int) := by
  induction i with
  | zero => rfl
  | succ i ih =>
    have h1 := refScore_le_row s s i (i + 1)
    have h2 := refScore_le_col s s (i + 1) i
    rw [refScore_succ, bestVal_eq_max, ih, matchScore_same]
    unfold GAP
    push_cast
    omega

theorem bestDir_northwest (a b c : Int) (ha : 0 < a) (hb : b ≤ a) (hc : c ≤ a) :
    bestDir a b c = NORTH_WEST := by
  unfold bestDir
  simp only []
  split_ifs <;> first | rfl | omega

theorem refDir_diag (s : List Char) (i : Nat) : refDir s s (i + 1) (i + 1) = NORTH_WEST := by
  have h1 := refScore_le_row s s i (i + 1)
  have h2 := refScore_le_col s s (i + 1) i
  have h3 := refScore_diag s i
  rw [refDir_succ, matchScore_same]
  apply bestDir_northwest
  · omega
  · unfold GAP; omega
  · unfold GAP; omega

theorem refCell_diag (s : List Char) (L i : Nat) (hi : i + 1 < L) :
    refCell s s L ((i + 1) * L + (i + 1)) = 2 * 65536 + 2 * ((i + 1 : Nat) : Int) := by
  unfold refCell
  rw [(idx_divmod (i + 1) (i + 1) L hi).1, (idx_divmod (i + 1) (i + 1) L hi).2, refDir_diag,
    refScore_diag]
  rfl

theorem findPrev_diag (s : List Char) (c0 : Char) (m : List Int) (L : Nat) (idx : Int)
    (hLL : L * L ≤ 32767)
    (hcells : ∀ k, k < L * L → m[k]? = some (refCell (c0 :: s) (c0 :: s) L k))
    (i : Nat) (hi : i < L) :
    findPrev (hostOf m (c0 :: s) (c0 :: s) L idx) ((i : Int), (i : Int)) = .ok (diagPrev i) := by
  have hload := load_cell idx m (c0 :: s) (c0 :: s) L i i _
    (hcells _ (idx_lt i i L hi hi))
  rw [findPrev_eq _ _ _ _ hload, dirOf_refCell _ _ L _ hLL (idx_lt i i L hi hi),
    (idx_divmod i i L hi).1, (idx_divmod i i L hi).2]
  cases i with
  | zero => rfl
  | succ i =>
    rw [refDir_diag]
    have e : ((i + 1 : Nat) : Int) - 1 = (i : Int) := by push_cast; omega
    simp only [e]
    rfl

theorem traceLoop_diag (s : List Char) (c0 : Char) (m : List Int) (L : Nat) (idx : Int)
    (hLL : L * L ≤ 32767) (hs : s.length + 1 = L)
    (hcells : ∀ k, k < L * L → m[k]? = some (refCell (c0 :: s) (c0 :: s) L k)) :
    ∀ (i : Nat), i < L → ∀ (fuel : Nat) (a1 a2 : List Char), i < fuel →
      traceLoop (hostOf m (c0 :: s) (c0 :: s) L idx) fuel ((i : Int), (i : Int)) (diagPrev i)
        a1 a2 = .ok (s.take i ++ a1, s.take i ++ a2) := by
  intro i
  induction i with
  | zero =>
    intro hi fuel a1 a2 hf
    obtain ⟨f, rfl⟩ : ∃ f, fuel = f + 1 := ⟨fuel - 1, (Nat.sub_add_cancel hf).symm⟩
    have h0 : m[0 * L + 0]? = some 0 := by
      rw [hcells _ (idx_lt 0 0 L hi hi)]
      rw [refCell_boundary _ _ L _ (Or.inl (by simpa using hi))]
    have hload := load_cell idx m (c0 :: s) (c0 :: s) L 0 0 0 h0
    exact traceLoop_stop _ f _ _ a1 a2 (by decide) hload
  | succ i ih =>
    intro hi fuel a1 a2 hf
    obtain ⟨f, rfl⟩ : ∃ f, fuel = f + 1 := ⟨fuel - 1, by omega⟩
    have hi' : i < L := Nat.lt_of_succ_lt hi
    have hload := load_cell idx m (c0 :: s) (c0 :: s) L (i + 1) (i + 1) _
      (hcells _ (idx_lt (i + 1) (i + 1) L hi hi))
    rw [refCell_diag (c0 :: s) L i hi] at hload
    have hil : i < s.length := by omega
    obtain ⟨c, hc⟩ := getElem?_some_of_lt s i hil
    have hld : load (c0 :: s) (((i + 1 : Nat) : Int)) = .ok c :=
      load_nat (c0 :: s) (i + 1) c (by rw [List.getElem?_cons_succ]; exact hc)
    have hne : (((i + 1 : Nat) : Int), ((i + 1 : Nat) : Int)) ≠ diagPrev (i + 1) := by
      show (((i + 1 : Nat) : Int), ((i + 1 : Nat) : Int)) ≠ ((i : Int), (i : Int))
      intro h
      have := congrArg Prod.fst h
      simp at this
    have hne2 : ¬ ((i : Int) = ((i + 1 : Nat) : Int)) := by
      push_cast; omega
    have hcell : (2 * 65536 + 2 * ((i + 1 : Nat) : Int)) ≠ 0 := by
      push_cast; omega
    rw [traceLoop_step _ f _ _ (diagPrev i) a1 a2 _ c c hne hload hcell
      (by show (if (i : Int) = ((i + 1 : Nat) : Int) then _ else _) = _
          rw [if_neg hne2]; exact hld)
      (by show (if (i : Int) = ((i + 1 : Nat) : Int) then _ else _) = _
          rw [if_neg hne2]; exact hld)
      (findPrev_diag s c0 m L idx hLL hcells i hi')]
    show traceLoop _ f ((i : Int), (i : Int)) (diagPrev i) (c :: a1) (c :: a2) = _
    rw [ih hi' f (c :: a1) (c :: a2) (Nat.lt_of_succ_lt_succ hf)]
    rw [List.take_succ, hc]
    simp

theorem diag_pin (n a b : Nat) (x : Int) (h1 : 2 * (n : Int) ≤ x) (h2 : x ≤ 2 * (a : Int))
    (h3 : x ≤ 2 * (b : Int)) (ha : a < n + 1) (hb : b < n + 1) : a = n ∧ b = n := by
  omega

theorem printSimilarity_ok (fuel : Nat) (hd : KernelHostData) (a1 a2 : List Char)
    (h : traceback fuel hd = .ok (a1, a2)) (h2 : 2 ≤ a1.length) :
    printSimilarity fuel hd = .ok (0, some (a1, a2)) := by
  have hl := traceback_length fuel hd a1 a2 h
  have e0 : ¬ a1.length = 0 := by omega
  have e1 : ¬ a1.length = 1 := by omega
  unfold printSimilarity
  rw [h]
  simp only [← hl]
  simp [e0, e1]

/-- C8: for a sequence `s` of `n ≥ 2` symbols and any sentinel, the builder on
`s1 = s2 = sentinel + s` (with `L = n + 1`, `L * L ≤ 32767`) returns a matrix
with `cell(i, i) = {2 * i, NORTH_WEST}` for `1 ≤ i ≤ n`; the recorded index is
that of the bottom-right cell `(n, n)`, whose score `2 * n` bounds every cell;
and the traceback succeeds with `alignment1 = alignment2 = s`. -/
theorem identical_sequences (c0 : Char) (s : List Char) (m0 : List Int) (mi : Int)
    (fuel : Nat) (hn : 2 ≤ s.length)
    (hLL : (s.length + 1) * (s.length + 1) ≤ 32767)
    (hm : (s.length + 1) * (s.length + 1) ≤ m0.length)
    (hf : (s.length + 1) * (s.length + 1) ≤ fuel) :
    ∃ (m : List Int),
      smithwaterman fuel m0 mi (c0 :: s) (c0 :: s) ((s.length + 1 : Nat) : Int)
        = .ok (m, ((s.length * (s.length + 1) + s.length : Nat) : Int)) ∧
      (∀ i, 1 ≤ i → i ≤ s.length →
        scoreAt m (s.length + 1) i i = 2 * (i : Int) ∧
        dirAt m (s.length + 1) i i = NORTH_WEST) ∧
      findMaximum (hostOf m (c0 :: s) (c0 :: s) (s.length + 1)
          ((s.length * (s.length + 1) + s.length : Nat) : Int))
        = .ok ((s.length : Int), (s.length : Int)) ∧
      (∀ i j, i < s.length + 1 → j < s.length + 1 →
        scoreAt m (s.length + 1) i j ≤ 2 * (s.length : Int)) ∧
      traceback fuel (hostOf m (c0 :: s) (c0 :: s) (s.length + 1)
          ((s.length * (s.length + 1) + s.length : Nat) : Int)) = .ok (s, s) ∧
      printSimilarity fuel (hostOf m (c0 :: s) (c0 :: s) (s.length + 1)
          ((s.length * (s.length + 1) + s.length : Nat) : Int)) = .ok (0, some (s, s)) := by
  have hL : 1 ≤ s.length + 1 := Nat.succ_le_succ (Nat.zero_le _)
  have hnL : s.length < s.length + 1 := Nat.lt_succ_self _
  obtain ⟨m, q, e, _, hcells, _, hq, hmax, _⟩ :=
    smithwaterman_spec (c0 :: s) (c0 :: s) (s.length + 1) m0 mi fuel hL hLL rfl rfl hm hf
  obtain ⟨d1, d2⟩ := idx_divmod s.length s.length (s.length + 1) hnL
  have hqv : q = s.length * (s.length + 1) + s.length := by
    have h1 := hmax _ (idx_lt s.length s.length (s.length + 1) hnL hnL)
    rw [d1, d2, refScore_diag] at h1
    have h2 := refScore_le_row (c0 :: s) (c0 :: s) (q / (s.length + 1)) (q % (s.length + 1))
    have h3 := refScore_le_col (c0 :: s) (c0 :: s) (q / (s.length + 1)) (q % (s.length + 1))
    obtain ⟨p1, p2⟩ := diag_pin s.length _ _ _ h1 h2 h3 (Nat.div_lt_of_lt_mul hq)
      (Nat.mod_lt q hL)
    have h4 := Nat.div_add_mod q (s.length + 1)
    rw [p1, p2, Nat.mul_comm] at h4
    exact h4.symm
  subst hqv
  have hfm := findMaximum_nat m (c0 :: s) (c0 :: s) (s.length + 1)
    (s.length * (s.length + 1) + s.length) hL
  rw [d1, d2] at hfm
  have hfuel : s.length < fuel :=
    Nat.lt_of_lt_of_le hnL (le_trans (le_sq _ hL) hf)
  have htb : traceback fuel (hostOf m (c0 :: s) (c0 :: s) (s.length + 1)
      ((s.length * (s.length + 1) + s.length : Nat) : Int)) = .ok (s, s) := by
    unfold traceback
    rw [hfm]
    simp only []
    rw [findPrev_diag s c0 m (s.length + 1) _ hLL hcells s.length hnL]
    simp only []
    rw [traceLoop_diag s c0 m (s.length + 1) _ hLL rfl hcells s.length hnL fuel [] [] hfuel]
    simp
  refine ⟨m, e, ?_, hfm, ?_, htb, printSimilarity_ok _ _ s s htb hn⟩
  · intro i hi1 hi2
    have hi3 : i < s.length + 1 := Nat.lt_succ_of_le hi2
    obtain ⟨a, rfl⟩ : ∃ a, i = a + 1 := ⟨i - 1, (Nat.sub_add_cancel hi1).symm⟩
    rw [scoreAt_built _ _ _ m hLL hcells _ _ hi3 hi3, dirAt_built _ _ _ m hLL hcells _ _ hi3 hi3]
    exact ⟨refScore_diag _ _, refDir_diag _ _⟩
  · intro i j hi hj
    rw [scoreAt_built _ _ _ m hLL hcells _ _ hi hj]
    have h1 := refScore_le_row (c0 :: s) (c0 :: s) i j
    have h2 : (i : Int) ≤ (s.length : Int) := by exact_mod_cast Nat.le_of_lt_succ hi
    linarith

/-- Witness of C8 on `s = "AT"` with the sentinel `'-'`: diagonal scores 2 and
4, recorded index 8 (the bottom-right cell of the 3 x 3 matrix), alignments
`"AT"` and `"AT"`. -/
theorem identical_sequences_witness :
    ∃ (m : List Int),
      smithwaterman 9 (List.replicate 9 7) 5 ('-' :: ['A', 'T']) ('-' :: ['A', 'T'])
        ((['A', 'T'].length + 1 : Nat) : Int)
        = .ok (m, ((['A', 'T'].length * (['A', 'T'].length + 1) + ['A', 'T'].length : Nat) : Int)) ∧
      (∀ i, 1 ≤ i → i ≤ ['A', 'T'].length →
        scoreAt m (['A', 'T'].length + 1) i i = 2 * (i : Int) ∧
        dirAt m (['A', 'T'].length + 1) i i = NORTH_WEST) ∧
      findMaximum (hostOf m ('-' :: ['A', 'T']) ('-' :: ['A', 'T']) (['A', 'T'].length + 1)
          ((['A', 'T'].length * (['A', 'T'].length + 1) + ['A', 'T'].length : Nat) : Int))
        = .ok ((['A', 'T'].length : Int), (['A', 'T'].length : Int)) ∧
      (∀ i j, i < ['A', 'T'].length + 1 → j < ['A', 'T'].length + 1 →
        scoreAt m (['A', 'T'].length + 1) i j ≤ 2 * (['A', 'T'].length : Int)) ∧
      traceback 9 (hostOf m ('-' :: ['A', 'T']) ('-' :: ['A', 'T']) (['A', 'T'].length + 1)
          ((['A', 'T'].length * (['A', 'T'].length + 1) + ['A', 'T'].length : Nat) : Int))
        = .ok (['A', 'T'], ['A', 'T']) ∧
      printSimilarity 9 (hostOf m ('-' :: ['A', 'T']) ('-' :: ['A', 'T'])
          (['A', 'T'].length + 1)
          ((['A', 'T'].length * (['A', 'T'].length + 1) + ['A', 'T'].length : Nat) : Int))
        = .ok (0, some (['A', 'T'], ['A', 'T'])) :=
  identical_sequences '-' ['A', 'T'] (List.replicate 9 7) 5 9
    (by decide) (by decide) (by decide) (by decide)

/-! ## Optimal local alignment -/

theorem alignScore_append (a b : List Column) :
    alignScore (a ++ b) = alignScore a + alignScore b := by
  induction a with
  | nil => simp [alignScore]
  | cons c cs ih =>
    show c.score + alignScore (cs ++ b) = c.score + alignScore cs + alignScore b
    rw [ih]; ring

theorem alignLeft_append (a b : List Column) :
    alignLeft (a ++ b) = alignLeft a ++ alignLeft b := by
  induction a with
  | nil => simp [alignLeft]
  | cons c cs ih => cases c <;> simp [alignLeft, ih]

theorem alignRight_append (a b : List Column) :
    alignRight (a ++ b) = alignRight a ++ alignRight b := by
  induction a with
  | nil => simp [alignRight]
  | cons c cs ih => cases c <;> simp [alignRight, ih]

theorem refScore_west (s1 s2 : List Char) (i j : Nat) :
    refScore s1 s2 i j - 1 ≤ refScore s1 s2 i (j + 1) := by
  cases i with
  | zero => simp [refScore_zero_row]
  | succ i =>
    rw [refScore_succ, bestVal_eq_max]
    unfold GAP
    omega

theorem refScore_north (s1 s2 : List Char) (i j : Nat) :
    refScore s1 s2 i j - 1 ≤ refScore s1 s2 (i + 1) j := by
  cases j with
  | zero => simp [refScore_zero_col]
  | succ j =>
    rw [refScore_succ, bestVal_eq_max]
    unfold GAP
    omega

theorem refScore_diagonal (s1 s2 : List Char) (i j : Nat) :
    refScore s1 s2 i j + matchScore s1 s2 (i + 1) (j + 1) ≤ refScore s1 s2 (i + 1) (j + 1) := by
  rw [refScore_succ, bestVal_eq_max]
  omega

theorem getElem?_middle (pre mid post : List Char) (x : Char) :
    (pre ++ mid ++ x :: post)[pre.length + mid.length]? = some x := by
  rw [List.getElem?_append_right (by simp)]
  simp

theorem matchScore_pair (s1 s2 : List Char) (i j : Nat) (x y : Char)
    (h1 : s1.tail[j]? = some x) (h2 : s2.tail[i]? = some y) :
    matchScore s1 s2 (i + 1) (j + 1) = (Column.pair x y).score := by
  unfold matchScore Column.score MATCH MISS_MATCH
  rw [← List.getElem?_tail, ← List.getElem?_tail, h1, h2]
  simp

theorem alignScore_le_refScore (s1 s2 : List Char) (a : List Column) :
    ∀ (pre1 post1 pre2 post2 : List Char),
      s1.tail = pre1 ++ alignLeft a ++ post1 →
      s2.tail = pre2 ++ alignRight a ++ post2 →
      alignScore a ≤
        refScore s1 s2 (pre2.length + (alignRight a).length)
          (pre1.length + (alignLeft a).length) := by
  induction a using List.reverseRecOn with
  | nil =>
    intro pre1 post1 pre2 post2 _ _
    exact refScore_nonneg _ _ _ _
  | append_singleton a c ih =>
    intro pre1 post1 pre2 post2 h1 h2
    rw [alignLeft_append] at h1
    rw [alignRight_append] at h2
    rw [alignScore_append, alignLeft_append, alignRight_append]
    cases c with
    | pair x y =>
      have h1' : s1.tail = pre1 ++ alignLeft a ++ x :: post1 := by
        rw [h1]; simp [alignLeft]
      have h2' : s2.tail = pre2 ++ alignRight a ++ y :: post2 := by
        rw [h2]; simp [alignRight]
      have hih := ih pre1 (x :: post1) pre2 (y :: post2) h1' h2'
      have hx : s1.tail[pre1.length + (alignLeft a).length]? = some x := by
        rw [h1']; exact getElem?_middle _ _ _ _
      have hy : s2.tail[pre2.length + (alignRight a).length]? = some y := by
        rw [h2']; exact getElem?_middle _ _ _ _
      have hms := matchScore_pair s1 s2 _ _ x y hx hy
      have hd := refScore_diagonal s1 s2 (pre2.length + (alignRight a).length)
        (pre1.length + (alignLeft a).length)
      have e1 : (alignLeft a ++ alignLeft [Column.pair x y]).length
          = (alignLeft a).length + 1 := by simp [alignLeft]
      have e2 : (alignRight a ++ alignRight [Column.pair x y]).length
          = (alignRight a).length + 1 := by simp [alignRight]
      have e3 : alignScore [Column.pair x y] = (Column.pair x y).score := by
        simp [alignScore]
      rw [e1, e2, e3, ← Nat.add_assoc, ← Nat.add_assoc, ← hms]
      linarith
    | gapIn2 x =>
      have h1' : s1.tail = pre1 ++ alignLeft a ++ x :: post1 := by
        rw [h1]; simp [alignLeft]
      have h2' : s2.tail = pre2 ++ alignRight a ++ post2 := by
        rw [h2]; simp [alignRight]
      have hih := ih pre1 (x :: post1) pre2 post2 h1' h2'
      have hw := refScore_west s1 s2 (pre2.length + (alignRight a).length)
        (pre1.length + (alignLeft a).length)
      have e1 : (alignLeft a ++ alignLeft [Column.gapIn2 x]).length
          = (alignLeft a).length + 1 := by simp [alignLeft]
      have e2 : (alignRight a ++ alignRight [Column.gapIn2 x]).length
          = (alignRight a).length := by simp [alignRight]
      have e3 : alignScore [Column.gapIn2 x] = -1 := by
        simp [alignScore, Column.score]
      rw [e1, e2, e3, ← Nat.add_assoc]
      linarith
    | gapIn1 y =>
      have h1' : s1.tail = pre1 ++ alignLeft a ++ post1 := by
        rw [h1]; simp [alignLeft]
      have h2' : s2.tail = pre2 ++ alignRight a ++ y :: post2 := by
        rw [h2]; simp [alignRight]
      have hih := ih pre1 post1 pre2 (y :: post2) h1' h2'
      have hn := refScore_north s1 s2 (pre2.length + (alignRight a).length)
        (pre1.length + (alignLeft a).length)
      have e1 : (alignLeft a ++ alignLeft [Column.gapIn1 y]).length
          = (alignLeft a).length := by simp [alignLeft]
      have e2 : (alignRight a ++ alignRight [Column.gapIn1 y]).length
          = (alignRight a).length + 1 := by simp [alignRight]
      have e3 : alignScore [Column.gapIn1 y] = -1 := by
        simp [alignScore, Column.score]
      rw [e1, e2, e3, ← Nat.add_assoc]
      linarith

theorem bestVal_cases (a b c : Int) :
    bestVal a b c = 0 ∨ bestVal a b c = a ∨ bestVal a b c = b ∨ bestVal a b c = c := by
  rw [bestVal_eq_max]
  omega

theorem take_succ_tail (s : List Char) (j : Nat) (x : Char) (h : s[j]? = some x) :
    s.take (j + 1) = s.take j ++ [x] := by
  rw [List.take_succ, h]
  rfl

theorem refScore_achieved (s1 s2 : List Char) :
    ∀ i j, i < s2.length → j < s1.length →
      ∃ (a : List Column) (pre1 pre2 : List Char),
        s1.tail.take j = pre1 ++ alignLeft a ∧
        s2.tail.take i = pre2 ++ alignRight a ∧
        alignScore a = refScore s1 s2 i j := by
  intro i
  induction i with
  | zero =>
    intro j _ _
    exact ⟨[], s1.tail.take j, [], by simp [alignLeft], by simp [alignRight], rfl⟩
  | succ i ih =>
    intro j
    induction j with
    | zero =>
      intro _ _
      exact ⟨[], [], s2.tail.take (i + 1), by simp [alignLeft], by simp [alignRight],
        (refScore_zero_col s1 s2 _).symm⟩
    | succ j ihj =>
      intro hi hj
      have hi' : i < s2.length := Nat.lt_of_succ_lt hi
      have hj' : j < s1.length := Nat.lt_of_succ_lt hj
      obtain ⟨x, hx⟩ := getElem?_some_of_lt s1.tail j (by rw [List.length_tail]; omega)
      obtain ⟨y, hy⟩ := getElem?_some_of_lt s2.tail i (by rw [List.length_tail]; omega)
      have hms := matchScore_pair s1 s2 i j x y hx hy
      rcases bestVal_cases (refScore s1 s2 i j + matchScore s1 s2 (i + 1) (j + 1))
        (refScore s1 s2 i (j + 1) + GAP) (refScore s1 s2 (i + 1) j + GAP) with h | h | h | h
      · refine ⟨[], s1.tail.take (j + 1), s2.tail.take (i + 1), by simp [alignLeft],
          by simp [alignRight], ?_⟩
        rw [refScore_succ, h]; rfl
      · obtain ⟨a, pre1, pre2, e1, e2, e3⟩ := ih j hi' hj'
        refine ⟨a ++ [Column.pair x y], pre1, pre2, ?_, ?_, ?_⟩
        · rw [take_succ_tail _ _ x hx, e1, alignLeft_append]
          simp [alignLeft]
        · rw [take_succ_tail _ _ y hy, e2, alignRight_append]
          simp [alignRight]
        · rw [refScore_succ, h, alignScore_append, e3, hms]
          simp [alignScore]
      · obtain ⟨a, pre1, pre2, e1, e2, e3⟩ := ih (j + 1) hi' hj
        refine ⟨a ++ [Column.gapIn1 y], pre1, pre2, ?_, ?_, ?_⟩
        · rw [e1, alignLeft_append]
          simp [alignLeft]
        · rw [take_succ_tail _ _ y hy, e2, alignRight_append]
          simp [alignRight]
        · rw [refScore_succ, h, alignScore_append, e3]
          simp [alignScore, Column.score, GAP]
      · obtain ⟨a, pre1, pre2, e1, e2, e3⟩ := ihj hi hj'
        refine ⟨a ++ [Column.gapIn2 x], pre1, pre2, ?_, ?_, ?_⟩
        · rw [take_succ_tail _ _ x hx, e1, alignLeft_append]
          simp [alignLeft]
        · rw [e2, alignRight_append]
          simp [alignRight]
        · rw [refScore_succ, h, alignScore_append, e3]
          simp [alignScore, Column.score, GAP]

theorem len_bound (pre mid post : List Char) (s : List Char) (L : Nat)
    (hs : s.length = L) (hL : 1 ≤ L) (h : s.tail = pre ++ mid ++ post) :
    pre.length + mid.length < L := by
  have := congrArg List.length h
  rw [List.length_tail, List.length_append, List.length_append, hs] at this
  omega

/-- C4: on a valid input the builder returns and the score stored at the
recorded index is the optimal local alignment score: every gapped alignment of
a contiguous piece of `s1[1..L-1]` with a contiguous piece of `s2[1..L-1]`
(`+2` per column of equal symbols, `-1` per column of different symbols, `-1`
per gap column, `0` for the empty alignment) scores at most that value, and
some such alignment scores exactly that value. -/
theorem smithwaterman_optimal (L : Nat) (s1 s2 : List Char) (m0 : List Int) (mi : Int)
    (fuel : Nat) (hL : 1 ≤ L) (hLL : L * L ≤ 32767) (h1 : s1.length = L)
    (h2 : s2.length = L) (hm : L * L ≤ m0.length) (hf : L * L ≤ fuel) :
    ∃ (m : List Int) (q : Nat),
      smithwaterman fuel m0 mi s1 s2 (L : Int) = .ok (m, (q : Int)) ∧
      (∀ (a : List Column) (pre1 post1 pre2 post2 : List Char),
        s1.tail = pre1 ++ alignLeft a ++ post1 →
        s2.tail = pre2 ++ alignRight a ++ post2 →
        alignScore a ≤ scoreOf (m.getD q 0)) ∧
      (∃ (a : List Column) (pre1 post1 pre2 post2 : List Char),
        s1.tail = pre1 ++ alignLeft a ++ post1 ∧
        s2.tail = pre2 ++ alignRight a ++ post2 ∧
        alignScore a = scoreOf (m.getD q 0)) := by
  obtain ⟨m, q, e, _, hcells, _, hq, hmax, _⟩ :=
    smithwaterman_spec s1 s2 L m0 mi fuel hL hLL h1 h2 hm hf
  have hr : q / L < L := Nat.div_lt_of_lt_mul hq
  have hc : q % L < L := Nat.mod_lt q hL
  have hsc : scoreOf (m.getD q 0) = refScore s1 s2 (q / L) (q % L) := by
    rw [List.getD_eq_getElem?_getD, hcells q hq]
    exact scoreOf_refCell s1 s2 L q hLL hq
  refine ⟨m, q, e, ?_, ?_⟩
  · intro a pre1 post1 pre2 post2 e1 e2
    have hj := len_bound pre1 (alignLeft a) post1 s1 L h1 hL e1
    have hi := len_bound pre2 (alignRight a) post2 s2 L h2 hL e2
    have hub := alignScore_le_refScore s1 s2 a pre1 post1 pre2 post2 e1 e2
    have hmx := hmax _ (idx_lt _ _ L hi hj)
    rw [(idx_divmod _ _ L hj).1, (idx_divmod _ _ L hj).2] at hmx
    rw [hsc]
    exact le_trans hub hmx
  · obtain ⟨a, pre1, pre2, e1, e2, e3⟩ := refScore_achieved s1 s2 (q / L) (q % L)
      (by rw [h2]; exact hr) (by rw [h1]; exact hc)
    refine ⟨a, pre1, s1.tail.drop (q % L), pre2, s2.tail.drop (q / L), ?_, ?_, ?_⟩
    · rw [← e1]; exact (List.take_append_drop _ _).symm
    · rw [← e2]; exact (List.take_append_drop _ _).symm
    · rw [hsc]; exact e3

/-- Witness of C4 on `s1 = "-AAT"`, `s2 = "-AGT"`, `L = 4`. -/
theorem smithwaterman_optimal_witness :
    ∃ (m : List Int) (q : Nat),
      smithwaterman 16 (List.replicate 16 7) 5 ['-', 'A', 'A', 'T'] ['-', 'A', 'G', 'T']
        ((4 : Nat) : Int) = .ok (m, (q : Int)) ∧
      (∀ (a : List Column) (pre1 post1 pre2 post2 : List Char),
        ['-', 'A', 'A', 'T'].tail = pre1 ++ alignLeft a ++ post1 →
        ['-', 'A', 'G', 'T'].tail = pre2 ++ alignRight a ++ post2 →
        alignScore a ≤ scoreOf (m.getD q 0)) ∧
      (∃ (a : List Column) (pre1 post1 pre2 post2 : List Char),
        ['-', 'A', 'A', 'T'].tail = pre1 ++ alignLeft a ++ post1 ∧
        ['-', 'A', 'G', 'T'].tail = pre2 ++ alignRight a ++ post2 ∧
        alignScore a = scoreOf (m.getD q 0)) :=
  smithwaterman_optimal 4 ['-', 'A', 'A', 'T'] ['-', 'A', 'G', 'T'] (List.replicate 16 7) 5 16
    (by decide) (by decide) (by decide) (by decide) (by decide) (by decide)

theorem dir_cases (d : Int) (h0 : 0 ≤ d) (h1 : d ≤ 3) :
    d = CENTER ∨ d = NORTH ∨ d = NORTH_WEST ∨ d = WEST := by
  unfold CENTER NORTH NORTH_WEST WEST
  omega

theorem low_mask_pack (d v : Int) (hd0 : 0 ≤ d) (hd1 : d ≤ 3) (hv0 : 0 ≤ v) (hv1 : v < 32768) :
    and32 (d * 65536 + v) 0x0000ffff = v := by
  rw [and32_low _ (by omega) (by omega)]
  omega

/-! ## Determinism of the builder -/

theorem first_max_unique (f : Nat → Int) (q p : Nat) (n : Nat)
    (hq : q < n) (hp : p < n)
    (hqmax : ∀ idx, idx < n → f idx ≤ f q) (hqfirst : ∀ idx, idx < q → f idx < f q)
    (hpmax : ∀ idx, idx < n → f idx ≤ f p) (hpfirst : ∀ idx, idx < p → f idx < f p) :
    q = p := by
  rcases Nat.lt_trichotomy q p with h | h | h
  · exact absurd (hpfirst q h) (not_lt.mpr (hqmax p hp))
  · exact h
  · exact absurd (hqfirst p h) (not_lt.mpr (hpmax q hq))

theorem built_ext (s1 s2 : List Char) (n : Nat) (m m' : List Int)
    (hl : m.length = m'.length)
    (hc : ∀ idx, idx < n * n → m[idx]? = some (refCell s1 s2 n idx))
    (hc' : ∀ idx, idx < n * n → m'[idx]? = some (refCell s1 s2 n idx))
    (hr : ∀ idx, n * n ≤ idx → m[idx]? = m'[idx]?) : m = m' := by
  apply List.ext_getElem?
  intro idx
  rcases Nat.lt_or_ge idx (n * n) with h | h
  · rw [hc idx h, hc' idx h]
  · exact hr idx h

theorem built_take_ext (s1 s2 : List Char) (n : Nat) (m m' : List Int)
    (hc : ∀ idx, idx < n * n → m[idx]? = some (refCell s1 s2 n idx))
    (hc' : ∀ idx, idx < n * n → m'[idx]? = some (refCell s1 s2 n idx)) :
    m.take (n * n) = m'.take (n * n) := by
  apply List.ext_getElem?
  intro idx
  rw [List.getElem?_take, List.getElem?_take]
  by_cases h : idx < n * n
  · rw [if_pos h, if_pos h, hc idx h, hc' idx h]
  · rw [if_neg h, if_neg h]

theorem drop_getElem? (m0 m0' : List Int) (c idx : Nat) (h : m0.drop c = m0'.drop c)
    (hi : c ≤ idx) : m0[idx]? = m0'[idx]? := by
  have e1 := List.getElem?_drop m0 c (idx - c)
  have e2 := List.getElem?_drop m0' c (idx - c)
  rw [Nat.add_sub_cancel' hi] at e1 e2
  rw [← e1, ← e2, h]

theorem drop_length (m0 m0' : List Int) (c : Nat) (h : m0.drop c = m0'.drop c)
    (h1 : c ≤ m0.length) (h2 : c ≤ m0'.length) : m0.length = m0'.length := by
  have := congrArg List.length h
  rw [List.length_drop, List.length_drop] at this
  omega

/-- C11: on a valid input two runs of the builder, from any two initial
buffers, any two previous values of `*maxIndex` and any sufficient fuel,
return the same recorded index and the same `L * L` matrix cells; the whole
output buffers are equal when the two buffers agree beyond the matrix (in
particular when both hold exactly `L * L` cells, as in `runSoftware`); and
running the builder on its own output returns that output again. -/
theorem smithwaterman_deterministic (L : Nat) (s1 s2 : List Char) (m0 m0' : List Int)
    (mi mi' : Int) (fuel fuel' : Nat) (hL : 1 ≤ L) (hLL : L * L ≤ 32767)
    (h1 : s1.length = L) (h2 : s2.length = L) (hm : L * L ≤ m0.length)
    (hm' : L * L ≤ m0'.length) (hf : L * L ≤ fuel) (hf' : L * L ≤ fuel') :
    ∃ (m m' : List Int) (idx : Int),
      smithwaterman fuel m0 mi s1 s2 (L : Int) = .ok (m, idx) ∧
      smithwaterman fuel' m0' mi' s1 s2 (L : Int) = .ok (m', idx) ∧
      m.take (L * L) = m'.take (L * L) ∧
      (m0.drop (L * L) = m0'.drop (L * L) → m = m') ∧
      smithwaterman fuel' m idx s1 s2 (L : Int) = .ok (m, idx) := by
  obtain ⟨m, q, e, hlen, hc, hr, hq, hmax, hfirst⟩ :=
    smithwaterman_spec s1 s2 L m0 mi fuel hL hLL h1 h2 hm hf
  obtain ⟨m', q', e', hlen', hc', hr', hq', hmax', hfirst'⟩ :=
    smithwaterman_spec s1 s2 L m0' mi' fuel' hL hLL h1 h2 hm' hf'
  obtain ⟨m2, q2, e2, hlen2, hc2, hr2, hq2, hmax2, hfirst2⟩ :=
    smithwaterman_spec s1 s2 L m (q : Int) fuel' hL hLL h1 h2 (by rw [hlen]; exact hm) hf'
  have hqq : q = q' := first_max_unique (fun k => refScore s1 s2 (k / L) (k % L)) q q' (L * L)
    hq hq' hmax hfirst hmax' hfirst'
  have hqq2 : q2 = q := first_max_unique (fun k => refScore s1 s2 (k / L) (k % L)) q2 q (L * L)
    hq2 hq hmax2 hfirst2 hmax hfirst
  have hmm : m2 = m := built_ext s1 s2 L m2 m hlen2 hc2 hc hr2
  subst hqq
  refine ⟨m, m', (q : Int), e, e', built_take_ext s1 s2 L m m' hc hc', ?_, ?_⟩
  · intro hd
    refine built_ext s1 s2 L m m' ?_ hc hc' ?_
    · rw [hlen, hlen']; exact drop_length m0 m0' _ hd hm hm'
    · intro idx hidx
      rw [hr idx hidx, hr' idx hidx]
      exact drop_getElem? m0 m0' _ idx hd hidx
  · rw [e2, hmm, hqq2]

/-- Witness of C11 on `s1 = s2 = "-AT"`, `L = 3`, with two different initial
buffers. -/
theorem smithwaterman_deterministic_witness :
    ∃ (m m' : List Int) (idx : Int),
      smithwaterman 9 (List.replicate 9 7) 5 ['-', 'A', 'T'] ['-', 'A', 'T'] ((3 : Nat) : Int)
        = .ok (m, idx) ∧
      smithwaterman 12 (List.replicate 9 (-1)) 0 ['-', 'A', 'T'] ['-', 'A', 'T'] ((3 : Nat) : Int)
        = .ok (m', idx) ∧
      m.take (3 * 3) = m'.take (3 * 3) ∧
      ((List.replicate 9 (7 : Int)).drop (3 * 3) = (List.replicate 9 (-1 : Int)).drop (3 * 3) →
        m = m') ∧
      smithwaterman 12 m idx ['-', 'A', 'T'] ['-', 'A', 'T'] ((3 : Nat) : Int) = .ok (m, idx) :=
  smithwaterman_deterministic 3 ['-', 'A', 'T'] ['-', 'A', 'T'] (List.replicate 9 7)
    (List.replicate 9 (-1)) 5 0 9 12
    (by decide) (by decide) (by decide) (by decide) (by decide) (by decide) (by decide)
    (by decide)

/-! ## Layout of the packed cells -/

/-- C12: on a valid input every cell of the built matrix is
`direction * 65536 + score` with a direction code among CENTER, NORTH,
NORTH_WEST, WEST and `0 ≤ score < 32768`; the low-16-bit mask of the cell is
the score (also after the conversion to `short`), and the high-16-bit mask
shifted right by 16, as in `findPrev`, is the direction code. -/
theorem smithwaterman_packing (L : Nat) (s1 s2 : List Char) (m0 : List Int) (mi : Int)
    (fuel : Nat) (hL : 1 ≤ L) (hLL : L * L ≤ 32767) (h1 : s1.length = L)
    (h2 : s2.length = L) (hm : L * L ≤ m0.length) (hf : L * L ≤ fuel) :
    ∃ (m : List Int) (idx : Int),
      smithwaterman fuel m0 mi s1 s2 (L : Int) = .ok (m, idx) ∧
      ∀ i j, i < L → j < L →
        ∃ (d s : Int),
          cellAt m L i j = d * 65536 + s ∧
          (d = CENTER ∨ d = NORTH ∨ d = NORTH_WEST ∨ d = WEST) ∧
          0 ≤ s ∧ s < 32768 ∧
          and32 (cellAt m L i j) 0x0000ffff = s ∧
          scoreAt m L i j = s ∧
          sar32 (and32 (cellAt m L i j) 0xFFFF0000) 16 = d ∧
          dirAt m L i j = d := by
  obtain ⟨m, q, e, _, hcells, _, _, _, _⟩ :=
    smithwaterman_spec s1 s2 L m0 mi fuel hL hLL h1 h2 hm hf
  refine ⟨m, (q : Int), e, ?_⟩
  intro i j hi hj
  have hs0 := refScore_nonneg s1 s2 i j
  have hs1 := refScore_lt s1 s2 L i j hLL hi
  have hd := refDir_range s1 s2 i j
  have hcell : cellAt m L i j = refDir s1 s2 i j * 65536 + refScore s1 s2 i j := by
    rw [cellAt_built s1 s2 L m hcells i j hi hj]
    unfold refCell
    rw [(idx_divmod i j L hj).1, (idx_divmod i j L hj).2]
  have hsc := scoreOf_pack _ _ hd.1 hd.2 hs0 hs1
  have hdr := dirOf_pack _ _ hd.1 hd.2 hs0 hs1
  refine ⟨refDir s1 s2 i j, refScore s1 s2 i j, hcell, ?_, hs0, hs1, ?_, ?_, ?_, ?_⟩
  · exact dir_cases _ hd.1 hd.2
  · rw [hcell]
    exact low_mask_pack _ _ hd.1 hd.2 hs0 hs1
  · unfold scoreAt; rw [hcell]; exact hsc
  · rw [hcell]; exact hdr
  · unfold dirAt; rw [hcell]; exact hdr

/-- Witness of C12 on `s1 = "-AAT"`, `s2 = "-AGT"`, `L = 4`. -/
theorem smithwaterman_packing_witness :
    ∃ (m : List Int) (idx : Int),
      smithwaterman 16 (List.replicate 16 7) 5 ['-', 'A', 'A', 'T'] ['-', 'A', 'G', 'T']
        ((4 : Nat) : Int) = .ok (m, idx) ∧
      ∀ i j, i < 4 → j < 4 →
        ∃ (d s : Int),
          cellAt m 4 i j = d * 65536 + s ∧
          (d = CENTER ∨ d = NORTH ∨ d = NORTH_WEST ∨ d = WEST) ∧
          0 ≤ s ∧ s < 32768 ∧
          and32 (cellAt m 4 i j) 0x0000ffff = s ∧
          scoreAt m 4 i j = s ∧
          sar32 (and32 (cellAt m 4 i j) 0xFFFF0000) 16 = d ∧
          dirAt m 4 i j = d :=
  smithwaterman_packing 4 ['-', 'A', 'A', 'T'] ['-', 'A', 'G', 'T'] (List.replicate 16 7) 5 16
    (by decide) (by decide) (by decide) (by decide) (by decide) (by decide)

/-! ## Zero score and CENTER -/

theorem bestVal_zero_iff (a b c : Int) : bestVal a b c = 0 ↔ bestDir a b c = CENTER := by
  unfold bestVal bestDir NORTH_WEST NORTH WEST CENTER
  simp only []
  split_ifs <;> constructor <;> intro h <;> omega

theorem refScore_zero_iff (s1 s2 : List Char) (i j : Nat) :
    refScore s1 s2 i j = 0 ↔ refDir s1 s2 i j = CENTER := by
  cases i with
  | zero => simp [refScore_zero_row, refDir_zero_row, CENTER]
  | succ i =>
    cases j with
    | zero => simp [refScore_zero_col, refDir_zero_col, CENTER]
    | succ j =>
      rw [refScore_succ, refDir_succ]
      exact bestVal_zero_iff _ _ _

/-- C14: on a valid input, for every non-boundary cell `(i, j)` with
`1 ≤ i, j < L` of the built matrix, the score is 0 if and only if the
direction is CENTER. -/
theorem smithwaterman_zero_iff_center (L : Nat) (s1 s2 : List Char) (m0 : List Int)
    (mi : Int) (fuel : Nat) (hL : 1 ≤ L) (hLL : L * L ≤ 32767) (h1 : s1.length = L)
    (h2 : s2.length = L) (hm : L * L ≤ m0.length) (hf : L * L ≤ fuel) :
    ∃ (m : List Int) (idx : Int),
      smithwaterman fuel m0 mi s1 s2 (L : Int) = .ok (m, idx) ∧
      ∀ i j, 1 ≤ i → i < L → 1 ≤ j → j < L →
        (scoreAt m L i j = 0 ↔ dirAt m L i j = CENTER) := by
  obtain ⟨m, q, e, _, hcells, _, _, _, _⟩ :=
    smithwaterman_spec s1 s2 L m0 mi fuel hL hLL h1 h2 hm hf
  refine ⟨m, (q : Int), e, ?_⟩
  intro i j _ hi _ hj
  rw [scoreAt_built s1 s2 L m hLL hcells i j hi hj, dirAt_built s1 s2 L m hLL hcells i j hi hj]
  exact refScore_zero_iff s1 s2 i j

/-- Witness of C14 on `s1 = "-ACT"`, `s2 = "-AGG"`, `L = 4`. -/
theorem smithwaterman_zero_iff_center_witness :
    ∃ (m : List Int) (idx : Int),
      smithwaterman 16 (List.replicate 16 0) 0 ['-', 'A', 'C', 'T'] ['-', 'A', 'G', 'G']
        ((4 : Nat) : Int) = .ok (m, idx) ∧
      ∀ i j, 1 ≤ i → i < 4 → 1 ≤ j → j < 4 →
        (scoreAt m 4 i j = 0 ↔ dirAt m 4 i j = CENTER) :=
  smithwaterman_zero_iff_center 4 ['-', 'A', 'C', 'T'] ['-', 'A', 'G', 'G']
    (List.replicate 16 0) 0 16
    (by decide) (by decide) (by decide) (by decide) (by decide) (by decide)

/-! ## Range of the 16-bit values -/

theorem refScore_le_min (s1 s2 : List Char) (i j : Nat) :
    refScore s1 s2 i j ≤ 2 * ((min i j : Nat) : Int) := by
  have h1 := refScore_le_row s1 s2 i j
  have h2 := refScore_le_col s1 s2 i j
  omega

theorem state_at_cell (L : Nat) (s1 s2 : List Char) (m0 : List Int)
    (hL : 1 ≤ L) (hLL : L * L ≤ 32767) (h1 : s1.length = L) (h2 : s2.length = L)
    (hm : L * L ≤ m0.length) (i j : Nat) (hi1 : 1 ≤ i) (hi2 : i < L) (hj1 : 1 ≤ j)
    (hj2 : j < L) :
    ∃ zeroed st, memsetZero m0 ((L : Int) * (L : Int)) = .ok zeroed ∧
      swSteps s1 s2 (L : Int) (i * L + j - L) (swInit zeroed (L : Int)) = .ok st ∧
      st.index = ((i * L + j : Nat) : Int) ∧
      st.northwest = refScore s1 s2 (i - 1) (j - 1) ∧
      st.west = refScore s1 s2 i (j - 1) ∧
      scoreOf (st.matrix.getD (i * L + j - L) 0) = refScore s1 s2 (i - 1) j := by
  have hi3 : i - 1 < L := Nat.lt_of_le_of_lt (Nat.sub_le _ _) hi2
  have hk := idx_lt i j L hi2 hj2
  have hLk : L ≤ i * L + j :=
    le_trans (Nat.le_mul_of_pos_left L hi1) (Nat.le_add_right _ _)
  have hsum : L + (i * L + j - L) = i * L + j := Nat.add_sub_cancel' hLk
  obtain ⟨st, est, inv⟩ := SWInv.steps s1 s2 L m0 hL hLL h1 h2 hm (i * L + j - L)
    (by rw [hsum]; exact Nat.le_of_lt hk)
  rw [hsum] at inv
  obtain ⟨d1, d2⟩ := idx_divmod i j L hj2
  have hjne : (i * L + j) % L ≠ 0 := by rw [d2]; exact Nat.ne_of_gt hj1
  obtain ⟨hw, hnw⟩ := inv.roll hjne
  rw [d1, d2] at hw hnw
  have hmz : memsetZero m0 ((L : Int) * (L : Int)) =
      .ok (List.replicate (L * L) 0 ++ m0.drop (L * L)) := by
    have := memsetZero_ok m0 (L * L) hm hLL
    rw [← this]; push_cast; rfl
  refine ⟨_, st, hmz, est, inv.index, hnw, hw, ?_⟩
  have hlt : i * L + j - L < i * L + j := Nat.sub_lt (Nat.lt_of_lt_of_le hL hLk) hL
  have e1 : i * L + j - L = (i - 1) * L + j := by
    rw [Nat.sub_mul, Nat.one_mul]
    exact (Nat.sub_add_comm (Nat.le_mul_of_pos_left L hi1)).symm ▸ rfl
  rw [List.getD_eq_getElem?_getD, inv.done _ hlt, e1]
  show scoreOf (refCell s1 s2 L ((i - 1) * L + j)) = _
  rw [scoreOf_refCell s1 s2 L _ hLL (idx_lt (i - 1) j L hi3 hj2),
    (idx_divmod (i - 1) j L hj2).1, (idx_divmod (i - 1) j L hj2).2]

theorem sum_range (x mt : Int) (a L : Nat) (hx0 : 0 ≤ x) (hx : x ≤ 2 * (a : Int))
    (ha : a + 1 < L) (hL : L ≤ 181) (hmt : mt = 2 ∨ mt = -1) :
    -1 ≤ x + mt ∧ x + mt ≤ 2 * ((L : Int) - 1) ∧ toShort (x + mt) = x + mt := by
  refine ⟨by omega, by omega, ?_⟩
  apply toShort_of_range <;> omega

/-- C19: on a valid input every cell `(i, j)` of the built matrix has a score of
at most `2 * min(i, j)`; and in the iteration of every non-boundary cell the
three sums `northwest + match`, `north + GAP` and `west + GAP` lie in
`[-1, 2 * (L - 1)]`, so their conversion to `short` leaves them unchanged. -/
theorem smithwaterman_no_wrap (L : Nat) (s1 s2 : List Char) (m0 : List Int) (mi : Int)
    (fuel : Nat) (hL : 1 ≤ L) (hLL : L * L ≤ 32767) (h1 : s1.length = L)
    (h2 : s2.length = L) (hm : L * L ≤ m0.length) (hf : L * L ≤ fuel) :
    ∃ (m : List Int) (idx : Int),
      smithwaterman fuel m0 mi s1 s2 (L : Int) = .ok (m, idx) ∧
      (∀ i j, i < L → j < L → scoreAt m L i j ≤ 2 * ((min i j : Nat) : Int)) ∧
      (∀ i j, 1 ≤ i → i < L → 1 ≤ j → j < L →
        ∃ zeroed st, memsetZero m0 ((L : Int) * (L : Int)) = .ok zeroed ∧
          swSteps s1 s2 (L : Int) (i * L + j - L) (swInit zeroed (L : Int)) = .ok st ∧
          st.index = ((i * L + j : Nat) : Int) ∧
          (-1 ≤ st.northwest + matchScore s1 s2 i j ∧
            st.northwest + matchScore s1 s2 i j ≤ 2 * ((L : Int) - 1) ∧
            toShort (st.northwest + matchScore s1 s2 i j)
              = st.northwest + matchScore s1 s2 i j) ∧
          (-1 ≤ scoreOf (st.matrix.getD (i * L + j - L) 0) + GAP ∧
            scoreOf (st.matrix.getD (i * L + j - L) 0) + GAP ≤ 2 * ((L : Int) - 1) ∧
            toShort (scoreOf (st.matrix.getD (i * L + j - L) 0) + GAP)
              = scoreOf (st.matrix.getD (i * L + j - L) 0) + GAP) ∧
          (-1 ≤ st.west + GAP ∧ st.west + GAP ≤ 2 * ((L : Int) - 1) ∧
            toShort (st.west + GAP) = st.west + GAP)) := by
  obtain ⟨m, q, e, _, hcells, _, _, _, _⟩ :=
    smithwaterman_spec s1 s2 L m0 mi fuel hL hLL h1 h2 hm hf
  have hL181 := dim_le L hLL
  refine ⟨m, (q : Int), e, ?_, ?_⟩
  · intro i j hi hj
    rw [scoreAt_built s1 s2 L m hLL hcells i j hi hj]
    exact refScore_le_min s1 s2 i j
  · intro i j hi1 hi2 hj1 hj2
    obtain ⟨zeroed, st, hmz, est, hidx, hnw, hw, hno⟩ :=
      state_at_cell L s1 s2 m0 hL hLL h1 h2 hm i j hi1 hi2 hj1 hj2
    have hi3 : i - 1 + 1 < L := by rw [Nat.sub_add_cancel hi1]; exact hi2
    have hj3 : j - 1 + 1 < L := by rw [Nat.sub_add_cancel hj1]; exact hj2
    refine ⟨zeroed, st, hmz, est, hidx, ?_, ?_, ?_⟩
    · rw [hnw]
      exact sum_range _ _ (i - 1) L (refScore_nonneg _ _ _ _) (refScore_le_row _ _ _ _) hi3
        hL181 (matchScore_cases s1 s2 i j)
    · rw [hno]
      exact sum_range _ _ (i - 1) L (refScore_nonneg _ _ _ _) (refScore_le_row _ _ _ _) hi3
        hL181 (Or.inr rfl)
    · rw [hw]
      exact sum_range _ _ (j - 1) L (refScore_nonneg _ _ _ _) (refScore_le_col _ _ _ _) hj3
        hL181 (Or.inr rfl)

/-- Witness of C19 on `s1 = "-AAT"`, `s2 = "-AGT"`, `L = 4`. -/
theorem smithwaterman_no_wrap_witness :
    ∃ (m : List Int) (idx : Int),
      smithwaterman 16 (List.replicate 16 7) 5 ['-', 'A', 'A', 'T'] ['-', 'A', 'G', 'T']
        ((4 : Nat) : Int) = .ok (m, idx) ∧
      (∀ i j, i < 4 → j < 4 → scoreAt m 4 i j ≤ 2 * ((min i j : Nat) : Int)) ∧
      (∀ i j, 1 ≤ i → i < 4 → 1 ≤ j → j < 4 →
        ∃ zeroed st, memsetZero (List.replicate 16 7) (((4 : Nat) : Int) * ((4 : Nat) : Int))
            = .ok zeroed ∧
          swSteps ['-', 'A', 'A', 'T'] ['-', 'A', 'G', 'T'] ((4 : Nat) : Int) (i * 4 + j - 4)
            (swInit zeroed ((4 : Nat) : Int)) = .ok st ∧
          st.index = ((i * 4 + j : Nat) : Int) ∧
          (-1 ≤ st.northwest + matchScore ['-', 'A', 'A', 'T'] ['-', 'A', 'G', 'T'] i j ∧
            st.northwest + matchScore ['-', 'A', 'A', 'T'] ['-', 'A', 'G', 'T'] i j
              ≤ 2 * (((4 : Nat) : Int) - 1) ∧
            toShort (st.northwest + matchScore ['-', 'A', 'A', 'T'] ['-', 'A', 'G', 'T'] i j)
              = st.northwest + matchScore ['-', 'A', 'A', 'T'] ['-', 'A', 'G', 'T'] i j) ∧
          (-1 ≤ scoreOf (st.matrix.getD (i * 4 + j - 4) 0) + GAP ∧
            scoreOf (st.matrix.getD (i * 4 + j - 4) 0) + GAP ≤ 2 * (((4 : Nat) : Int) - 1) ∧
            toShort (scoreOf (st.matrix.getD (i * 4 + j - 4) 0) + GAP)
              = scoreOf (st.matrix.getD (i * 4 + j - 4) 0) + GAP) ∧
          (-1 ≤ st.west + GAP ∧ st.west + GAP ≤ 2 * (((4 : Nat) : Int) - 1) ∧
            toShort (st.west + GAP) = st.west + GAP)) :=
  smithwaterman_no_wrap 4 ['-', 'A', 'A', 'T'] ['-', 'A', 'G', 'T'] (List.replicate 16 7) 5 16
    (by decide) (by decide) (by decide) (by decide) (by decide) (by decide)

/-! ## The instrumented traceback and the traceback -/

theorem traceLoopLog_erase_aux (hd : KernelHostData) (fuel : Nat) :
    ∀ (cur prev : Position) (log : TraceLog) (a1 a2 : List Char),
      a1 = (alignmentsOf log.columns).1 → a2 = (alignmentsOf log.columns).2 →
      traceLoop hd fuel cur prev a1 a2 =
        match traceLoopLog hd fuel cur prev log with
        | .ok out => .ok (alignmentsOf out.columns)
        | .error e => .error e := by
  induction fuel with
  | zero => intro cur prev log a1 a2 _ _; rfl
  | succ fuel ih =>
    intro cur prev log a1 a2 e1 e2
    subst e1 e2
    rw [traceLoop, traceLoopLog]
    by_cases hne : cur ≠ prev
    · rw [if_pos hne, if_pos hne]
      cases hl : load hd.mMatrix (cur.1 * hd.mLength + cur.2) with
      | error e => rfl
      | ok cell =>
        simp only []
        by_cases hc : cell = 0
        · rw [if_pos hc, if_pos hc]
        · rw [if_neg hc, if_neg hc]
          by_cases h2 : prev.1 = cur.1 <;> by_cases h1 : prev.2 = cur.2 <;>
            simp only [h1, h2, if_true, if_false] <;>
            cases load hd.mSequence2 cur.1 <;> cases load hd.mSequence1 cur.2 <;>
            cases findPrev hd prev <;> simp only [] <;>
            first
              | rfl
              | exact ih _ _ _ _ _ rfl rfl
    · rw [if_neg hne, if_neg hne]

theorem traceback_erase (fuel : Nat) (hd : KernelHostData) :
    traceback fuel hd =
      match tracebackLog fuel hd with
      | .ok out => .ok (alignmentsOf out.columns)
      | .error e => .error e := by
  unfold traceback tracebackLog
  cases findMaximum hd with
  | error e => rfl
  | ok cur =>
    simp only []
    cases findPrev hd cur with
    | error e => rfl
    | ok prev =>
      simp only []
      exact traceLoopLog_erase_aux hd fuel cur prev _ [] [] rfl rfl

theorem traceback_of_log (fuel : Nat) (hd : KernelHostData) (out : TraceLog)
    (h : tracebackLog fuel hd = .ok out) :
    traceback fuel hd = .ok (alignmentsOf out.columns) := by
  rw [traceback_erase, h]

theorem alignmentsOf_length (cols : List TraceColumn) :
    (alignmentsOf cols).1.length = cols.length ∧ (alignmentsOf cols).2.length = cols.length := by
  unfold alignmentsOf
  simp

/-! ## The traceback on a built matrix -/

theorem load_built (s1 s2 : List Char) (m : List Int) (L : Nat) (idx : Int)
    (hcells : ∀ k, k < L * L → m[k]? = some (refCell s1 s2 L k))
    (i j : Nat) (hi : i < L) (hj : j < L) :
    load (hostOf m s1 s2 L idx).mMatrix
        ((i : Int) * (hostOf m s1 s2 L idx).mLength + (j : Int))
      = .ok (refCell s1 s2 L (i * L + j)) :=
  load_cell idx m s1 s2 L i j _ (hcells _ (idx_lt i j L hi hj))

theorem findPrev_built (s1 s2 : List Char) (m : List Int) (L : Nat) (idx : Int)
    (hLL : L * L ≤ 32767)
    (hcells : ∀ k, k < L * L → m[k]? = some (refCell s1 s2 L k))
    (i j : Nat) (hi : i < L) (hj : j < L) :
    findPrev (hostOf m s1 s2 L idx) ((i : Int), (j : Int))
      = .ok (prevPos (refDir s1 s2 i j) i j) := by
  rw [findPrev_eq _ _ _ _ (load_built s1 s2 m L idx hcells i j hi hj),
    dirOf_refCell s1 s2 L _ hLL (idx_lt i j L hi hj),
    (idx_divmod i j L hj).1, (idx_divmod i j L hj).2]
  rfl

theorem pack_zero_iff (d s : Int) (hd : 0 ≤ d) (hs : 0 ≤ s) (h : s = 0 ↔ d = 0) :
    d * 65536 + s = 0 ↔ s = 0 := by
  constructor
  · intro e; omega
  · intro e
    have := h.mp e
    omega

theorem refCell_zero_iff (s1 s2 : List Char) (L i j : Nat) (hj : j < L) :
    refCell s1 s2 L (i * L + j) = 0 ↔ refScore s1 s2 i j = 0 := by
  unfold refCell
  rw [(idx_divmod i j L hj).1, (idx_divmod i j L hj).2]
  exact pack_zero_iff _ _ (refDir_range s1 s2 i j).1 (refScore_nonneg s1 s2 i j)
    (refScore_zero_iff s1 s2 i j)

theorem pos_of_score_pos (s1 s2 : List Char) (i j : Nat) (h : 0 < refScore s1 s2 i j) :
    1 ≤ i ∧ 1 ≤ j := by
  cases i with
  | zero => rw [refScore_zero_row] at h; exact absurd h (lt_irrefl _)
  | succ i =>
    cases j with
    | zero => rw [refScore_zero_col] at h; exact absurd h (lt_irrefl _)
    | succ j => exact ⟨Nat.succ_le_succ (Nat.zero_le _), Nat.succ_le_succ (Nat.zero_le _)⟩

theorem bestDir_val (a b c : Int) :
    (bestDir a b c = NORTH_WEST → bestVal a b c = a) ∧
    (bestDir a b c = NORTH → bestVal a b c = b) ∧
    (bestDir a b c = WEST → bestVal a b c = c) := by
  unfold bestVal bestDir NORTH_WEST NORTH WEST CENTER
  simp only []
  split_ifs <;> refine ⟨?_, ?_, ?_⟩ <;> intro h <;> omega

theorem refDir_step (s1 s2 : List Char) (i j : Nat) (hi : 1 ≤ i) (hj : 1 ≤ j) :
    (refDir s1 s2 i j = NORTH_WEST →
      refScore s1 s2 i j = refScore s1 s2 (i - 1) (j - 1) + matchScore s1 s2 i j) ∧
    (refDir s1 s2 i j = NORTH →
      refScore s1 s2 i j = refScore s1 s2 (i - 1) j + GAP) ∧
    (refDir s1 s2 i j = WEST →
      refScore s1 s2 i j = refScore s1 s2 i (j - 1) + GAP) := by
  obtain ⟨a, rfl⟩ : ∃ a, i = a + 1 := ⟨i - 1, (Nat.sub_add_cancel hi).symm⟩
  obtain ⟨b, rfl⟩ : ∃ b, j = b + 1 := ⟨j - 1, (Nat.sub_add_cancel hj).symm⟩
  rw [refScore_succ, refDir_succ]
  simp only [Nat.add_sub_cancel]
  exact bestDir_val _ _ _

theorem dir_of_score_pos (s1 s2 : List Char) (i j : Nat) (h : 0 < refScore s1 s2 i j) :
    refDir s1 s2 i j = NORTH ∨ refDir s1 s2 i j = WEST ∨ refDir s1 s2 i j = NORTH_WEST := by
  have h0 : refDir s1 s2 i j ≠ CENTER := by
    intro e
    rw [(refScore_zero_iff s1 s2 i j).mpr e] at h
    exact absurd h (lt_irrefl _)
  rcases dir_cases _ (refDir_range s1 s2 i j).1 (refDir_range s1 s2 i j).2 with e | e | e | e
  · exact absurd e h0
  · exact Or.inl e
  · exact Or.inr (Or.inr e)
  · exact Or.inr (Or.inl e)

theorem prevPos_pred (d : Int) (i j : Nat) (hi : 1 ≤ i) (hj : 1 ≤ j)
    (hd : d = NORTH ∨ d = WEST ∨ d = NORTH_WEST) :
    prevPos d i j = (((predRow d i : Nat) : Int), ((predCol d j : Nat) : Int)) := by
  have ei : ((i - 1 : Nat) : Int) = (i : Int) - 1 := by omega
  have ej : ((j - 1 : Nat) : Int) = (j : Int) - 1 := by omega
  rcases hd with h | h | h <;> subst h <;>
    simp [prevPos, predRow, predCol, NORTH, WEST, NORTH_WEST, ei, ej]

theorem pred_lt (d : Int) (i j : Nat) (hi : 1 ≤ i) (hj : 1 ≤ j)
    (hd : d = NORTH ∨ d = WEST ∨ d = NORTH_WEST) :
    predRow d i ≤ i ∧ predCol d j ≤ j ∧ predRow d i + predCol d j + 1 ≤ i + j ∧
    (predRow d i = i ↔ d = WEST) ∧ (predCol d j = j ↔ d = NORTH) := by
  rcases hd with h | h | h <;> subst h <;>
    simp [predRow, predCol, NORTH, WEST, NORTH_WEST] <;> omega

theorem prevPos_center (i j : Nat) : prevPos CENTER i j = (-1, -1) := by
  simp [prevPos, CENTER, NORTH, WEST, NORTH_WEST]

theorem pos_ne_minus_one (i j : Nat) : (((i : Int), (j : Int)) : Position) ≠ (-1, -1) := by
  intro h
  have := congrArg Prod.fst h
  simp at this

theorem pos_ne_of_sum_lt (i j a b : Nat) (h : a + b + 1 ≤ i + j) :
    (((i : Int), (j : Int)) : Position) ≠ ((a : Int), (b : Int)) := by
  intro e
  have e1 := congrArg Prod.fst e
  have e2 := congrArg Prod.snd e
  simp at e1 e2
  omega

theorem traceLoopLog_stop_built (s1 s2 : List Char) (m : List Int) (L : Nat) (idx : Int)
    (hcells : ∀ k, k < L * L → m[k]? = some (refCell s1 s2 L k))
    (i j : Nat) (hi : i < L) (hj : j < L) (hz : refScore s1 s2 i j = 0)
    (fuel : Nat) (log : TraceLog) :
    traceLoopLog (hostOf m s1 s2 L idx) (fuel + 1) ((i : Int), (j : Int))
        (prevPos (refDir s1 s2 i j) i j) log =
      .ok { log with matrixReads := log.matrixReads ++ [((i : Int), (j : Int))],
                     current := ((i : Int), (j : Int)) } := by
  have hload := load_built s1 s2 m L idx hcells i j hi hj
  rw [(refCell_zero_iff s1 s2 L i j hj).mpr hz] at hload
  rw [(refScore_zero_iff s1 s2 i j).mp hz, prevPos_center, traceLoopLog,
    if_pos (pos_ne_minus_one i j)]
  simp only [hload, if_true]

theorem traceLoopLog_step_built (s1 s2 : List Char) (m : List Int) (L : Nat) (idx : Int)
    (hLL : L * L ≤ 32767) (h1 : s1.length = L) (h2 : s2.length = L)
    (hcells : ∀ k, k < L * L → m[k]? = some (refCell s1 s2 L k))
    (i j : Nat) (hi : i < L) (hj : j < L) (hpos : 0 < refScore s1 s2 i j)
    (fuel : Nat) (log : TraceLog) :
    ∃ c1 c2, s1[j]? = some c1 ∧ s2[i]? = some c2 ∧
      traceLoopLog (hostOf m s1 s2 L idx) (fuel + 1) ((i : Int), (j : Int))
          (prevPos (refDir s1 s2 i j) i j) log =
        traceLoopLog (hostOf m s1 s2 L idx) fuel
          (((predRow (refDir s1 s2 i j) i : Nat) : Int),
            ((predCol (refDir s1 s2 i j) j : Nat) : Int))
          (prevPos (refDir s1 s2 (predRow (refDir s1 s2 i j) i) (predCol (refDir s1 s2 i j) j))
            (predRow (refDir s1 s2 i j) i) (predCol (refDir s1 s2 i j) j))
          { columns :=
              (if refDir s1 s2 i j = NORTH then none else some ((j : Int), c1),
               if refDir s1 s2 i j = WEST then none else some ((i : Int), c2)) :: log.columns
            matrixReads := log.matrixReads ++
              [((i : Int), (j : Int)),
               (((predRow (refDir s1 s2 i j) i : Nat) : Int),
                ((predCol (refDir s1 s2 i j) j : Nat) : Int))]
            current := (((predRow (refDir s1 s2 i j) i : Nat) : Int),
                ((predCol (refDir s1 s2 i j) j : Nat) : Int))
            iterations := log.iterations + 1 } := by
  obtain ⟨hi1, hj1⟩ := pos_of_score_pos s1 s2 i j hpos
  have hd := dir_of_score_pos s1 s2 i j hpos
  obtain ⟨c1, hc1⟩ := getElem?_some_of_lt s1 j (by rw [h1]; exact hj)
  obtain ⟨c2, hc2⟩ := getElem?_some_of_lt s2 i (by rw [h2]; exact hi)
  refine ⟨c1, c2, hc1, hc2, ?_⟩
  obtain ⟨p1, p2, p3, p4, p5⟩ := pred_lt (refDir s1 s2 i j) i j hi1 hj1 hd
  have hload := load_built s1 s2 m L idx hcells i j hi hj
  have hcell : ¬ (refCell s1 s2 L (i * L + j) = 0) := by
    intro e
    rw [(refCell_zero_iff s1 s2 L i j hj).mp e] at hpos
    exact absurd hpos (lt_irrefl _)
  have hfp := findPrev_built s1 s2 m L idx hLL hcells _ _ (Nat.lt_of_le_of_lt p1 hi)
    (Nat.lt_of_le_of_lt p2 hj)
  have hl1 : load (hostOf m s1 s2 L idx).mSequence1 (j : Int) = .ok c1 := load_nat s1 j c1 hc1
  have hl2 : load (hostOf m s1 s2 L idx).mSequence2 (i : Int) = .ok c2 := load_nat s2 i c2 hc2
  have cW : (((predRow (refDir s1 s2 i j) i : Nat) : Int) = (i : Int))
      = (refDir s1 s2 i j = WEST) :=
    propext ⟨fun e => p4.mp (by exact_mod_cast e), fun e => by rw [p4.mpr e]⟩
  have cN : (((predCol (refDir s1 s2 i j) j : Nat) : Int) = (j : Int))
      = (refDir s1 s2 i j = NORTH) :=
    propext ⟨fun e => p5.mp (by exact_mod_cast e), fun e => by rw [p5.mpr e]⟩
  rw [prevPos_pred _ i j hi1 hj1 hd, traceLoopLog, if_pos (pos_ne_of_sum_lt i j _ _ p3)]
  simp only [hload, hcell, if_false, cW, cN]
  by_cases hW : refDir s1 s2 i j = WEST
  · have hN : ¬ (refDir s1 s2 i j = NORTH) := by
      rw [hW]; decide
    simp only [if_pos hW, if_neg hN, hl1, hfp]
  · by_cases hN : refDir s1 s2 i j = NORTH
    · simp only [if_neg hW, if_pos hN, hl2, hfp]
    · simp only [if_neg hW, if_neg hN, hl1, hl2, hfp]

theorem columnsScore_append (a b : List TraceColumn) :
    columnsScore (a ++ b) = columnsScore a + columnsScore b := by
  induction a with
  | nil => simp [columnsScore]
  | cons c cs ih =>
    show columnScore c + columnsScore (cs ++ b) = columnScore c + columnsScore cs + columnsScore b
    rw [ih]; ring

theorem inMatrix_nat (L i j : Nat) (hi : i < L) (hj : j < L) :
    InMatrix L ((i : Int), (j : Int)) := by
  unfold InMatrix
  simp only []
  omega

theorem step_score (s1 s2 : List Char) (i j : Nat) (c1 c2 : Char) (hi : 1 ≤ i) (hj : 1 ≤ j)
    (hc1 : s1[j]? = some c1) (hc2 : s2[i]? = some c2)
    (hd : refDir s1 s2 i j = NORTH ∨ refDir s1 s2 i j = WEST ∨ refDir s1 s2 i j = NORTH_WEST) :
    refScore s1 s2 (predRow (refDir s1 s2 i j) i) (predCol (refDir s1 s2 i j) j) +
        columnScore
          (if refDir s1 s2 i j = NORTH then none else some ((j : Int), c1),
           if refDir s1 s2 i j = WEST then none else some ((i : Int), c2))
      = refScore s1 s2 i j := by
  obtain ⟨hnw, hn, hw⟩ := refDir_step s1 s2 i j hi hj
  rcases hd with h | h | h
  · rw [hn h, h]
    simp [predRow, predCol, columnScore, NORTH, WEST, GAP]
  · rw [hw h, h]
    simp [predRow, predCol, columnScore, NORTH, WEST, GAP]
  · rw [hnw h, h]
    have hms : matchScore s1 s2 i j = if c1 = c2 then 2 else -1 := by
      unfold matchScore MATCH MISS_MATCH
      rw [hc1, hc2]
      simp
    rw [hms]
    simp [predRow, predCol, columnScore, NORTH, WEST, NORTH_WEST]

theorem step_good (s1 s2 : List Char) (L i j : Nat) (d : Int) (c1 c2 : Char)
    (hi1 : 1 ≤ i) (hi : i < L) (hj1 : 1 ≤ j) (hj : j < L)
    (hc1 : s1[j]? = some c1) (hc2 : s2[i]? = some c2)
    (hd : d = NORTH ∨ d = WEST ∨ d = NORTH_WEST) :
    GoodColumn s1 s2 L
      (if d = NORTH then none else some ((j : Int), c1),
       if d = WEST then none else some ((i : Int), c2)) := by
  have hi1' : (1 : Int) ≤ (i : Int) := by exact_mod_cast hi1
  have hj1' : (1 : Int) ≤ (j : Int) := by exact_mod_cast hj1
  have hi' : (i : Int) < (L : Int) := by exact_mod_cast hi
  have hj' : (j : Int) < (L : Int) := by exact_mod_cast hj
  refine ⟨?_, ?_, ?_⟩
  · rcases hd with h | h | h <;> subst h <;> simp [NORTH, WEST, NORTH_WEST]
  · intro k ch e
    by_cases hN : d = NORTH
    · rw [if_pos hN] at e; exact absurd e (by simp)
    · rw [if_neg hN] at e
      simp only [Option.some.injEq, Prod.mk.injEq] at e
      obtain ⟨rfl, rfl⟩ := e
      exact ⟨hj1', hj', by simpa using hc1⟩
  · intro k ch e
    by_cases hW : d = WEST
    · rw [if_pos hW] at e; exact absurd e (by simp)
    · rw [if_neg hW] at e
      simp only [Option.some.injEq, Prod.mk.injEq] at e
      obtain ⟨rfl, rfl⟩ := e
      exact ⟨hi1', hi', by simpa using hc2⟩

theorem columnsWeight_append (a b : List TraceColumn) :
    columnsWeight (a ++ b) = columnsWeight a + columnsWeight b := by
  induction a with
  | nil => simp [columnsWeight]
  | cons c cs ih =>
    show columnWeight c + columnsWeight (cs ++ b) = columnWeight c + columnsWeight cs + columnsWeight b
    rw [ih, Nat.add_assoc]

theorem step_weight (d : Int) (i j : Nat) (c1 c2 : Char) (hi : 1 ≤ i) (hj : 1 ≤ j)
    (hd : d = NORTH ∨ d = WEST ∨ d = NORTH_WEST) :
    predRow d i + predCol d j +
        columnWeight
          (if d = NORTH then none else some ((j : Int), c1),
           if d = WEST then none else some ((i : Int), c2))
      = i + j := by
  rcases hd with h | h | h <;> subst h <;>
    simp [predRow, predCol, columnWeight, NORTH, WEST, NORTH_WEST] <;> omega

theorem traceLoopLog_built (s1 s2 : List Char) (m : List Int) (L : Nat) (idx : Int)
    (hLL : L * L ≤ 32767) (h1 : s1.length = L) (h2 : s2.length = L)
    (hcells : ∀ k, k < L * L → m[k]? = some (refCell s1 s2 L k)) (fuel : Nat) :
    ∀ (i j : Nat) (log : TraceLog), i < L → j < L → i + j < fuel →
      ∃ out, traceLoopLog (hostOf m s1 s2 L idx) fuel ((i : Int), (j : Int))
          (prevPos (refDir s1 s2 i j) i j) log = .ok out ∧
        TraceFrom s1 s2 L i j log out := by
  induction fuel with
  | zero => intro i j log _ _ hf; exact absurd hf (Nat.not_lt_zero _)
  | succ fuel ih =>
    intro i j log hi hj hf
    by_cases hz : refScore s1 s2 i j = 0
    · refine ⟨_, traceLoopLog_stop_built s1 s2 m L idx hcells i j hi hj hz fuel log, ?_, ?_⟩
      · refine ⟨[], i, j, rfl, rfl, hz.symm, ?_, fun _ => rfl, ?_, ?_, rfl, hi, hj, hz, ?_, ?_⟩
        · intro c hc; exact absurd hc (List.not_mem_nil c)
        · intro h; rw [hz] at h; exact absurd h (lt_irrefl _)
        · intro h; rw [hz] at h; exact absurd h (lt_irrefl _)
        · exact Nat.le_of_eq (by simp)
        · exact Nat.zero_add _
      · refine ⟨[((i : Int), (j : Int))], rfl, ?_⟩
        intro p hp
        rw [List.mem_singleton] at hp
        rw [hp]
        exact inMatrix_nat L i j hi hj
    · have hpos : 0 < refScore s1 s2 i j :=
        lt_of_le_of_ne (refScore_nonneg s1 s2 i j) (Ne.symm hz)
      obtain ⟨hi1, hj1⟩ := pos_of_score_pos s1 s2 i j hpos
      have hd := dir_of_score_pos s1 s2 i j hpos
      obtain ⟨p1, p2, p3, _, _⟩ := pred_lt (refDir s1 s2 i j) i j hi1 hj1 hd
      have hi' := Nat.lt_of_le_of_lt p1 hi
      have hj' := Nat.lt_of_le_of_lt p2 hj
      obtain ⟨c1, c2, hc1, hc2, hstep⟩ :=
        traceLoopLog_step_built s1 s2 m L idx hLL h1 h2 hcells i j hi hj hpos fuel log
      obtain ⟨out, hout, ⟨cols, a, b, q1, q2, q3, q4, q5, q6, _, q7, q8, q9, q10, q11, q12⟩,
          ⟨reads, r1, r2⟩⟩ :=
        ih _ _ _ hi' hj' (by omega)
      rw [← hstep] at hout
      refine ⟨out, hout, ?_, ?_⟩
      · refine ⟨cols ++ [(if refDir s1 s2 i j = NORTH then none else some ((j : Int), c1),
            if refDir s1 s2 i j = WEST then none else some ((i : Int), c2))], a, b,
          ?_, ?_, ?_, ?_, ?_, ?_, ?_, q7, q8, q9, q10, ?_, ?_⟩
        · rw [q1]; simp
        · rw [q2]; simp only [List.length_append, List.length_singleton]; omega
        · rw [columnsScore_append, q3]
          show _ + (columnScore _ + 0) = _
          rw [add_zero]
          exact step_score s1 s2 i j c1 c2 hi1 hj1 hc1 hc2 hd
        · intro c hc
          rw [List.mem_append, List.mem_singleton] at hc
          rcases hc with hc | hc
          · exact q4 c hc
          · rw [hc]
            exact step_good s1 s2 L i j _ c1 c2 hi1 hi hj1 hj hc1 hc2 hd
        · intro h; exact absurd h hz
        · intro _; simp
        · intro _ hp
          rw [q5 hp]; rfl
        · simp only [List.length_append, List.length_singleton]; omega
        · rw [columnsWeight_append]
          have hw := step_weight (refDir s1 s2 i j) i j c1 c2 hi1 hj1 hd
          show columnsWeight cols + (columnWeight _ + 0) + (a + b) = i + j
          omega
      · refine ⟨[((i : Int), (j : Int)),
            (((predRow (refDir s1 s2 i j) i : Nat) : Int),
              ((predCol (refDir s1 s2 i j) j : Nat) : Int))] ++ reads, ?_, ?_⟩
        · rw [r1]; simp
        · intro p hp
          rw [List.mem_append] at hp
          rcases hp with hp | hp
          · simp only [List.mem_cons, List.mem_singleton, List.not_mem_nil, or_false] at hp
            rcases hp with hp | hp
            · rw [hp]; exact inMatrix_nat L i j hi hj
            · rw [hp]; exact inMatrix_nat L _ _ hi' hj'
          · exact r2 p hp

theorem tracebackLog_built (s1 s2 : List Char) (m : List Int) (L q : Nat)
    (hL : 1 ≤ L) (hLL : L * L ≤ 32767) (h1 : s1.length = L) (h2 : s2.length = L)
    (hcells : ∀ k, k < L * L → m[k]? = some (refCell s1 s2 L k)) (hq : q < L * L)
    (fuel : Nat) (hf : q / L + q % L < fuel) :
    ∃ out, tracebackLog fuel (hostOf m s1 s2 L (q : Int)) = .ok out ∧
      TraceFrom s1 s2 L (q / L) (q % L)
        { columns := [], matrixReads := [(((q / L : Nat) : Int), ((q % L : Nat) : Int))],
          current := (((q / L : Nat) : Int), ((q % L : Nat) : Int)), iterations := 0 } out := by
  have hr : q / L < L := Nat.div_lt_of_lt_mul hq
  have hc : q % L < L := Nat.mod_lt q hL
  obtain ⟨out, hout, htf⟩ := traceLoopLog_built s1 s2 m L (q : Int) hLL h1 h2 hcells fuel
    (q / L) (q % L)
    { columns := [], matrixReads := [(((q / L : Nat) : Int), ((q % L : Nat) : Int))],
      current := (((q / L : Nat) : Int), ((q % L : Nat) : Int)), iterations := 0 } hr hc hf
  refine ⟨out, ?_, htf⟩
  unfold tracebackLog
  rw [findMaximum_nat m s1 s2 L q hL]
  simp only []
  rw [findPrev_built s1 s2 m L (q : Int) hLL hcells _ _ hr hc]
  exact hout

theorem scoreOf_at_index (s1 s2 : List Char) (m : List Int) (L q : Nat)
    (hLL : L * L ≤ 32767)
    (hcells : ∀ k, k < L * L → m[k]? = some (refCell s1 s2 L k)) (hq : q < L * L) :
    scoreOf (m.getD q 0) = refScore s1 s2 (q / L) (q % L) := by
  rw [List.getD_eq_getElem?_getD, hcells q hq]
  exact scoreOf_refCell s1 s2 L q hLL hq

theorem score_weight (cols : List TraceColumn) :
    columnsScore cols + 2 * (cols.length : Int) ≤ 2 * (columnsWeight cols : Int) := by
  induction cols with
  | nil => simp [columnsScore, columnsWeight]
  | cons c cs ih =>
    have hc : columnScore c + 2 ≤ 2 * (columnWeight c : Int) := by
      rcases c with ⟨_ | ⟨k, a⟩, _ | ⟨k1, b⟩⟩
      · show (-1 : Int) + 2 ≤ 2 * ((1 : Nat) : Int)
        decide
      · show (-1 : Int) + 2 ≤ 2 * ((1 : Nat) : Int)
        decide
      · show (-1 : Int) + 2 ≤ 2 * ((1 : Nat) : Int)
        decide
      · show (if a = b then (2 : Int) else -1) + 2 ≤ 2 * ((2 : Nat) : Int)
        by_cases h : a = b
        · rw [if_pos h]; decide
        · rw [if_neg h]; decide
    show columnScore c + columnsScore cs + 2 * ((cs.length + 1 : Nat) : Int)
      ≤ 2 * ((columnWeight c + columnsWeight cs : Nat) : Int)
    push_cast
    omega

theorem entries_bound (cols : List TraceColumn) (a b n : Nat) (hpos : 0 < columnsScore cols)
    (hw : columnsWeight cols + (a + b) = n) : cols.length + 1 ≤ n := by
  have := score_weight cols
  omega

/-- C16: on a valid input the builder returns a matrix and an index that
`findMaximum` decodes as `(r, c)`; for every fuel above `r + c` the traceback
loop started there terminates, the number of iterations it completes (each
inserting one character into each vector) is at most `r + c`, more precisely
at most the decrease of `row + col` between the start and the position at loop
exit, and the cell at that position is inside the matrix and has score 0.
The decrease of `row + col` is exactly the sum of the column weights (2 for a
NORTH_WEST step, 1 for a NORTH or WEST step); and when the recorded score is
positive the bound holds with one to spare, so it also covers the last entry
into the loop body, the one that leaves through the zero guard. -/
theorem traceback_terminates (L : Nat) (s1 s2 : List Char) (m0 : List Int) (mi : Int)
    (fuel : Nat) (hL : 1 ≤ L) (hLL : L * L ≤ 32767) (h1 : s1.length = L)
    (h2 : s2.length = L) (hm : L * L ≤ m0.length) (hf : L * L ≤ fuel) :
    ∃ (m : List Int) (q : Nat),
      smithwaterman fuel m0 mi s1 s2 (L : Int) = .ok (m, (q : Int)) ∧
      findMaximum (hostOf m s1 s2 L (q : Int))
        = .ok (((q / L : Nat) : Int), ((q % L : Nat) : Int)) ∧
      ∀ fuel1, q / L + q % L < fuel1 →
        ∃ (out : TraceLog) (a b : Nat),
          tracebackLog fuel1 (hostOf m s1 s2 L (q : Int)) = .ok out ∧
          traceback fuel1 (hostOf m s1 s2 L (q : Int)) = .ok (alignmentsOf out.columns) ∧
          out.iterations = (alignmentsOf out.columns).1.length ∧
          out.iterations ≤ q / L + q % L ∧
          out.current = ((a : Int), (b : Int)) ∧ a < L ∧ b < L ∧
          out.iterations + (a + b) ≤ q / L + q % L ∧
          scoreAt m L a b = 0 ∧
          columnsWeight out.columns + (a + b) = q / L + q % L ∧
          (0 < scoreOf (m.getD q 0) → out.iterations + 1 ≤ q / L + q % L) := by
  obtain ⟨m, q, e, _, hcells, _, hq, _, _⟩ :=
    smithwaterman_spec s1 s2 L m0 mi fuel hL hLL h1 h2 hm hf
  refine ⟨m, q, e, findMaximum_nat m s1 s2 L q hL, ?_⟩
  intro fuel1 hf1
  obtain ⟨out, hout, ⟨cols, a, b, q1, q2, q3, _, _, _, _, q7, q8, q9, q10, q11, q12⟩, _⟩ :=
    tracebackLog_built s1 s2 m L q hL hLL h1 h2 hcells hq fuel1 hf1
  have hcols : out.columns = cols := by rw [q1]; simp
  have hit : out.iterations = cols.length := by rw [q2]; simp
  refine ⟨out, a, b, hout, traceback_of_log fuel1 _ out hout, ?_, ?_, q7, q8, q9, ?_, ?_,
    ?_, ?_⟩
  · rw [(alignmentsOf_length out.columns).1, hcols, hit]
  · rw [hit]; omega
  · rw [hit]; exact q11
  · rw [scoreAt_built s1 s2 L m hLL hcells a b q8 q9]; exact q10
  · rw [hcols]; exact q12
  · intro hpos
    rw [scoreOf_at_index s1 s2 m L q hLL hcells hq, ← q3] at hpos
    rw [hit]
    exact entries_bound cols a b _ hpos q12

/-- Witness of C16 on `s1 = "-AAT"`, `s2 = "-AGT"`, `L = 4`. -/
theorem traceback_terminates_witness :
    ∃ (m : List Int) (q : Nat),
      smithwaterman 16 (List.replicate 16 7) 5 ['-', 'A', 'A', 'T'] ['-', 'A', 'G', 'T']
        ((4 : Nat) : Int) = .ok (m, (q : Int)) ∧
      findMaximum (hostOf m ['-', 'A', 'A', 'T'] ['-', 'A', 'G', 'T'] 4 (q : Int))
        = .ok (((q / 4 : Nat) : Int), ((q % 4 : Nat) : Int)) ∧
      ∀ fuel1, q / 4 + q % 4 < fuel1 →
        ∃ (out : TraceLog) (a b : Nat),
          tracebackLog fuel1 (hostOf m ['-', 'A', 'A', 'T'] ['-', 'A', 'G', 'T'] 4 (q : Int))
            = .ok out ∧
          traceback fuel1 (hostOf m ['-', 'A', 'A', 'T'] ['-', 'A', 'G', 'T'] 4 (q : Int))
            = .ok (alignmentsOf out.columns) ∧
          out.iterations = (alignmentsOf out.columns).1.length ∧
          out.iterations ≤ q / 4 + q % 4 ∧
          out.current = ((a : Int), (b : Int)) ∧ a < 4 ∧ b < 4 ∧
          out.iterations + (a + b) ≤ q / 4 + q % 4 ∧
          scoreAt m 4 a b = 0 ∧
          columnsWeight out.columns + (a + b) = q / 4 + q % 4 ∧
          (0 < scoreOf (m.getD q 0) → out.iterations + 1 ≤ q / 4 + q % 4) :=
  traceback_terminates 4 ['-', 'A', 'A', 'T'] ['-', 'A', 'G', 'T'] (List.replicate 16 7) 5 16
    (by decide) (by decide) (by decide) (by decide) (by decide) (by decide)

/-- C17: on a valid input the columns inserted by the traceback from the
recorded position, scored `+2` for two equal symbols, `-1` for two different
symbols and `-1` for a column with a gap marker, sum to the score stored at the
recorded index; no column holds a gap marker in both vectors; and the two
vectors `alignment1`, `alignment2` are what these columns spell. -/
theorem traceback_score (L : Nat) (s1 s2 : List Char) (m0 : List Int) (mi : Int)
    (fuel : Nat) (hL : 1 ≤ L) (hLL : L * L ≤ 32767) (h1 : s1.length = L)
    (h2 : s2.length = L) (hm : L * L ≤ m0.length) (hf : L * L ≤ fuel) :
    ∃ (m : List Int) (q : Nat),
      smithwaterman fuel m0 mi s1 s2 (L : Int) = .ok (m, (q : Int)) ∧
      ∀ fuel1, q / L + q % L < fuel1 →
        ∃ (out : TraceLog),
          tracebackLog fuel1 (hostOf m s1 s2 L (q : Int)) = .ok out ∧
          traceback fuel1 (hostOf m s1 s2 L (q : Int)) = .ok (alignmentsOf out.columns) ∧
          columnsScore out.columns = scoreOf (m.getD q 0) ∧
          (∀ c, c ∈ out.columns → c ≠ (none, none)) ∧
          (∀ c, c ∈ out.columns → GoodColumn s1 s2 L c) := by
  obtain ⟨m, q, e, _, hcells, _, hq, _, _⟩ :=
    smithwaterman_spec s1 s2 L m0 mi fuel hL hLL h1 h2 hm hf
  refine ⟨m, q, e, ?_⟩
  intro fuel1 hf1
  obtain ⟨out, hout, ⟨cols, a, b, q1, _, q3, q4, _, _, _, _, _, _, _, _⟩, _⟩ :=
    tracebackLog_built s1 s2 m L q hL hLL h1 h2 hcells hq fuel1 hf1
  have hcols : out.columns = cols := by rw [q1]; simp
  refine ⟨out, hout, traceback_of_log fuel1 _ out hout, ?_, ?_, ?_⟩
  · rw [hcols, q3, scoreOf_at_index s1 s2 m L q hLL hcells hq]
  · intro c hc; rw [hcols] at hc; exact (q4 c hc).1
  · intro c hc; rw [hcols] at hc; exact q4 c hc

/-- Witness of C17 on `s1 = "-AAT"`, `s2 = "-AGT"`, `L = 4`. -/
theorem traceback_score_witness :
    ∃ (m : List Int) (q : Nat),
      smithwaterman 16 (List.replicate 16 7) 5 ['-', 'A', 'A', 'T'] ['-', 'A', 'G', 'T']
        ((4 : Nat) : Int) = .ok (m, (q : Int)) ∧
      ∀ fuel1, q / 4 + q % 4 < fuel1 →
        ∃ (out : TraceLog),
          tracebackLog fuel1 (hostOf m ['-', 'A', 'A', 'T'] ['-', 'A', 'G', 'T'] 4 (q : Int))
            = .ok out ∧
          traceback fuel1 (hostOf m ['-', 'A', 'A', 'T'] ['-', 'A', 'G', 'T'] 4 (q : Int))
            = .ok (alignmentsOf out.columns) ∧
          columnsScore out.columns = scoreOf (m.getD q 0) ∧
          (∀ c, c ∈ out.columns → c ≠ (none, none)) ∧
          (∀ c, c ∈ out.columns →
            GoodColumn ['-', 'A', 'A', 'T'] ['-', 'A', 'G', 'T'] 4 c) :=
  traceback_score 4 ['-', 'A', 'A', 'T'] ['-', 'A', 'G', 'T'] (List.replicate 16 7) 5 16
    (by decide) (by decide) (by decide) (by decide) (by decide) (by decide)

/-- C20: on a valid input every matrix read of the traceback (by `findPrev`
and by the zero guard) is at a position with `0 ≤ row < L` and `0 ≤ col < L`,
so `(-1, -1)` is never read; and every symbol inserted into a vector was read
from `s1`, respectively `s2`, at an index in `1 .. L - 1`. -/
theorem traceback_in_bounds (L : Nat) (s1 s2 : List Char) (m0 : List Int) (mi : Int)
    (fuel : Nat) (hL : 1 ≤ L) (hLL : L * L ≤ 32767) (h1 : s1.length = L)
    (h2 : s2.length = L) (hm : L * L ≤ m0.length) (hf : L * L ≤ fuel) :
    ∃ (m : List Int) (q : Nat),
      smithwaterman fuel m0 mi s1 s2 (L : Int) = .ok (m, (q : Int)) ∧
      ∀ fuel1, q / L + q % L < fuel1 →
        ∃ (out : TraceLog),
          tracebackLog fuel1 (hostOf m s1 s2 L (q : Int)) = .ok out ∧
          traceback fuel1 (hostOf m s1 s2 L (q : Int)) = .ok (alignmentsOf out.columns) ∧
          (∀ p, p ∈ out.matrixReads →
            0 ≤ p.1 ∧ p.1 < (L : Int) ∧ 0 ≤ p.2 ∧ p.2 < (L : Int)) ∧
          (-1, -1) ∉ out.matrixReads ∧
          (∀ c k ch, c ∈ out.columns → c.1 = some (k, ch) →
            1 ≤ k ∧ k < (L : Int) ∧ s1[k.toNat]? = some ch) ∧
          (∀ c k ch, c ∈ out.columns → c.2 = some (k, ch) →
            1 ≤ k ∧ k < (L : Int) ∧ s2[k.toNat]? = some ch) := by
  obtain ⟨m, q, e, _, hcells, _, hq, _, _⟩ :=
    smithwaterman_spec s1 s2 L m0 mi fuel hL hLL h1 h2 hm hf
  refine ⟨m, q, e, ?_⟩
  intro fuel1 hf1
  obtain ⟨out, hout, ⟨cols, a, b, q1, _, _, q4, _, _, _, _, _, _, _, _⟩, ⟨reads, r1, r2⟩⟩ :=
    tracebackLog_built s1 s2 m L q hL hLL h1 h2 hcells hq fuel1 hf1
  have hcols : out.columns = cols := by rw [q1]; simp
  have hreads : ∀ p, p ∈ out.matrixReads → InMatrix L p := by
    intro p hp
    rw [r1, List.mem_append, List.mem_singleton] at hp
    rcases hp with hp | hp
    · rw [hp]
      exact inMatrix_nat L _ _ (Nat.div_lt_of_lt_mul hq) (Nat.mod_lt q hL)
    · exact r2 p hp
  refine ⟨out, hout, traceback_of_log fuel1 _ out hout, hreads, ?_, ?_, ?_⟩
  · intro hmem
    have := (hreads _ hmem).1
    exact absurd this (by decide)
  · intro c k ch hc hk
    rw [hcols] at hc
    exact (q4 c hc).2.1 k ch hk
  · intro c k ch hc hk
    rw [hcols] at hc
    exact (q4 c hc).2.2 k ch hk

/-- Witness of C20 on `s1 = "-AAT"`, `s2 = "-AGT"`, `L = 4`. -/
theorem traceback_in_bounds_witness :
    ∃ (m : List Int) (q : Nat),
      smithwaterman 16 (List.replicate 16 7) 5 ['-', 'A', 'A', 'T'] ['-', 'A', 'G', 'T']
        ((4 : Nat) : Int) = .ok (m, (q : Int)) ∧
      ∀ fuel1, q / 4 + q % 4 < fuel1 →
        ∃ (out : TraceLog),
          tracebackLog fuel1 (hostOf m ['-', 'A', 'A', 'T'] ['-', 'A', 'G', 'T'] 4 (q : Int))
            = .ok out ∧
          traceback fuel1 (hostOf m ['-', 'A', 'A', 'T'] ['-', 'A', 'G', 'T'] 4 (q : Int))
            = .ok (alignmentsOf out.columns) ∧
          (∀ p, p ∈ out.matrixReads →
            0 ≤ p.1 ∧ p.1 < ((4 : Nat) : Int) ∧ 0 ≤ p.2 ∧ p.2 < ((4 : Nat) : Int)) ∧
          (-1, -1) ∉ out.matrixReads ∧
          (∀ c k ch, c ∈ out.columns → c.1 = some (k, ch) →
            1 ≤ k ∧ k < ((4 : Nat) : Int) ∧ ['-', 'A', 'A', 'T'][k.toNat]? = some ch) ∧
          (∀ c k ch, c ∈ out.columns → c.2 = some (k, ch) →
            1 ≤ k ∧ k < ((4 : Nat) : Int) ∧ ['-', 'A', 'G', 'T'][k.toNat]? = some ch) :=
  traceback_in_bounds 4 ['-', 'A', 'A', 'T'] ['-', 'A', 'G', 'T'] (List.replicate 16 7) 5 16
    (by decide) (by decide) (by decide) (by decide) (by decide) (by decide)

/-! ## Length of the traceback and the recorded maximum -/

theorem columnScore_cases (c : TraceColumn) : columnScore c = 2 ∨ columnScore c = -1 := by
  rcases c with ⟨_ | ⟨k, a⟩, _ | ⟨k1, b⟩⟩
  · right; rfl
  · right; rfl
  · right; rfl
  · show (if a = b then (2 : Int) else -1) = 2 ∨ (if a = b then (2 : Int) else -1) = -1
    by_cases h : a = b
    · left; rw [if_pos h]
    · right; rw [if_neg h]

theorem columnsScore_le (cols : List TraceColumn) :
    columnsScore cols ≤ 2 * (cols.length : Int) := by
  induction cols with
  | nil => simp [columnsScore]
  | cons c cs ih =>
    have h := columnScore_cases c
    show columnScore c + columnsScore cs ≤ 2 * ((cs.length + 1 : Nat) : Int)
    push_cast
    omega

theorem pred_of_sum (p x s : Int) (h : p + x = s) (hx : x = 2 ∨ x = -1) (hp : p ≤ s) :
    p = s - 2 := by
  omega

theorem max_step (s1 s2 : List Char) (L r c : Nat) (h1 : s1.length = L) (h2 : s2.length = L)
    (hr : r < L) (hc : c < L)
    (hmax : ∀ idx, idx < L * L → refScore s1 s2 (idx / L) (idx % L) ≤ refScore s1 s2 r c)
    (hpos : 0 < refScore s1 s2 r c) :
    refScore s1 s2 (predRow (refDir s1 s2 r c) r) (predCol (refDir s1 s2 r c) c)
      = refScore s1 s2 r c - 2 := by
  obtain ⟨hr1, hc1⟩ := pos_of_score_pos s1 s2 r c hpos
  have hd := dir_of_score_pos s1 s2 r c hpos
  obtain ⟨p1, p2, _, _, _⟩ := pred_lt (refDir s1 s2 r c) r c hr1 hc1 hd
  have hr' := Nat.lt_of_le_of_lt p1 hr
  have hc' := Nat.lt_of_le_of_lt p2 hc
  obtain ⟨c1, e1⟩ := getElem?_some_of_lt s1 c (by rw [h1]; exact hc)
  obtain ⟨c2, e2⟩ := getElem?_some_of_lt s2 r (by rw [h2]; exact hr)
  have hs := step_score s1 s2 r c c1 c2 hr1 hc1 e1 e2 hd
  have hm := hmax _ (idx_lt _ _ L hr' hc')
  rw [(idx_divmod _ _ L hc').1, (idx_divmod _ _ L hc').2] at hm
  exact pred_of_sum _ _ _ hs (columnScore_cases _) hm

theorem printSimilarity_short (fuel : Nat) (hd : KernelHostData) (a1 a2 : List Char)
    (h : traceback fuel hd = .ok (a1, a2)) (h2 : a1.length ≤ 1) :
    printSimilarity fuel hd = .ok (-1, none) := by
  have hl := traceback_length fuel hd a1 a2 h
  unfold printSimilarity
  rw [h]
  simp only [← hl]
  rcases Nat.le_one_iff_eq_zero_or_eq_one.mp h2 with e | e
  · simp [e]
  · simp [e]

theorem length_ge_two (n : Nat) (s : Int) (h : s ≤ 2 * (n : Int)) (hs : 3 ≤ s) : 2 ≤ n := by
  omega

theorem score_trichotomy (s : Int) (h0 : 0 ≤ s) (h1 : s ≠ 1) : s = 0 ∨ s = 2 ∨ 3 ≤ s := by
  omega

/-- C18: on a valid input the score stored at the recorded index is never 1;
the traceback returns two vectors of equal length, empty when that score is 0,
of length exactly 1 when it is 2 and of length at least 2 when it is at least
3; and `printSimilarity` returns `0` with the alignment if and only if the
score is at least 3, and `-1` otherwise. -/
theorem traceback_success_iff (L : Nat) (s1 s2 : List Char) (m0 : List Int) (mi : Int)
    (fuel : Nat) (hL : 1 ≤ L) (hLL : L * L ≤ 32767) (h1 : s1.length = L)
    (h2 : s2.length = L) (hm : L * L ≤ m0.length) (hf : L * L ≤ fuel) :
    ∃ (m : List Int) (q : Nat),
      smithwaterman fuel m0 mi s1 s2 (L : Int) = .ok (m, (q : Int)) ∧
      scoreOf (m.getD q 0) ≠ 1 ∧
      ∀ fuel1, q / L + q % L < fuel1 →
        ∃ (a1 a2 : List Char),
          traceback fuel1 (hostOf m s1 s2 L (q : Int)) = .ok (a1, a2) ∧
          a1.length = a2.length ∧
          (scoreOf (m.getD q 0) = 0 → a1 = [] ∧ a2 = []) ∧
          (scoreOf (m.getD q 0) = 2 → a1.length = 1) ∧
          (3 ≤ scoreOf (m.getD q 0) → 2 ≤ a1.length) ∧
          (printSimilarity fuel1 (hostOf m s1 s2 L (q : Int)) = .ok (0, some (a1, a2))
            ↔ 3 ≤ scoreOf (m.getD q 0)) ∧
          (printSimilarity fuel1 (hostOf m s1 s2 L (q : Int)) = .ok (-1, none)
            ↔ scoreOf (m.getD q 0) < 3) := by
  obtain ⟨m, q, e, _, hcells, _, hq, hmax, _⟩ :=
    smithwaterman_spec s1 s2 L m0 mi fuel hL hLL h1 h2 hm hf
  have hr : q / L < L := Nat.div_lt_of_lt_mul hq
  have hc : q % L < L := Nat.mod_lt q hL
  have hsc := scoreOf_at_index s1 s2 m L q hLL hcells hq
  have h0 := refScore_nonneg s1 s2 (q / L) (q % L)
  have hne1 : refScore s1 s2 (q / L) (q % L) ≠ 1 := by
    intro e1
    have hstep := max_step s1 s2 L _ _ h1 h2 hr hc hmax (by rw [e1]; decide)
    have hnn := refScore_nonneg s1 s2
      (predRow (refDir s1 s2 (q / L) (q % L)) (q / L))
      (predCol (refDir s1 s2 (q / L) (q % L)) (q % L))
    rw [hstep, e1] at hnn
    exact absurd hnn (by decide)
  refine ⟨m, q, e, by rw [hsc]; exact hne1, ?_⟩
  intro fuel1 hf1
  rw [hsc]
  obtain ⟨out, hout, ⟨cols, a, b, q1, _, q3, _, q5, _, q6, _, _, _, _, _⟩, _⟩ :=
    tracebackLog_built s1 s2 m L q hL hLL h1 h2 hcells hq fuel1 hf1
  have hcols : out.columns = cols := by rw [q1]; simp
  have htb := traceback_of_log fuel1 _ out hout
  rw [hcols] at htb
  have hlen1 := (alignmentsOf_length cols).1
  have hlen2 := (alignmentsOf_length cols).2
  have hzero : refScore s1 s2 (q / L) (q % L) = 0 →
      (alignmentsOf cols).1 = [] ∧ (alignmentsOf cols).2 = [] := by
    intro hz; rw [q5 hz]; exact ⟨rfl, rfl⟩
  have htwo : refScore s1 s2 (q / L) (q % L) = 2 → (alignmentsOf cols).1.length = 1 := by
    intro h2'
    have hpos : 0 < refScore s1 s2 (q / L) (q % L) := by rw [h2']; decide
    have hstep := max_step s1 s2 L _ _ h1 h2 hr hc hmax hpos
    rw [h2'] at hstep
    rw [hlen1]
    exact q6 hpos hstep
  have hthree : 3 ≤ refScore s1 s2 (q / L) (q % L) → 2 ≤ (alignmentsOf cols).1.length := by
    intro h3
    rw [hlen1]
    have := columnsScore_le cols
    rw [q3] at this
    exact length_ge_two _ _ this h3
  have hs0 : refScore s1 s2 (q / L) (q % L) = 0 → (alignmentsOf cols).1.length ≤ 1 := by
    intro hz; rw [(hzero hz).1]; decide
  have hs2 : refScore s1 s2 (q / L) (q % L) = 2 → (alignmentsOf cols).1.length ≤ 1 := by
    intro ht; rw [htwo ht]
  refine ⟨(alignmentsOf cols).1, (alignmentsOf cols).2, htb, by rw [hlen1, hlen2],
    hzero, htwo, hthree, ?_, ?_⟩
  · constructor
    · intro hp
      rcases score_trichotomy _ h0 hne1 with hz | ht | h3
      · have hs := printSimilarity_short fuel1 _ _ _ htb (hs0 hz)
        rw [hs] at hp
        exact absurd hp (by simp)
      · have hs := printSimilarity_short fuel1 _ _ _ htb (hs2 ht)
        rw [hs] at hp
        exact absurd hp (by simp)
      · exact h3
    · intro h3
      exact printSimilarity_ok fuel1 _ _ _ htb (hthree h3)
  · constructor
    · intro hp
      by_contra hcon
      have h3 : 3 ≤ refScore s1 s2 (q / L) (q % L) := not_lt.mp hcon
      rw [printSimilarity_ok fuel1 _ _ _ htb (hthree h3)] at hp
      exact absurd hp (by simp)
    · intro hlt
      rcases score_trichotomy _ h0 hne1 with hz | ht | h3
      · exact printSimilarity_short fuel1 _ _ _ htb (hs0 hz)
      · exact printSimilarity_short fuel1 _ _ _ htb (hs2 ht)
      · exact absurd hlt (not_lt.mpr h3)

/-- Witness of C18 on `s1 = "-AAT"`, `s2 = "-AGT"`, `L = 4`. -/
theorem traceback_success_iff_witness :
    ∃ (m : List Int) (q : Nat),
      smithwaterman 16 (List.replicate 16 7) 5 ['-', 'A', 'A', 'T'] ['-', 'A', 'G', 'T']
        ((4 : Nat) : Int) = .ok (m, (q : Int)) ∧
      scoreOf (m.getD q 0) ≠ 1 ∧
      ∀ fuel1, q / 4 + q % 4 < fuel1 →
        ∃ (a1 a2 : List Char),
          traceback fuel1 (hostOf m ['-', 'A', 'A', 'T'] ['-', 'A', 'G', 'T'] 4 (q : Int))
            = .ok (a1, a2) ∧
          a1.length = a2.length ∧
          (scoreOf (m.getD q 0) = 0 → a1 = [] ∧ a2 = []) ∧
          (scoreOf (m.getD q 0) = 2 → a1.length = 1) ∧
          (3 ≤ scoreOf (m.getD q 0) → 2 ≤ a1.length) ∧
          (printSimilarity fuel1
              (hostOf m ['-', 'A', 'A', 'T'] ['-', 'A', 'G', 'T'] 4 (q : Int))
              = .ok (0, some (a1, a2))
            ↔ 3 ≤ scoreOf (m.getD q 0)) ∧
          (printSimilarity fuel1
              (hostOf m ['-', 'A', 'A', 'T'] ['-', 'A', 'G', 'T'] 4 (q : Int))
              = .ok (-1, none)
            ↔ scoreOf (m.getD q 0) < 3) :=
  traceback_success_iff 4 ['-', 'A', 'A', 'T'] ['-', 'A', 'G', 'T'] (List.replicate 16 7) 5 16
    (by decide) (by decide) (by decide) (by decide) (by decide) (by decide)

/-! ## The 16-bit loop counter -/

theorem toShort_le (x : Int) : toShort x ≤ 32767 := by
  unfold toShort; omega

theorem swBody_index (s1 s2 : List Char) (N : Int) (st st1 : SWState)
    (h : swBody s1 s2 N st = .ok st1) : st1.index = toShort (st.index + 1) := by
  unfold swBody at h
  simp only [] at h
  repeat' split at h
  all_goals first
    | (cases h; rfl)
    | exact absurd h (by simp)

theorem swLoop_never (s1 s2 : List Char) (N : Int) (hN : 32767 < N * N) (fuel : Nat) :
    ∀ (st : SWState) (r : SWState), st.index ≤ 32767 → swLoop s1 s2 N fuel st ≠ .ok r := by
  induction fuel with
  | zero => intro st r _ h; simp [swLoop] at h
  | succ fuel ih =>
    intro st r hst h
    have hguard : st.index < N * N := lt_of_le_of_lt hst hN
    rw [swLoop, if_pos hguard] at h
    cases hb : swBody s1 s2 N st with
    | error e => rw [hb] at h; exact absurd h (by simp)
    | ok st1 =>
      rw [hb] at h
      have hi := swBody_index s1 s2 N st st1 hb
      exact ih st1 r (by rw [hi]; exact toShort_le _) h

theorem smithwaterman_never (s1 s2 : List Char) (N : Int) (hN : 32767 < N * N) (fuel : Nat)
    (matrix : List Int) (maxIndex : Int) (r : List Int × Int) :
    smithwaterman fuel matrix maxIndex s1 s2 N ≠ .ok r := by
  intro h
  unfold smithwaterman at h
  split at h
  · exact absurd h (by simp)
  · split at h
    · exact absurd h (by simp)
    · rename_i st hst
      exact swLoop_never s1 s2 N hN fuel _ st (toShort_le _) hst

theorem swBody_after_wrap (s1 s2 : List Char) (st : SWState) (h : st.index = -32768) :
    swBody s1 s2 182 st = .error .outOfBounds := by
  have hj : toShort (cMod st.index 182) = -8 := by rw [h]; decide
  have hl : load st.matrix (st.index - 182) = .error .outOfBounds := by
    rw [h]; unfold load; rw [if_pos (by decide)]
  unfold swBody
  simp only [hj, hl]
  rfl

/-- C15 (the code at the failing dimension): for `L = 182` the largest possible
score `2 * (L - 1) = 362` fits the signed 16-bit field, but `L * L = 33124`
exceeds the largest value 32767 of the 16-bit loop counter.  The increment at
32767 wraps the counter to -32768, an iteration entered with that counter
reads `matrix[index - N]` below the buffer, and the loop condition
`index < N * N` never becomes false: whatever the buffer, the sequences and
the fuel, `smithwaterman` does not return. -/
theorem smithwaterman_counter_wraps :
    2 * ((182 : Int) - 1) ≤ 32767 ∧
    toShort (32767 + 1) = -32768 ∧
    (∀ (s1 s2 : List Char) (st : SWState),
      swBody s1 s2 182 { st with index := -32768 } = .error .outOfBounds) ∧
    ∀ (fuel : Nat) (matrix : List Int) (maxIndex : Int) (s1 s2 : List Char)
      (r : List Int × Int),
      smithwaterman fuel matrix maxIndex s1 s2 182 ≠ .ok r :=
  ⟨by decide, by decide, fun s1 s2 st => swBody_after_wrap s1 s2 _ rfl,
    fun fuel matrix maxIndex s1 s2 r =>
      smithwaterman_never s1 s2 182 (by decide) fuel matrix maxIndex r⟩

/-! ## The scenario `"-AAT"` against `"-AGT"` -/

theorem smithwaterman_run_eq (L : Nat) (s1 s2 : List Char) (z0 m0 : List Int) (mi0 mi : Int)
    (f0 fuel : Nat) (M : List Int) (Q : Int) (hL : 1 ≤ L) (hLL : L * L ≤ 32767)
    (h1 : s1.length = L) (h2 : s2.length = L) (hz : L * L ≤ z0.length)
    (hm : L * L ≤ m0.length) (hf0 : L * L ≤ f0) (hf : L * L ≤ fuel)
    (hd : m0.drop (L * L) = z0.drop (L * L))
    (hrun : smithwaterman f0 z0 mi0 s1 s2 (L : Int) = .ok (M, Q)) :
    smithwaterman fuel m0 mi s1 s2 (L : Int) = .ok (M, Q) := by
  obtain ⟨m, q, e, hlen, hc, hr, hq, hmax, hfirst⟩ :=
    smithwaterman_spec s1 s2 L m0 mi fuel hL hLL h1 h2 hm hf
  obtain ⟨m', q', e', hlen', hc', hr', hq', hmax', hfirst'⟩ :=
    smithwaterman_spec s1 s2 L z0 mi0 f0 hL hLL h1 h2 hz hf0
  have hqq : q = q' := first_max_unique (fun k => refScore s1 s2 (k / L) (k % L)) q q' (L * L)
    hq hq' hmax hfirst hmax' hfirst'
  have hmm : m = m' := by
    refine built_ext s1 s2 L m m' ?_ hc hc' ?_
    · rw [hlen, hlen']; exact drop_length m0 z0 _ hd hm hz
    · intro idx hidx
      rw [hr idx hidx, hr' idx hidx]
      exact drop_getElem? m0 z0 _ idx hd hidx
  rw [e, hmm, hqq, ← e', hrun]

theorem traceLoop_mono (hd : KernelHostData) (fuel : Nat) :
    ∀ (k : Nat) (cur prev : Position) (a1 a2 : List Char) (r : List Char × List Char),
      traceLoop hd fuel cur prev a1 a2 = .ok r →
      traceLoop hd (fuel + k) cur prev a1 a2 = .ok r := by
  induction fuel with
  | zero => intro k cur prev a1 a2 r h; simp [traceLoop] at h
  | succ fuel ih =>
    intro k cur prev a1 a2 r h
    rw [Nat.add_right_comm, traceLoop]
    rw [traceLoop] at h
    simp only [] at h ⊢
    repeat' split at h
    all_goals first
      | (cases h <;>
          simp only [*, if_true, if_false, ne_eq, not_true_eq_false, not_false_eq_true])
      | (simp only [*, if_true, if_false, ne_eq, not_true_eq_false, not_false_eq_true]
         exact ih k _ _ _ _ r h)

theorem traceback_mono (fuel k : Nat) (hd : KernelHostData) (r : List Char × List Char)
    (h : traceback fuel hd = .ok r) : traceback (fuel + k) hd = .ok r := by
  unfold traceback at h ⊢
  cases hfm : findMaximum hd with
  | error e => rw [hfm] at h; exact absurd h (by simp)
  | ok cur =>
    rw [hfm] at h
    simp only [] at h ⊢
    cases hfp : findPrev hd cur with
    | error e => rw [hfp] at h; exact absurd h (by simp)
    | ok prev =>
      rw [hfp] at h
      simp only [] at h ⊢
      exact traceLoop_mono hd fuel k cur prev [] [] r h

theorem drop_all (m0 : List Int) (n : Nat) (h : m0.length = n) :
    m0.drop n = (List.replicate n (0 : Int)).drop n := by
  rw [List.drop_of_length_le (Nat.le_of_eq h),
    List.drop_of_length_le (Nat.le_of_eq (List.length_replicate n 0))]

/-- C13: for `s1 = "-AAT"`, `s2 = "-AGT"`, `L = 4`, from any initial buffer of
`L * L` cells, the builder returns the matrix below: the scores on the main
diagonal are 2, 1, 3, the cells (2, 2) and (3, 3) carry NORTH_WEST, the
recorded index 15 is cell (3, 3) with the largest score 3; the traceback
returns `alignment1 = "AAT"`, `alignment2 = "AGT"`, `printSimilarity` succeeds
with them, and neither contains the gap marker. -/
theorem scenario_single_mismatch (m0 : List Int) (mi : Int) (fuel : Nat)
    (hm : m0.length = 16) (hf : 16 ≤ fuel) :
    smithwaterman fuel m0 mi ['-', 'A', 'A', 'T'] ['-', 'A', 'G', 'T'] ((4 : Nat) : Int)
      = .ok ([0, 0, 0, 0, 0, 131074, 131074, 196609, 0, 65537, 131073, 131073,
              0, 0, 0, 131075], 15) ∧
    scoreAt [0, 0, 0, 0, 0, 131074, 131074, 196609, 0, 65537, 131073, 131073,
              0, 0, 0, 131075] 4 1 1 = 2 ∧
    scoreAt [0, 0, 0, 0, 0, 131074, 131074, 196609, 0, 65537, 131073, 131073,
              0, 0, 0, 131075] 4 2 2 = 1 ∧
    scoreAt [0, 0, 0, 0, 0, 131074, 131074, 196609, 0, 65537, 131073, 131073,
              0, 0, 0, 131075] 4 3 3 = 3 ∧
    dirAt [0, 0, 0, 0, 0, 131074, 131074, 196609, 0, 65537, 131073, 131073,
              0, 0, 0, 131075] 4 2 2 = NORTH_WEST ∧
    dirAt [0, 0, 0, 0, 0, 131074, 131074, 196609, 0, 65537, 131073, 131073,
              0, 0, 0, 131075] 4 3 3 = NORTH_WEST ∧
    findMaximum (hostOf [0, 0, 0, 0, 0, 131074, 131074, 196609, 0, 65537, 131073, 131073,
              0, 0, 0, 131075] ['-', 'A', 'A', 'T'] ['-', 'A', 'G', 'T'] 4 15) = .ok (3, 3) ∧
    (∀ i, i < 4 → ∀ j, j < 4 →
      scoreAt [0, 0, 0, 0, 0, 131074, 131074, 196609, 0, 65537, 131073, 131073,
              0, 0, 0, 131075] 4 i j ≤ 3) ∧
    traceback fuel (hostOf [0, 0, 0, 0, 0, 131074, 131074, 196609, 0, 65537, 131073, 131073,
              0, 0, 0, 131075] ['-', 'A', 'A', 'T'] ['-', 'A', 'G', 'T'] 4 15)
      = .ok (['A', 'A', 'T'], ['A', 'G', 'T']) ∧
    printSimilarity fuel (hostOf [0, 0, 0, 0, 0, 131074, 131074, 196609, 0, 65537, 131073,
              131073, 0, 0, 0, 131075] ['-', 'A', 'A', 'T'] ['-', 'A', 'G', 'T'] 4 15)
      = .ok (0, some (['A', 'A', 'T'], ['A', 'G', 'T'])) ∧
    '-' ∉ ['A', 'A', 'T'] ∧ '-' ∉ ['A', 'G', 'T'] := by
  have hrun : smithwaterman 16 (List.replicate 16 0) 0 ['-', 'A', 'A', 'T']
      ['-', 'A', 'G', 'T'] ((4 : Nat) : Int)
      = .ok ([0, 0, 0, 0, 0, 131074, 131074, 196609, 0, 65537, 131073, 131073,
              0, 0, 0, 131075], 15) := by decide
  have hsw := smithwaterman_run_eq 4 ['-', 'A', 'A', 'T'] ['-', 'A', 'G', 'T']
    (List.replicate 16 0) m0 0 mi 16 fuel _ _ (by decide) (by decide) (by decide) (by decide)
    (by decide) (Nat.le_of_eq hm.symm) (by decide) hf (drop_all m0 16 hm) hrun
  have htb16 : traceback 16 (hostOf [0, 0, 0, 0, 0, 131074, 131074, 196609, 0, 65537, 131073,
      131073, 0, 0, 0, 131075] ['-', 'A', 'A', 'T'] ['-', 'A', 'G', 'T'] 4 15)
      = .ok (['A', 'A', 'T'], ['A', 'G', 'T']) := by decide
  have htb := traceback_mono 16 (fuel - 16) _ _ htb16
  rw [Nat.add_sub_cancel' hf] at htb
  refine ⟨hsw, by decide, by decide, by decide, by decide, by decide, by decide, by decide,
    htb, printSimilarity_ok fuel _ _ _ htb (by decide), by decide, by decide⟩

/-- Witness of C13 with an initial buffer of 16 non-zero cells. -/
theorem scenario_single_mismatch_witness :
    smithwaterman 16 (List.replicate 16 7) 5 ['-', 'A', 'A', 'T'] ['-', 'A', 'G', 'T']
        ((4 : Nat) : Int)
      = .ok ([0, 0, 0, 0, 0, 131074, 131074, 196609, 0, 65537, 131073, 131073,
              0, 0, 0, 131075], 15) ∧
    scoreAt [0, 0, 0, 0, 0, 131074, 131074, 196609, 0, 65537, 131073, 131073,
              0, 0, 0, 131075] 4 1 1 = 2 ∧
    scoreAt [0, 0, 0, 0, 0, 131074, 131074, 196609, 0, 65537, 131073, 131073,
              0, 0, 0, 131075] 4 2 2 = 1 ∧
    scoreAt [0, 0, 0, 0, 0, 131074, 131074, 196609, 0, 65537, 131073, 131073,
              0, 0, 0, 131075] 4 3 3 = 3 ∧
    dirAt [0, 0, 0, 0, 0, 131074, 131074, 196609, 0, 65537, 131073, 131073,
              0, 0, 0, 131075] 4 2 2 = NORTH_WEST ∧
    dirAt [0, 0, 0, 0, 0, 131074, 131074, 196609, 0, 65537, 131073, 131073,
              0, 0, 0, 131075] 4 3 3 = NORTH_WEST ∧
    findMaximum (hostOf [0, 0, 0, 0, 0, 131074, 131074, 196609, 0, 65537, 131073, 131073,
              0, 0, 0, 131075] ['-', 'A', 'A', 'T'] ['-', 'A', 'G', 'T'] 4 15) = .ok (3, 3) ∧
    (∀ i, i < 4 → ∀ j, j < 4 →
      scoreAt [0, 0, 0, 0, 0, 131074, 131074, 196609, 0, 65537, 131073, 131073,
              0, 0, 0, 131075] 4 i j ≤ 3) ∧
    traceback 16 (hostOf [0, 0, 0, 0, 0, 131074, 131074, 196609, 0, 65537, 131073, 131073,
              0, 0, 0, 131075] ['-', 'A', 'A', 'T'] ['-', 'A', 'G', 'T'] 4 15)
      = .ok (['A', 'A', 'T'], ['A', 'G', 'T']) ∧
    printSimilarity 16 (hostOf [0, 0, 0, 0, 0, 131074, 131074, 196609, 0, 65537, 131073,
              131073, 0, 0, 0, 131075] ['-', 'A', 'A', 'T'] ['-', 'A', 'G', 'T'] 4 15)
      = .ok (0, some (['A', 'A', 'T'], ['A', 'G', 'T'])) ∧
    '-' ∉ ['A', 'A', 'T'] ∧ '-' ∉ ['A', 'G', 'T'] :=
  scenario_single_mismatch (List.replicate 16 7) 5 16 (by decide) (by decide)

end SmithWaterman
